import Mathlib

/-!
# Verification of the toy DNS server's packet codec and resolver

A shallow embedding of `src/lib.rs` (crate `toy_dns_server`): the 512-byte
packet buffer, the DNS name codec with pointer compression, the header,
question and record codecs, packet assembly, and the pure core of the
resolver and query handler.

Conventions of the embedding:
* Rust `u8`/`u16`/`u32`/`usize` values are `Nat`; a Rust integer cast
  (`as u8`, `as u16`) becomes an explicit `% 2^w` (or `&&& mask`, exactly as
  the source writes it).
* Rust `String` values are byte lists (`List Nat`); all theorems about names
  carry an ASCII hypothesis, under which byte-level splitting on `.` and
  byte-level lowercasing agree with Rust's `split('.')` and `to_lowercase()`.
* Fallible Rust functions (`anyhow::Result`) become `Except`.  The decode
  path of `BytePacketBuffer` never mutates the byte array, only the cursor,
  so reader functions take the (read-only) array and an explicit cursor and
  return the value together with the new cursor; writer functions thread the
  whole buffer structure.
* `buffer[position] = value` on the fixed `[u8; 512]` array panics in Rust
  when `position ≥ 512`; the panic is modelled by the dedicated error value
  `panicIndexOutOfBounds`, distinct from the `BytePacketBufferError` values
  the source can return.
-/

instance {ε α : Type} [DecidableEq ε] [DecidableEq α] : DecidableEq (Except ε α) := by
  intro a b
  cases a <;> cases b
  case error.error e1 e2 =>
    exact match decEq e1 e2 with
      | isTrue h => isTrue (by rw [h])
      | isFalse h => isFalse (by intro hc; cases hc; exact h rfl)
  case error.ok e1 v2 => exact isFalse (by intro hc; cases hc)
  case ok.error v1 e2 => exact isFalse (by intro hc; cases hc)
  case ok.ok v1 v2 =>
    exact match decEq v1 v2 with
      | isTrue h => isTrue (by rw [h])
      | isFalse h => isFalse (by intro hc; cases hc; exact h rfl)

/-- Errors of the buffer layer (`BytePacketBufferError` in the source), plus
`panicIndexOutOfBounds` modelling a Rust index-out-of-bounds panic in `set`
(which the source performs without a bounds check). -/
inductive BytePacketBufferError where
  | endOfBuffer
  | limitOfJumpsExceeded (n : Nat)
  | singleLabelExceedsCharactersOfLength
  | panicIndexOutOfBounds
  deriving DecidableEq

/-- `MAX_BUFFER_SIZE` in the source. -/
def MAX_BUFFER_SIZE : Nat := 512

namespace DnsBuf

open BytePacketBufferError

abbrev Res (α : Type) := Except BytePacketBufferError α

/-- `BytePacketBuffer::get`: random-access single byte, no cursor movement. -/
def get (arr : List Nat) (position : Nat) : Res Nat :=
  if position ≥ MAX_BUFFER_SIZE then .error endOfBuffer
  else .ok (arr.getD position 0)

/-- `BytePacketBuffer::get_range`: `len` bytes from `start`, no cursor
movement.  The source's bound is `start + len >= MAX_BUFFER_SIZE`. -/
def get_range (arr : List Nat) (start len : Nat) : Res (List Nat) :=
  if start + len ≥ MAX_BUFFER_SIZE then .error endOfBuffer
  else .ok ((arr.drop start).take len)

/-- `BytePacketBuffer::read`: sequential byte read; returns the byte and the
advanced cursor. -/
def read (arr : List Nat) (position : Nat) : Res (Nat × Nat) :=
  if position ≥ MAX_BUFFER_SIZE then .error endOfBuffer
  else .ok (arr.getD position 0, position + 1)

/-- `BytePacketBuffer::read_u16` (big-endian). -/
def read_u16 (arr : List Nat) (position : Nat) : Res (Nat × Nat) := do
  let (a, p1) ← read arr position
  let (b, p2) ← read arr p1
  .ok ((a <<< 8) ||| b, p2)

/-- `BytePacketBuffer::read_u32` (big-endian). -/
def read_u32 (arr : List Nat) (position : Nat) : Res (Nat × Nat) := do
  let (a, p1) ← read arr position
  let (b, p2) ← read arr p1
  let (c, p3) ← read arr p2
  let (d, p4) ← read arr p3
  .ok ((a <<< 24) ||| (b <<< 16) ||| (c <<< 8) ||| d, p4)

/-- Byte-level model of `String::from_utf8_lossy(..).to_lowercase()` applied
to one label: exact on ASCII bytes; every theorem that uses it carries an
ASCII hypothesis on the name. -/
def lowerByte (b : Nat) : Nat :=
  if 65 ≤ b ∧ b ≤ 90 then b + 32 else b

/-- The loop body of `BytePacketBuffer::read_qname`.  `selfPos` is the
enclosing buffer's cursor (`self.position`), `position` the local scan
cursor; `jumped`, `jumpPerformed` and the pending delimiter `delim` are the
loop's locals.  On success it returns the accumulated name bytes and the
final value of the enclosing cursor (the source's `self.seek`). -/
def readQnameLoop (arr : List Nat) (selfPos position : Nat) (jumped : Bool)
    (jumpPerformed : Nat) (out delim : List Nat) : Res (List Nat × Nat) :=
  if jumpPerformed > 5 then .error (limitOfJumpsExceeded 5)
  else
    match hget : get arr position with
    | .error e => .error e
    | .ok len =>
      if len &&& 0xC0 = 0xC0 then
        let selfPos' := if !jumped then position + 2 else selfPos
        match get arr (position + 1) with
        | .error e => .error e
        | .ok b2 =>
          readQnameLoop arr selfPos' ((((len ^^^ 0xC0)) <<< 8) ||| b2) true
            (jumpPerformed + 1) out delim
      else
        if len = 0 then
          .ok (out, if jumped then selfPos else position + 1)
        else
          match get_range arr (position + 1) len with
          | .error e => .error e
          | .ok bytes =>
            readQnameLoop arr selfPos (position + 1 + len) jumped
              jumpPerformed (out ++ delim ++ bytes.map lowerByte) [46]
  termination_by (6 - jumpPerformed, MAX_BUFFER_SIZE - position)
  decreasing_by
  · apply Prod.Lex.left
    omega
  · apply Prod.Lex.right
    have hlt : position < MAX_BUFFER_SIZE := by
      unfold get at hget
      split at hget
      · exact absurd hget (by simp)
      · omega
    omega

/-- `BytePacketBuffer::read_qname`: starts the scan at the enclosing cursor,
appends to `out`, returns the name bytes and the final cursor. -/
def read_qname (arr : List Nat) (selfPos : Nat) (out : List Nat) :
    Res (List Nat × Nat) :=
  readQnameLoop arr selfPos selfPos false 0 out []

end DnsBuf

/-- `BytePacketBuffer`: the fixed 512-byte array plus the cursor.  The write
path threads this structure; byte lists standing for the array always have
length 512 (`freshBuffer` below). -/
structure BytePacketBuffer where
  buffer : List Nat
  position : Nat
  deriving DecidableEq

/-- `BytePacketBuffer::new` / `Default::default`. -/
def freshBuffer : BytePacketBuffer :=
  { buffer := List.replicate MAX_BUFFER_SIZE 0, position := 0 }

namespace BytePacketBuffer

open BytePacketBufferError

abbrev Res (α : Type) := Except BytePacketBufferError α

/-- `BytePacketBuffer::write`: bounds-checked sequential byte write. -/
def write (b : BytePacketBuffer) (value : Nat) : Res BytePacketBuffer :=
  if b.position ≥ MAX_BUFFER_SIZE then .error endOfBuffer
  else .ok { buffer := b.buffer.set b.position value, position := b.position + 1 }

/-- `BytePacketBuffer::write_u8`. -/
def write_u8 (b : BytePacketBuffer) (value : Nat) : Res BytePacketBuffer :=
  write b value

/-- `BytePacketBuffer::write_u16` (big-endian; `as u8` casts made explicit). -/
def write_u16 (b : BytePacketBuffer) (value : Nat) : Res BytePacketBuffer := do
  let b ← write b ((value >>> 8) % 256)
  write b (value &&& 0xFF)

/-- `BytePacketBuffer::write_u32` (big-endian). -/
def write_u32 (b : BytePacketBuffer) (value : Nat) : Res BytePacketBuffer := do
  let b ← write b ((value >>> 24) &&& 0xFF)
  let b ← write b ((value >>> 16) &&& 0xFF)
  let b ← write b ((value >>> 8) &&& 0xFF)
  write b (value &&& 0xFF)

/-- Writes the bytes of one label (the inner `for b in label.as_bytes()`
loop of `write_qname`). -/
def writeBytes (b : BytePacketBuffer) : List Nat → Res BytePacketBuffer
  | [] => .ok b
  | v :: rest => do
    let b ← write_u8 b v
    writeBytes b rest

/-- The label loop of `write_qname`: length check, length byte, label bytes. -/
def writeLabels (b : BytePacketBuffer) : List (List Nat) → Res BytePacketBuffer
  | [] => .ok b
  | l :: ls => do
    if l.length > 0x3F then
      .error singleLabelExceedsCharactersOfLength
    else
      let b ← write_u8 b (l.length % 256)
      let b ← writeBytes b l
      writeLabels b ls

/-- Byte-level model of Rust's `str::split('.')`: splits on byte 46,
keeping empty pieces; the empty string yields one empty label. -/
def splitOnDot : List Nat → List (List Nat)
  | [] => [[]]
  | b :: rest =>
    let r := splitOnDot rest
    if b = 46 then [] :: r
    else
      match r with
      | h :: t => (b :: h) :: t
      | [] => [[b]]

/-- `BytePacketBuffer::write_qname`: every label as `[len][bytes]`, then the
`0x00` terminator. -/
def write_qname (b : BytePacketBuffer) (qname : List Nat) : Res BytePacketBuffer := do
  let b ← writeLabels b (splitOnDot qname)
  write_u8 b 0

/-- `BytePacketBuffer::set`: absolute single-byte patch.  The source indexes
the 512-byte array with **no bounds check**; an out-of-range `position`
panics in Rust, modelled by `panicIndexOutOfBounds`. -/
def set (b : BytePacketBuffer) (position value : Nat) : Res BytePacketBuffer :=
  if position < MAX_BUFFER_SIZE then
    .ok { buffer := b.buffer.set position value, position := b.position }
  else .error panicIndexOutOfBounds

/-- `BytePacketBuffer::set_u16`: absolute big-endian 2-byte patch. -/
def set_u16 (b : BytePacketBuffer) (position value : Nat) : Res BytePacketBuffer := do
  let b ← set b position ((value >>> 8) % 256)
  set b (position + 1) (value &&& 0xFF)

end BytePacketBuffer

/-! ## Protocol data model -/

/-- `ResultCode` (rescode enum). -/
inductive ResultCode where
  | noError
  | formErr
  | servFail
  | nxDomain
  | notImp
  | refused
  deriving DecidableEq

/-- `ResultCode::from(num: u8)`: 1–5 map to the named codes, everything else
to `NoError`. -/
def ResultCode.fromNum (num : Nat) : ResultCode :=
  if num = 1 then .formErr
  else if num = 2 then .servFail
  else if num = 3 then .nxDomain
  else if num = 4 then .notImp
  else if num = 5 then .refused
  else .noError

/-- `self.rescode as u8` (declaration-order discriminants 0–5). -/
def ResultCode.toNum : ResultCode → Nat
  | .noError => 0
  | .formErr => 1
  | .servFail => 2
  | .nxDomain => 3
  | .notImp => 4
  | .refused => 5

/-- `DnsHeader`. -/
structure DnsHeader where
  id : Nat
  recursion_desired : Bool
  truncated_message : Bool
  authoritative_answer : Bool
  opcode : Nat
  response : Bool
  rescode : ResultCode
  checking_disabled : Bool
  authentic_data : Bool
  z : Bool
  recursion_available : Bool
  questions : Nat
  answers : Nat
  authoritative_entries : Nat
  resource_entries : Nat
  deriving DecidableEq

/-- `DnsHeader::new` / `Default::default`. -/
def DnsHeader.new : DnsHeader :=
  { id := 0, recursion_desired := false, truncated_message := false,
    authoritative_answer := false, opcode := 0, response := false,
    rescode := .noError, checking_disabled := false, authentic_data := false,
    z := false, recursion_available := false, questions := 0, answers := 0,
    authoritative_entries := 0, resource_entries := 0 }

/-- `DnsHeader::read`. -/
def DnsHeader.read (arr : List Nat) (pos : Nat) : DnsBuf.Res (DnsHeader × Nat) := do
  let (id, p1) ← DnsBuf.read_u16 arr pos
  let (flags, p2) ← DnsBuf.read_u16 arr p1
  let a := (flags >>> 8) % 256
  let b := flags &&& 0xFF
  let (questions, p3) ← DnsBuf.read_u16 arr p2
  let (answers, p4) ← DnsBuf.read_u16 arr p3
  let (authoritative_entries, p5) ← DnsBuf.read_u16 arr p4
  let (resource_entries, p6) ← DnsBuf.read_u16 arr p5
  .ok ({ id := id,
         recursion_desired := (a &&& (1 <<< 0)) > 0,
         truncated_message := (a &&& (1 <<< 1)) > 0,
         authoritative_answer := (a &&& (1 <<< 2)) > 0,
         opcode := (a >>> 3) &&& 0x0F,
         response := (a &&& (1 <<< 7)) > 0,
         rescode := ResultCode.fromNum (b &&& 0x0F),
         checking_disabled := (b &&& (1 <<< 4)) > 0,
         authentic_data := (b &&& (1 <<< 5)) > 0,
         z := (b &&& (1 <<< 6)) > 0,
         recursion_available := (b &&& (1 <<< 7)) > 0,
         questions := questions, answers := answers,
         authoritative_entries := authoritative_entries,
         resource_entries := resource_entries }, p6)

/-- The first flags byte written by `DnsHeader::write` (u8 arithmetic, so the
`opcode << 3` shift is reduced mod 256 as in Rust). -/
def DnsHeader.flagByteA (h : DnsHeader) : Nat :=
  h.recursion_desired.toNat
    ||| (h.truncated_message.toNat <<< 1)
    ||| (h.authoritative_answer.toNat <<< 2)
    ||| ((h.opcode <<< 3) % 256)
    ||| (h.response.toNat <<< 7)

/-- The second flags byte written by `DnsHeader::write`. -/
def DnsHeader.flagByteB (h : DnsHeader) : Nat :=
  h.rescode.toNum
    ||| (h.checking_disabled.toNat <<< 4)
    ||| (h.authentic_data.toNat <<< 5)
    ||| (h.z.toNat <<< 6)
    ||| (h.recursion_available.toNat <<< 7)

/-- `DnsHeader::write`. -/
def DnsHeader.write (h : DnsHeader) (b : BytePacketBuffer) :
    BytePacketBuffer.Res BytePacketBuffer := do
  let b ← b.write_u16 h.id
  let b ← b.write_u8 h.flagByteA
  let b ← b.write_u8 h.flagByteB
  let b ← b.write_u16 h.questions
  let b ← b.write_u16 h.answers
  let b ← b.write_u16 h.authoritative_entries
  b.write_u16 h.resource_entries

/-- `QueryType`. -/
inductive QueryType where
  | a
  | ns
  | cname
  | mx
  | aaaa
  | unknown (num : Nat)
  deriving DecidableEq

/-- `QueryType::from(num: u16)`. -/
def QueryType.fromNum (num : Nat) : QueryType :=
  if num = 1 then .a
  else if num = 2 then .ns
  else if num = 5 then .cname
  else if num = 15 then .mx
  else if num = 28 then .aaaa
  else .unknown num

/-- `u16::from(qtype)`. -/
def QueryType.toNum : QueryType → Nat
  | .a => 1
  | .ns => 2
  | .cname => 5
  | .mx => 15
  | .aaaa => 28
  | .unknown num => num

/-- `DnsQuestion`. -/
structure DnsQuestion where
  name : List Nat
  qtype : QueryType
  deriving DecidableEq

/-- `DnsQuestion::read` (the caller passes the fresh empty name the source
constructs with `DnsQuestion::new("".to_string(), ..)`). -/
def DnsQuestion.read (arr : List Nat) (pos : Nat) : DnsBuf.Res (DnsQuestion × Nat) := do
  let (name, p1) ← DnsBuf.read_qname arr pos []
  let (tnum, p2) ← DnsBuf.read_u16 arr p1
  let (_, p3) ← DnsBuf.read_u16 arr p2
  .ok ({ name := name, qtype := QueryType.fromNum tnum }, p3)

/-- `DnsQuestion::write` (class written as the literal 1). -/
def DnsQuestion.write (q : DnsQuestion) (b : BytePacketBuffer) :
    BytePacketBuffer.Res BytePacketBuffer := do
  let b ← b.write_qname q.name
  let b ← b.write_u16 q.qtype.toNum
  b.write_u16 1

/-- `Ipv4Addr` (four octets). -/
structure Ipv4Addr where
  o0 : Nat
  o1 : Nat
  o2 : Nat
  o3 : Nat
  deriving DecidableEq

/-- `Ipv6Addr` (eight 16-bit segments). -/
structure Ipv6Addr where
  s0 : Nat
  s1 : Nat
  s2 : Nat
  s3 : Nat
  s4 : Nat
  s5 : Nat
  s6 : Nat
  s7 : Nat
  deriving DecidableEq

/-- `DnsRecord`. -/
inductive DnsRecord where
  | a (domain : List Nat) (addr : Ipv4Addr) (ttl : Nat)
  | ns (domain : List Nat) (host : List Nat) (ttl : Nat)
  | cname (domain : List Nat) (host : List Nat) (ttl : Nat)
  | mx (domain : List Nat) (priority : Nat) (host : List Nat) (ttl : Nat)
  | aaaa (domain : List Nat) (addr : Ipv6Addr) (ttl : Nat)
  | unknown (domain : List Nat) (qtype : Nat) (data_len : Nat) (ttl : Nat)
  deriving DecidableEq

/-- `DnsRecord::read`. -/
def DnsRecord.read (arr : List Nat) (pos : Nat) : DnsBuf.Res (DnsRecord × Nat) := do
  let (domain, p1) ← DnsBuf.read_qname arr pos []
  let (qtype_num, p2) ← DnsBuf.read_u16 arr p1
  let (_, p3) ← DnsBuf.read_u16 arr p2
  let (ttl, p4) ← DnsBuf.read_u32 arr p3
  let (data_len, p5) ← DnsBuf.read_u16 arr p4
  match QueryType.fromNum qtype_num with
  | .a => do
    let (raw_addr, p6) ← DnsBuf.read_u32 arr p5
    .ok (DnsRecord.a domain
      { o0 := (raw_addr >>> 24) &&& 0xFF, o1 := (raw_addr >>> 16) &&& 0xFF,
        o2 := (raw_addr >>> 8) &&& 0xFF, o3 := raw_addr &&& 0xFF } ttl, p6)
  | .ns => do
    let (host, p6) ← DnsBuf.read_qname arr p5 []
    .ok (DnsRecord.ns domain host ttl, p6)
  | .cname => do
    let (host, p6) ← DnsBuf.read_qname arr p5 []
    .ok (DnsRecord.cname domain host ttl, p6)
  | .mx => do
    let (priority, p6) ← DnsBuf.read_u16 arr p5
    let (host, p7) ← DnsBuf.read_qname arr p6 []
    .ok (DnsRecord.mx domain priority host ttl, p7)
  | .aaaa => do
    let (r1, p6) ← DnsBuf.read_u32 arr p5
    let (r2, p7) ← DnsBuf.read_u32 arr p6
    let (r3, p8) ← DnsBuf.read_u32 arr p7
    let (r4, p9) ← DnsBuf.read_u32 arr p8
    .ok (DnsRecord.aaaa domain
      { s0 := (r1 >>> 16) &&& 0xFFFF, s1 := r1 &&& 0xFFFF,
        s2 := (r2 >>> 16) &&& 0xFFFF, s3 := r2 &&& 0xFFFF,
        s4 := (r3 >>> 16) &&& 0xFFFF, s5 := r3 &&& 0xFFFF,
        s6 := (r4 >>> 16) &&& 0xFFFF, s7 := r4 &&& 0xFFFF } ttl, p9)
  | .unknown _ =>
    -- `buffer.step(data_len)` then the Unknown variant.
    .ok (DnsRecord.unknown domain qtype_num data_len ttl, p5 + data_len)

/-- `DnsRecord::write`: returns the buffer and the number of bytes written
(`buffer.position - start`).  NS/CNAME/MX back-patch RDLENGTH with `set_u16`;
`Unknown` records are skipped (only logged in the source). -/
def DnsRecord.write (r : DnsRecord) (b : BytePacketBuffer) :
    BytePacketBuffer.Res (BytePacketBuffer × Nat) := do
  let start := b.position
  match r with
  | .a domain addr ttl => do
    let b ← b.write_qname domain
    let b ← b.write_u16 QueryType.a.toNum
    let b ← b.write_u16 1
    let b ← b.write_u32 ttl
    let b ← b.write_u16 4
    let b ← b.write_u8 addr.o0
    let b ← b.write_u8 addr.o1
    let b ← b.write_u8 addr.o2
    let b ← b.write_u8 addr.o3
    .ok (b, b.position - start)
  | .ns domain host ttl => do
    let b ← b.write_qname domain
    let b ← b.write_u16 QueryType.ns.toNum
    let b ← b.write_u16 1
    let b ← b.write_u32 ttl
    let position := b.position
    let b ← b.write_u16 0
    let b ← b.write_qname host
    let size := b.position - (position + 2)
    let b ← b.set_u16 position (size % 65536)
    .ok (b, b.position - start)
  | .cname domain host ttl => do
    let b ← b.write_qname domain
    let b ← b.write_u16 QueryType.cname.toNum
    let b ← b.write_u16 1
    let b ← b.write_u32 ttl
    let position := b.position
    let b ← b.write_u16 0
    let b ← b.write_qname host
    let size := b.position - (position + 2)
    let b ← b.set_u16 position (size % 65536)
    .ok (b, b.position - start)
  | .mx domain priority host ttl => do
    let b ← b.write_qname domain
    let b ← b.write_u16 QueryType.mx.toNum
    let b ← b.write_u16 1
    let b ← b.write_u32 ttl
    let position := b.position
    let b ← b.write_u16 0
    let b ← b.write_u16 priority
    let b ← b.write_qname host
    let size := b.position - (position + 2)
    let b ← b.set_u16 position (size % 65536)
    .ok (b, b.position - start)
  | .aaaa domain addr ttl => do
    let b ← b.write_qname domain
    let b ← b.write_u16 QueryType.aaaa.toNum
    let b ← b.write_u16 1
    let b ← b.write_u32 ttl
    let b ← b.write_u16 16
    let b ← b.write_u16 addr.s0
    let b ← b.write_u16 addr.s1
    let b ← b.write_u16 addr.s2
    let b ← b.write_u16 addr.s3
    let b ← b.write_u16 addr.s4
    let b ← b.write_u16 addr.s5
    let b ← b.write_u16 addr.s6
    let b ← b.write_u16 addr.s7
    .ok (b, b.position - start)
  | .unknown _ _ _ _ =>
    -- the source only prints a skip notice
    .ok (b, b.position - start)

/-- `DnsPacket`. -/
structure DnsPacket where
  header : DnsHeader
  questions : List DnsQuestion
  answers : List DnsRecord
  authorities : List DnsRecord
  resources : List DnsRecord
  deriving DecidableEq

/-- `DnsPacket::new`. -/
def DnsPacket.new : DnsPacket :=
  { header := DnsHeader.new, questions := [], answers := [],
    authorities := [], resources := [] }

/-- The question loop of `DnsPacket::from_buffer`. -/
def readQuestions (arr : List Nat) (pos : Nat) :
    Nat → DnsBuf.Res (List DnsQuestion × Nat)
  | 0 => .ok ([], pos)
  | n + 1 => do
    let (q, p1) ← DnsQuestion.read arr pos
    let (qs, p2) ← readQuestions arr p1 n
    .ok (q :: qs, p2)

/-- One record-section loop of `DnsPacket::from_buffer`. -/
def readRecords (arr : List Nat) (pos : Nat) :
    Nat → DnsBuf.Res (List DnsRecord × Nat)
  | 0 => .ok ([], pos)
  | n + 1 => do
    let (r, p1) ← DnsRecord.read arr pos
    let (rs, p2) ← readRecords arr p1 n
    .ok (r :: rs, p2)

/-- `DnsPacket::from_buffer`: header, then the four sections, their sizes
taken from the header counters. -/
def DnsPacket.from_buffer (arr : List Nat) (pos : Nat) :
    DnsBuf.Res (DnsPacket × Nat) := do
  let (header, p1) ← DnsHeader.read arr pos
  let (questions, p2) ← readQuestions arr p1 header.questions
  let (answers, p3) ← readRecords arr p2 header.answers
  let (authorities, p4) ← readRecords arr p3 header.authoritative_entries
  let (resources, p5) ← readRecords arr p4 header.resource_entries
  .ok ({ header := header, questions := questions, answers := answers,
         authorities := authorities, resources := resources }, p5)

/-- The question loop of `DnsPacket::write`. -/
def writeQuestions (b : BytePacketBuffer) :
    List DnsQuestion → BytePacketBuffer.Res BytePacketBuffer
  | [] => .ok b
  | q :: qs => do
    let b ← q.write b
    writeQuestions b qs

/-- One record-section loop of `DnsPacket::write` (the returned byte count of
`DnsRecord::write` is discarded, as in the source). -/
def writeRecords (b : BytePacketBuffer) :
    List DnsRecord → BytePacketBuffer.Res BytePacketBuffer
  | [] => .ok b
  | r :: rs => do
    let (b, _) ← r.write b
    writeRecords b rs

/-- The header counters `DnsPacket::write` recomputes from the section
lengths before writing (`as u16` casts made explicit). -/
def DnsPacket.recountedHeader (p : DnsPacket) : DnsHeader :=
  { p.header with
    questions := p.questions.length % 65536,
    answers := p.answers.length % 65536,
    authoritative_entries := p.authorities.length % 65536,
    resource_entries := p.resources.length % 65536 }

/-- `DnsPacket::write`. -/
def DnsPacket.write (p : DnsPacket) (b : BytePacketBuffer) :
    BytePacketBuffer.Res BytePacketBuffer := do
  let b ← p.recountedHeader.write b
  let b ← writeQuestions b p.questions
  let b ← writeRecords b p.answers
  let b ← writeRecords b p.authorities
  writeRecords b p.resources

/-! ## Resolver layer -/

/-- `DnsPacket::get_random_a`: the first A answer's address. -/
def DnsPacket.get_random_a (p : DnsPacket) : Option Ipv4Addr :=
  (p.answers.filterMap fun r =>
    match r with
    | .a _ addr _ => some addr
    | _ => none).head?

/-- `DnsPacket::get_ns`: NS `(domain, host)` pairs from the authority section
whose domain is a plain byte-string suffix of `qname` (`qname.ends_with`). -/
def DnsPacket.get_ns (p : DnsPacket) (qname : List Nat) :
    List (List Nat × List Nat) :=
  (p.authorities.filterMap fun r =>
    match r with
    | .ns domain host _ => some (domain, host)
    | _ => none).filter fun pair => pair.1.isSuffixOf qname

/-- `DnsPacket::get_resolved_ns`: the first additional-section A address whose
domain equals a matching NS host (NS pairs in authority order, A records in
additional order). -/
def DnsPacket.get_resolved_ns (p : DnsPacket) (qname : List Nat) :
    Option Ipv4Addr :=
  ((p.get_ns qname).flatMap fun pair =>
    p.resources.filterMap fun r =>
      match r with
      | .a domain addr _ => if domain = pair.2 then some addr else none
      | _ => none).head?

/-- `DnsPacket::get_unresolved_ns`: the first matching NS host. -/
def DnsPacket.get_unresolved_ns (p : DnsPacket) (qname : List Nat) :
    Option (List Nat) :=
  ((p.get_ns qname).map fun pair => pair.2).head?

/-- The hard-coded root nameserver `198.41.0.4`. -/
def rootNs : Ipv4Addr := { o0 := 198, o1 := 41, o2 := 0, o3 := 4 }

/-- An upstream exchange: what `lookup(qname, qtype, (server, 53))` returns.
The UDP transport is replaced by this oracle. -/
abbrev Upstream := List Nat → QueryType → Ipv4Addr → Except BytePacketBufferError DnsPacket

/-- The body of `recursive_lookup`, with the bare `loop` and the recursive
call bounded by explicit fuel; `none` means the fuel ran out (the source's
loop has no intrinsic bound). -/
def recursiveLookupGo (upstream : Upstream) :
    Nat → List Nat → QueryType → Ipv4Addr →
    Option (Except BytePacketBufferError DnsPacket)
  | 0, _, _, _ => none
  | fuel + 1, qname, qtype, ns =>
    match upstream qname qtype ns with
    | .error e => some (.error e)
    | .ok response =>
      if response.answers ≠ [] ∧ response.header.rescode = ResultCode.noError then
        some (.ok response)
      else if response.header.rescode = ResultCode.nxDomain then
        some (.ok response)
      else
        match response.get_resolved_ns qname with
        | some newNs => recursiveLookupGo upstream fuel qname qtype newNs
        | none =>
          match response.get_unresolved_ns qname with
          | none => some (.ok response)
          | some host =>
            match recursiveLookupGo upstream fuel host QueryType.a rootNs with
            | none => none
            | some (.error e) => some (.error e)
            | some (.ok recursive_response) =>
              match recursive_response.get_random_a with
              | some newNs => recursiveLookupGo upstream fuel qname qtype newNs
              | none => some (.ok response)

/-- `recursive_lookup(qname, qtype)`: starts at the root server. -/
def recursive_lookup (upstream : Upstream) (fuel : Nat) (qname : List Nat)
    (qtype : QueryType) : Option (Except BytePacketBufferError DnsPacket) :=
  recursiveLookupGo upstream fuel qname qtype rootNs

/-- The pure core of `handle_query`: builds the response packet from the
decoded request, with the `recursive_lookup` exchange abstracted as
`resolve` (`.error` standing for any resolver failure). -/
def buildResponse (req : DnsPacket)
    (resolve : List Nat → QueryType → Except BytePacketBufferError DnsPacket) :
    DnsPacket :=
  let base : DnsPacket :=
    { DnsPacket.new with
      header := { DnsHeader.new with
        id := req.header.id,
        recursion_desired := true,
        recursion_available := true,
        response := true } }
  match req.questions.getLast? with
  | none =>
    { base with header := { base.header with rescode := ResultCode.formErr } }
  | some question =>
    match resolve question.name question.qtype with
    | .ok result =>
      { base with
        header := { base.header with rescode := result.header.rescode },
        questions := [question],
        answers := result.answers,
        authorities := result.authorities,
        resources := result.resources }
    | .error _ =>
      { base with header := { base.header with rescode := ResultCode.servFail } }

/-! ## Pure byte-level encodings

For the round-trip theorems, the effect of each writer on the buffer is
captured as a pure byte list. -/

/-- The two big-endian bytes `write_u16` emits. -/
def encU16 (v : Nat) : List Nat := [(v >>> 8) % 256, v &&& 0xFF]

/-- The four big-endian bytes `write_u32` emits. -/
def encU32 (v : Nat) : List Nat :=
  [(v >>> 24) &&& 0xFF, (v >>> 16) &&& 0xFF, (v >>> 8) &&& 0xFF, v &&& 0xFF]

/-- The bytes the label loop of `write_qname` emits. -/
def encLabels : List (List Nat) → List Nat
  | [] => []
  | l :: ls => (l.length % 256) :: (l ++ encLabels ls)

/-- The bytes `write_qname` emits: labels, then the terminator. -/
def encQname (s : List Nat) : List Nat :=
  encLabels (BytePacketBuffer.splitOnDot s) ++ [0]

/-- The 12 bytes `DnsHeader::write` emits. -/
def encHeader (h : DnsHeader) : List Nat :=
  encU16 h.id ++ [h.flagByteA, h.flagByteB] ++ encU16 h.questions ++
    encU16 h.answers ++ encU16 h.authoritative_entries ++
    encU16 h.resource_entries

/-- The bytes `DnsQuestion::write` emits. -/
def encQuestion (q : DnsQuestion) : List Nat :=
  encQname q.name ++ encU16 q.qtype.toNum ++ encU16 1

/-- The bytes `DnsRecord::write` emits (for NS/CNAME/MX the RDLENGTH takes
its back-patched value; `Unknown` emits nothing). -/
def encRecord : DnsRecord → List Nat
  | .a domain addr ttl =>
    encQname domain ++ encU16 1 ++ encU16 1 ++ encU32 ttl ++ encU16 4 ++
      [addr.o0, addr.o1, addr.o2, addr.o3]
  | .ns domain host ttl =>
    encQname domain ++ encU16 2 ++ encU16 1 ++ encU32 ttl ++
      encU16 ((encQname host).length % 65536) ++ encQname host
  | .cname domain host ttl =>
    encQname domain ++ encU16 5 ++ encU16 1 ++ encU32 ttl ++
      encU16 ((encQname host).length % 65536) ++ encQname host
  | .mx domain priority host ttl =>
    encQname domain ++ encU16 15 ++ encU16 1 ++ encU32 ttl ++
      encU16 ((2 + (encQname host).length) % 65536) ++ encU16 priority ++
      encQname host
  | .aaaa domain addr ttl =>
    encQname domain ++ encU16 28 ++ encU16 1 ++ encU32 ttl ++ encU16 16 ++
      encU16 addr.s0 ++ encU16 addr.s1 ++ encU16 addr.s2 ++ encU16 addr.s3 ++
      encU16 addr.s4 ++ encU16 addr.s5 ++ encU16 addr.s6 ++ encU16 addr.s7
  | .unknown _ _ _ _ => []

/-- The bytes `DnsPacket::write` emits. -/
def encPacket (p : DnsPacket) : List Nat :=
  encHeader p.recountedHeader ++ (p.questions.flatMap encQuestion) ++
    (p.answers.flatMap encRecord) ++ (p.authorities.flatMap encRecord) ++
    (p.resources.flatMap encRecord)

/-! ## Normalization and well-formedness (the claims' "up to" clauses) -/

/-- ASCII lowercasing of a whole name (what decoding does to names). -/
def asciiLower (s : List Nat) : List Nat := s.map DnsBuf.lowerByte

/-- A question after an encode/decode round trip: name lowercased. -/
def normQuestion (q : DnsQuestion) : DnsQuestion :=
  { name := asciiLower q.name, qtype := q.qtype }

/-- A record after an encode/decode round trip: names lowercased. -/
def normRecord : DnsRecord → DnsRecord
  | .a domain addr ttl => .a (asciiLower domain) addr ttl
  | .ns domain host ttl => .ns (asciiLower domain) (asciiLower host) ttl
  | .cname domain host ttl => .cname (asciiLower domain) (asciiLower host) ttl
  | .mx domain priority host ttl =>
    .mx (asciiLower domain) priority (asciiLower host) ttl
  | .aaaa domain addr ttl => .aaaa (asciiLower domain) addr ttl
  | .unknown domain qtype data_len ttl =>
    .unknown (asciiLower domain) qtype data_len ttl

/-- A packet after an encode/decode round trip: header counters recomputed
from section lengths, every name lowercased. -/
def normalizePacket (p : DnsPacket) : DnsPacket :=
  { header := p.recountedHeader,
    questions := p.questions.map normQuestion,
    answers := p.answers.map normRecord,
    authorities := p.authorities.map normRecord,
    resources := p.resources.map normRecord }

/-- All bytes of the name are ASCII. -/
abbrev NameAscii (s : List Nat) : Prop := ∀ b ∈ s, b < 128

/-- Every dot-separated label of the name is at most 63 octets. -/
abbrev LabelsShort (s : List Nat) : Prop :=
  ∀ l ∈ BytePacketBuffer.splitOnDot s, l.length ≤ 63

/-- The name is empty (root) or has no empty label (no leading, trailing or
doubled dot). -/
abbrev NoEmptyLabel (s : List Nat) : Prop :=
  s = [] ∨ ∀ l ∈ BytePacketBuffer.splitOnDot s, l ≠ []

/-- A name whose wire encoding decodes back to its own lowercase **and**
leaves the cursor exactly past the encoding: ASCII, labels of 1–63 octets.
(The empty name is excluded: `write_qname` emits two zero bytes for it while
`read_qname` consumes only one, shifting every later field.) -/
abbrev NameWF (s : List Nat) : Prop :=
  NameAscii s ∧ LabelsShort s ∧ ∀ l ∈ BytePacketBuffer.splitOnDot s, l ≠ []

/-- Joining decoded labels: each label lowercased, the pending delimiter
emitted before every label (the loop's `delim` starts as the argument and is
`.` from the second label on). -/
def joinLabelsLower (delim : List Nat) : List (List Nat) → List Nat
  | [] => []
  | l :: ls => delim ++ l.map DnsBuf.lowerByte ++ joinLabelsLower [46] ls

/-- Octets of an IPv4 address fit in `u8`. -/
abbrev Ipv4WF (a : Ipv4Addr) : Prop :=
  a.o0 < 256 ∧ a.o1 < 256 ∧ a.o2 < 256 ∧ a.o3 < 256

/-- Segments of an IPv6 address fit in `u16`. -/
abbrev Ipv6WF (a : Ipv6Addr) : Prop :=
  a.s0 < 65536 ∧ a.s1 < 65536 ∧ a.s2 < 65536 ∧ a.s3 < 65536 ∧
    a.s4 < 65536 ∧ a.s5 < 65536 ∧ a.s6 < 65536 ∧ a.s7 < 65536

/-- The numeric query type is not written as one of the recognized codes
(otherwise decoding would turn `Unknown(n)` into the named variant). -/
abbrev QTypeCanonical : QueryType → Prop
  | .unknown n => n ≠ 1 ∧ n ≠ 2 ∧ n ≠ 5 ∧ n ≠ 15 ∧ n ≠ 28 ∧ n < 65536
  | _ => True

/-- A question that round-trips. -/
abbrev QuestionWF (q : DnsQuestion) : Prop := NameWF q.name ∧ QTypeCanonical q.qtype

/-- A record of one of the five concrete types (no `Unknown`), with names and
machine integers in range. -/
abbrev RecordWF : DnsRecord → Prop
  | .a domain addr ttl => NameWF domain ∧ Ipv4WF addr ∧ ttl < 2 ^ 32
  | .ns domain host ttl => NameWF domain ∧ NameWF host ∧ ttl < 2 ^ 32
  | .cname domain host ttl => NameWF domain ∧ NameWF host ∧ ttl < 2 ^ 32
  | .mx domain priority host ttl =>
    NameWF domain ∧ priority < 65536 ∧ NameWF host ∧ ttl < 2 ^ 32
  | .aaaa domain addr ttl => NameWF domain ∧ Ipv6WF addr ∧ ttl < 2 ^ 32
  | .unknown _ _ _ _ => False

/-- Header fields in range; `opcode < 16` keeps the 4-bit opcode inside its
slot of the packed flags byte. -/
abbrev HeaderWF (h : DnsHeader) : Prop := h.id < 65536 ∧ h.opcode < 16

/-- A packet whose encode/decode round trip is claimed. -/
abbrev PacketWF (p : DnsPacket) : Prop :=
  HeaderWF p.header ∧ (∀ q ∈ p.questions, QuestionWF q) ∧
    (∀ r ∈ p.answers, RecordWF r) ∧ (∀ r ∈ p.authorities, RecordWF r) ∧
    (∀ r ∈ p.resources, RecordWF r)

instance : DecidablePred QTypeCanonical := fun q =>
  match q with
  | .a => isTrue trivial
  | .ns => isTrue trivial
  | .cname => isTrue trivial
  | .mx => isTrue trivial
  | .aaaa => isTrue trivial
  | .unknown n =>
    inferInstanceAs (Decidable (n ≠ 1 ∧ n ≠ 2 ∧ n ≠ 5 ∧ n ≠ 15 ∧ n ≠ 28 ∧
      n < 65536))

instance : DecidablePred RecordWF := fun r =>
  match r with
  | .a domain addr ttl =>
    inferInstanceAs (Decidable (NameWF domain ∧ Ipv4WF addr ∧ ttl < 2 ^ 32))
  | .ns domain host ttl =>
    inferInstanceAs (Decidable (NameWF domain ∧ NameWF host ∧ ttl < 2 ^ 32))
  | .cname domain host ttl =>
    inferInstanceAs (Decidable (NameWF domain ∧ NameWF host ∧ ttl < 2 ^ 32))
  | .mx domain priority host ttl =>
    inferInstanceAs (Decidable (NameWF domain ∧ priority < 65536 ∧
      NameWF host ∧ ttl < 2 ^ 32))
  | .aaaa domain addr ttl =>
    inferInstanceAs (Decidable (NameWF domain ∧ Ipv6WF addr ∧ ttl < 2 ^ 32))
  | .unknown _ _ _ _ => isFalse (fun h => h)

/-- `Writes b b' bs`: the step from buffer `b` to buffer `b'` appended
exactly the bytes `bs` at the cursor — length preserved, cursor advanced by
`bs.length` and still within the 512-byte array, bytes before the old cursor
untouched, bytes at the old cursor equal to `bs`. -/
def Writes (b b' : BytePacketBuffer) (bs : List Nat) : Prop :=
  b'.buffer.length = b.buffer.length ∧
  b'.position = b.position + bs.length ∧
  b'.position ≤ MAX_BUFFER_SIZE ∧
  (∀ i, i < b.position → b'.buffer.getD i 0 = b.buffer.getD i 0) ∧
  (∀ i, i < bs.length → b'.buffer.getD (b.position + i) 0 = bs.getD i 0)

/-- `rangeEq arr p bs`: the byte array holds exactly `bs` at positions
`p, …, p + bs.length - 1`, a range lying within the 512-byte packet. -/
def rangeEq (arr : List Nat) (p : Nat) (bs : List Nat) : Prop :=
  p + bs.length ≤ MAX_BUFFER_SIZE ∧
  ∀ i, i < bs.length → arr.getD (p + i) 0 = bs.getD i 0

/-- A decode-path result is a success, `EndOfBuffer`, or the jump-limit
error `LimitOfJumpsExceeded 5` — never a write-path or panic error. -/
def DecodeResOk {α : Type} (res : Except BytePacketBufferError α) : Prop :=
  (∃ v, res = .ok v) ∨ res = .error .endOfBuffer ∨
    res = .error (.limitOfJumpsExceeded 5)

/-! ## Spec-side restatement of glue selection (for the refinement claim) -/

/-- Modelled from the spec's words: "search the additional section for an A
record whose `domain` equals the NS host" — the first such A address. -/
def findGlueSpec (resources : List DnsRecord) (host : List Nat) : Option Ipv4Addr :=
  match resources with
  | [] => none
  | .a domain addr _ :: rest =>
    if domain = host then some addr else findGlueSpec rest host
  | _ :: rest => findGlueSpec rest host

/-- Modelled from the spec's words: walk the authority section in order; for
each NS record whose owner is a suffix of `qname`, look for glue; the first
(NS, A) pair in that order wins. -/
def firstGluedSpec (authorities resources : List DnsRecord) (qname : List Nat) :
    Option Ipv4Addr :=
  match authorities with
  | [] => none
  | .ns domain host _ :: rest =>
    if domain.isSuffixOf qname then
      match findGlueSpec resources host with
      | some addr => some addr
      | none => firstGluedSpec rest resources qname
    else firstGluedSpec rest resources qname
  | _ :: rest => firstGluedSpec rest resources qname

/-! # Helper lemmas -/

theorem except_bind_ok {ε α β : Type} {e : Except ε α} {f : α → Except ε β}
    {v : β} : (e >>= f) = .ok v ↔ ∃ a, e = .ok a ∧ f a = .ok v := by
  cases e with
  | error er => simp [Bind.bind, Except.bind]
  | ok a => simp [Bind.bind, Except.bind]

theorem except_bind_error {ε α β : Type} {e : Except ε α} {f : α → Except ε β}
    {er : ε} : (e >>= f) = .error er ↔
      e = .error er ∨ ∃ a, e = .ok a ∧ f a = .error er := by
  cases e with
  | error e0 => simp [Bind.bind, Except.bind]
  | ok a => simp [Bind.bind, Except.bind]

namespace BytePacketBuffer

theorem write_ok_iff {b : BytePacketBuffer} {v : Nat} {b' : BytePacketBuffer} :
    b.write v = .ok b' ↔ b.position < MAX_BUFFER_SIZE ∧
      b' = { buffer := b.buffer.set b.position v, position := b.position + 1 } := by
  unfold write
  split
  case isTrue h => simp; omega
  case isFalse h =>
    simp only [Except.ok.injEq]
    constructor
    · intro hv
      exact ⟨by omega, hv.symm⟩
    · intro hv
      exact hv.2.symm

theorem write_error_iff {b : BytePacketBuffer} {v : Nat} {e : BytePacketBufferError} :
    b.write v = .error e ↔ MAX_BUFFER_SIZE ≤ b.position ∧ e = .endOfBuffer := by
  unfold write
  split
  case isTrue h => simp; constructor <;> intro hv <;> simp [hv] at * <;> omega
  case isFalse h => simp; omega

theorem set_ok_iff {b : BytePacketBuffer} {p v : Nat} {b' : BytePacketBuffer} :
    b.set p v = .ok b' ↔ p < MAX_BUFFER_SIZE ∧
      b' = { buffer := b.buffer.set p v, position := b.position } := by
  unfold set
  split
  case isTrue h =>
    simp only [Except.ok.injEq]
    constructor
    · intro hv
      exact ⟨h, hv.symm⟩
    · intro hv
      exact hv.2.symm
  case isFalse h => simp; omega

end BytePacketBuffer

namespace BytePacketBuffer

theorem write_u16_ok_bound {b : BytePacketBuffer} {v : Nat} {b' : BytePacketBuffer}
    (h : b.write_u16 v = .ok b') :
    b.position + 2 ≤ MAX_BUFFER_SIZE ∧ b'.position = b.position + 2 := by
  unfold write_u16 at h
  rcases except_bind_ok.mp h with ⟨b1, h1, h2⟩
  rcases write_ok_iff.mp h1 with ⟨hp1, hb1⟩
  rcases write_ok_iff.mp h2 with ⟨hp2, hb2⟩
  subst hb1
  subst hb2
  simp at hp2 ⊢
  omega

theorem write_error_eq {b : BytePacketBuffer} {v : Nat} {e : BytePacketBufferError}
    (h : b.write v = .error e) : e = .endOfBuffer :=
  (write_error_iff.mp h).2

theorem write_u16_error_eq {b : BytePacketBuffer} {v : Nat}
    {e : BytePacketBufferError} (h : b.write_u16 v = .error e) :
    e = .endOfBuffer := by
  unfold write_u16 at h
  rcases except_bind_error.mp h with h1 | ⟨b1, _, h2⟩
  · exact write_error_eq h1
  · exact write_error_eq h2

theorem write_u32_error_eq {b : BytePacketBuffer} {v : Nat}
    {e : BytePacketBufferError} (h : b.write_u32 v = .error e) :
    e = .endOfBuffer := by
  unfold write_u32 at h
  rcases except_bind_error.mp h with h1 | ⟨b1, _, h⟩
  · exact write_error_eq h1
  rcases except_bind_error.mp h with h1 | ⟨b2, _, h⟩
  · exact write_error_eq h1
  rcases except_bind_error.mp h with h1 | ⟨b3, _, h⟩
  · exact write_error_eq h1
  exact write_error_eq h

theorem writeBytes_error_eq {l : List Nat} :
    ∀ {b : BytePacketBuffer} {e : BytePacketBufferError},
    writeBytes b l = .error e → e = .endOfBuffer := by
  induction l with
  | nil =>
    intro b e h
    exact absurd h (by simp [writeBytes])
  | cons v rest ih =>
    intro b e h
    unfold writeBytes at h
    rcases except_bind_error.mp h with h1 | ⟨b1, _, h2⟩
    · exact write_error_eq h1
    · exact ih h2

theorem writeLabels_error_eq {ls : List (List Nat)} :
    ∀ {b : BytePacketBuffer} {e : BytePacketBufferError},
    writeLabels b ls = .error e →
    e = .endOfBuffer ∨ e = .singleLabelExceedsCharactersOfLength := by
  induction ls with
  | nil =>
    intro b e h
    exact absurd h (by simp [writeLabels])
  | cons l rest ih =>
    intro b e h
    unfold writeLabels at h
    split at h
    · right
      cases h
      rfl
    · rcases except_bind_error.mp h with h1 | ⟨b1, _, h2⟩
      · left
        exact write_error_eq h1
      · rcases except_bind_error.mp h2 with h3 | ⟨b2, _, h4⟩
        · left
          exact writeBytes_error_eq h3
        · exact ih h4

theorem write_qname_error_eq {b : BytePacketBuffer} {q : List Nat}
    {e : BytePacketBufferError} (h : b.write_qname q = .error e) :
    e = .endOfBuffer ∨ e = .singleLabelExceedsCharactersOfLength := by
  unfold write_qname at h
  rcases except_bind_error.mp h with h1 | ⟨b1, _, h2⟩
  · exact writeLabels_error_eq h1
  · left
    exact write_error_eq h2

theorem set_u16_ok_of_room {b : BytePacketBuffer} {p v : Nat}
    (h : p + 2 ≤ MAX_BUFFER_SIZE) :
    b.set_u16 p v =
      .ok { buffer := (b.buffer.set p ((v >>> 8) % 256)).set (p + 1) (v &&& 0xFF),
            position := b.position } := by
  unfold set_u16 set
  rw [if_pos (by omega)]
  show Except.ok _ >>= _ = _
  rw [except_bind_ok.mpr]
  exact ⟨_, rfl, by rw [if_pos (by omega)]⟩

end BytePacketBuffer

/-! ## Bit-arithmetic bridges -/

theorem lor_shiftLeft_add (a b k : Nat) (h : b < 2 ^ k) :
    (a <<< k) ||| b = a * 2 ^ k + b := by
  apply Nat.eq_of_testBit_eq
  intro i
  rw [Nat.testBit_lor, Nat.testBit_shiftLeft]
  simp only [Nat.testBit_to_div_mod]
  rcases Nat.lt_or_ge i k with hi | hi
  · have h2 : decide (k ≤ i) = false := by
      simp only [decide_eq_false_iff_not]
      omega
    rw [h2, Bool.false_and, Bool.false_or]
    have hk : (2:Nat) ^ k = 2 ^ i * 2 ^ (k - i) := by
      rw [← pow_add]
      congr 1
      omega
    have hki : (2:Nat) ^ (k - i) = 2 * 2 ^ (k - i - 1) := by
      rw [← pow_succ']
      congr 1
      omega
    have hdiv : (a * 2 ^ k + b) / 2 ^ i = a * 2 ^ (k - i) + b / 2 ^ i := by
      rw [hk, ← Nat.mul_assoc, Nat.mul_comm a (2 ^ i), Nat.mul_assoc,
        Nat.mul_add_div (Nat.pos_pow_of_pos i (by omega))]
    rw [hdiv, hki, ← Nat.mul_assoc, Nat.mul_comm a 2, Nat.mul_assoc,
      Nat.mul_add_mod]
  · have h2 : decide (k ≤ i) = true := by
      simp only [decide_eq_true_eq]
      omega
    have hblo : b / 2 ^ i = 0 :=
      Nat.div_eq_of_lt (lt_of_lt_of_le h (Nat.pow_le_pow_right (by omega) hi))
    rw [h2, Bool.true_and, hblo]
    have hz : decide ((0:Nat) % 2 = 1) = false := by decide
    rw [hz, Bool.or_false]
    have hsplit : (2:Nat) ^ i = 2 ^ k * 2 ^ (i - k) := by
      rw [← pow_add]
      congr 1
      omega
    rw [hsplit, ← Nat.div_div_eq_div_mul, Nat.mul_comm a (2 ^ k),
      Nat.mul_add_div (Nat.pos_pow_of_pos k (by omega)),
      Nat.div_eq_of_lt h, Nat.add_zero]

theorem land255_eq (v : Nat) : v &&& 0xFF = v % 256 := by
  have := Nat.and_pow_two_sub_one_eq_mod v 8
  norm_num at this
  exact this

theorem land15_eq (v : Nat) : v &&& 0x0F = v % 16 := by
  have := Nat.and_pow_two_sub_one_eq_mod v 4
  norm_num at this
  exact this

theorem land65535_eq (v : Nat) : v &&& 0xFFFF = v % 65536 := by
  have := Nat.and_pow_two_sub_one_eq_mod v 16
  norm_num at this
  exact this

theorem shiftRight_div (v i : Nat) : v >>> i = v / 2 ^ i :=
  Nat.shiftRight_eq_div_pow v i

/-! ## getD lemmas for `List.set` -/

theorem getD_set_eq {l : List Nat} {p v : Nat} (h : p < l.length) :
    (l.set p v).getD p 0 = v := by
  rw [List.getD_eq_getElem?_getD, List.getElem?_set_eq h]
  rfl

theorem getD_set_ne {l : List Nat} {p q v : Nat} (h : p ≠ q) :
    (l.set p v).getD q 0 = l.getD q 0 := by
  rw [List.getD_eq_getElem?_getD, List.getElem?_set_ne h,
    ← List.getD_eq_getElem?_getD]

/-! ## The `Writes` calculus -/

theorem writes_nil {b : BytePacketBuffer} (hpos : b.position ≤ MAX_BUFFER_SIZE) :
    Writes b b [] := by
  refine ⟨rfl, by simp, by simpa using hpos, fun i _ => rfl, fun i hi => by simp at hi⟩

theorem writes_append {b b1 b2 : BytePacketBuffer} {xs ys : List Nat}
    (h1 : Writes b b1 xs) (h2 : Writes b1 b2 ys) :
    Writes b b2 (xs ++ ys) := by
  obtain ⟨hl1, hp1, hb1, hf1, hr1⟩ := h1
  obtain ⟨hl2, hp2, hb2, hf2, hr2⟩ := h2
  refine ⟨hl1 ▸ hl2, by simp [hp2, hp1]; omega, by simpa [hp2, hp1] using hb2, ?_, ?_⟩
  · intro i hi
    rw [hf2 i (by omega), hf1 i hi]
  · intro i hi
    simp only [List.length_append] at hi
    rcases Nat.lt_or_ge i xs.length with hx | hx
    · rw [hf2 (b.position + i) (by omega), hr1 i hx,
        List.getD_append _ _ _ _ (by omega)]
    · have : b.position + i = b1.position + (i - xs.length) := by omega
      rw [this, hr2 (i - xs.length) (by omega)]
      rw [List.getD_append_right _ _ _ _ (by omega)]

namespace BytePacketBuffer

theorem write_writes {b : BytePacketBuffer} {v : Nat} {b' : BytePacketBuffer}
    (h : b.write v = .ok b') (hlen : b.buffer.length = MAX_BUFFER_SIZE) :
    Writes b b' [v] := by
  obtain ⟨hp, rfl⟩ := write_ok_iff.mp h
  refine ⟨by simp, by simp, by simp; omega, ?_, ?_⟩
  · intro i hi
    exact getD_set_ne (by omega)
  · intro i hi
    simp only [List.length_cons, List.length_nil] at hi
    have hi0 : i = 0 := by omega
    subst hi0
    simpa using getD_set_eq (by omega)

theorem write_u16_writes {b : BytePacketBuffer} {v : Nat} {b' : BytePacketBuffer}
    (h : b.write_u16 v = .ok b') (hlen : b.buffer.length = MAX_BUFFER_SIZE) :
    Writes b b' (encU16 v) := by
  unfold write_u16 at h
  rcases except_bind_ok.mp h with ⟨b1, h1, h2⟩
  have w1 := write_writes h1 hlen
  have w2 := write_writes h2 (w1.1.trans hlen)
  exact writes_append w1 w2

theorem write_u32_writes {b : BytePacketBuffer} {v : Nat} {b' : BytePacketBuffer}
    (h : b.write_u32 v = .ok b') (hlen : b.buffer.length = MAX_BUFFER_SIZE) :
    Writes b b' (encU32 v) := by
  unfold write_u32 at h
  rcases except_bind_ok.mp h with ⟨b1, h1, h⟩
  rcases except_bind_ok.mp h with ⟨b2, h2, h⟩
  rcases except_bind_ok.mp h with ⟨b3, h3, h4⟩
  have w1 := write_writes h1 hlen
  have w2 := write_writes h2 (w1.1.trans hlen)
  have w3 := write_writes h3 (w2.1.trans (w1.1.trans hlen))
  have w4 := write_writes h4 (w3.1.trans (w2.1.trans (w1.1.trans hlen)))
  exact writes_append w1 (writes_append w2 (writes_append w3 w4))

theorem writeBytes_writes {l : List Nat} :
    ∀ {b b' : BytePacketBuffer}, writeBytes b l = .ok b' →
    b.buffer.length = MAX_BUFFER_SIZE → b.position ≤ MAX_BUFFER_SIZE →
    Writes b b' l := by
  induction l with
  | nil =>
    intro b b' h hlen hpos
    cases h
    exact writes_nil hpos
  | cons v rest ih =>
    intro b b' h hlen hpos
    unfold writeBytes at h
    rcases except_bind_ok.mp h with ⟨b1, h1, h2⟩
    have w1 := write_writes h1 hlen
    have w2 := ih h2 (w1.1.trans hlen) w1.2.2.1
    exact writes_append w1 w2

theorem writeLabels_writes {ls : List (List Nat)} :
    ∀ {b b' : BytePacketBuffer}, writeLabels b ls = .ok b' →
    b.buffer.length = MAX_BUFFER_SIZE → b.position ≤ MAX_BUFFER_SIZE →
    Writes b b' (encLabels ls) := by
  induction ls with
  | nil =>
    intro b b' h hlen hpos
    cases h
    exact writes_nil hpos
  | cons l rest ih =>
    intro b b' h hlen hpos
    unfold writeLabels at h
    split at h
    · exact absurd h (by simp)
    · rcases except_bind_ok.mp h with ⟨b1, h1, h⟩
      rcases except_bind_ok.mp h with ⟨b2, h2, h3⟩
      have w1 := write_writes h1 hlen
      have w2 := writeBytes_writes h2 (w1.1.trans hlen) w1.2.2.1
      have w3 := ih h3 (w2.1.trans (w1.1.trans hlen)) w2.2.2.1
      have : encLabels (l :: rest) = [l.length % 256] ++ (l ++ encLabels rest) := by
        simp [encLabels]
      rw [this]
      exact writes_append w1 (writes_append w2 w3)

theorem write_qname_writes {b : BytePacketBuffer} {q : List Nat}
    {b' : BytePacketBuffer} (h : b.write_qname q = .ok b')
    (hlen : b.buffer.length = MAX_BUFFER_SIZE)
    (hpos : b.position ≤ MAX_BUFFER_SIZE) :
    Writes b b' (encQname q) := by
  unfold write_qname at h
  rcases except_bind_ok.mp h with ⟨b1, h1, h2⟩
  have w1 := writeLabels_writes h1 hlen hpos
  have w2 := write_writes h2 (w1.1.trans hlen)
  exact writes_append w1 w2

end BytePacketBuffer

namespace BytePacketBuffer

theorem set_u16_ok_effect {b : BytePacketBuffer} {p v : Nat} {b' : BytePacketBuffer}
    (h : b.set_u16 p v = .ok b') :
    p + 1 < MAX_BUFFER_SIZE ∧
    b' = { buffer := (b.buffer.set p ((v >>> 8) % 256)).set (p + 1) (v &&& 0xFF),
           position := b.position } := by
  unfold set_u16 at h
  rcases except_bind_ok.mp h with ⟨b1, h1, h2⟩
  obtain ⟨hp1, rfl⟩ := set_ok_iff.mp h1
  obtain ⟨hp2, rfl⟩ := set_ok_iff.mp h2
  exact ⟨hp2, rfl⟩


theorem patched_writes {b b4 b5 b6 b7 : BytePacketBuffer} {pre mid : List Nat}
    {v : Nat} (hlen : b.buffer.length = MAX_BUFFER_SIZE)
    (w4 : Writes b b4 pre) (w5 : Writes b4 b5 [0, 0]) (w6 : Writes b5 b6 mid)
    (h7 : b6.set_u16 b4.position v = .ok b7) :
    Writes b b7 (pre ++ encU16 v ++ mid) := by
  obtain ⟨hp2, rfl⟩ := set_u16_ok_effect h7
  obtain ⟨hl4, hp4, hb4, hf4, hr4⟩ := w4
  obtain ⟨hl5, hp5, hb5, hf5, hr5⟩ := w5
  obtain ⟨hl6, hp6, hb6, hf6, hr6⟩ := w6
  simp only [List.length_cons, List.length_nil] at hp5
  have hlen6 : b6.buffer.length = MAX_BUFFER_SIZE := by
    rw [hl6, hl5, hl4, hlen]
  refine ⟨by simp [hlen6, hlen], ?_, ?_, ?_, ?_⟩
  · simp only [List.length_append, encU16, List.length_cons, List.length_nil]
    omega
  · simpa using hb6
  · intro i hi
    rw [getD_set_ne (by omega), getD_set_ne (by omega),
      hf6 i (by omega), hf5 i (by omega), hf4 i hi]
  · intro j hj
    simp only [List.length_append, encU16, List.length_cons, List.length_nil] at hj
    rcases Nat.lt_or_ge j pre.length with hc | hc
    · rw [List.getD_append _ _ _ _ (by simp [encU16]; omega),
        List.getD_append _ _ _ _ (by omega),
        getD_set_ne (by omega), getD_set_ne (by omega),
        hf6 (b.position + j) (by omega), hf5 (b.position + j) (by omega),
        hr4 j hc]
    · rcases Nat.lt_or_ge j (pre.length + 2) with hc2 | hc2
      · rw [List.getD_append _ _ _ _ (by simp [encU16]; omega),
          List.getD_append_right _ _ _ _ (by omega)]
        rcases Nat.eq_or_lt_of_le hc with hj0 | hj1
        · have hidx : b.position + j = b4.position := by omega
          have hj' : j - pre.length = 0 := by omega
          rw [hidx, getD_set_ne (by omega),
            getD_set_eq (by rw [hlen6]; omega), hj']
          simp [encU16]
        · have hidx : b.position + j = b4.position + 1 := by omega
          have hj' : j - pre.length = 1 := by omega
          rw [hidx, getD_set_eq (by simp [hlen6]; omega), hj']
          simp [encU16]
      · have hidx : b.position + j = b5.position + (j - pre.length - 2) := by omega
        rw [List.getD_append_right _ _ _ _ (by simp [encU16]; omega),
          hidx, getD_set_ne (by omega), getD_set_ne (by omega),
          hr6 (j - pre.length - 2) (by omega)]
        congr 1
        simp [encU16]
        omega

end BytePacketBuffer

theorem BytePacketBuffer.write_u8_writes {b : BytePacketBuffer} {v : Nat}
    {b' : BytePacketBuffer} (h : b.write_u8 v = .ok b')
    (hlen : b.buffer.length = MAX_BUFFER_SIZE) : Writes b b' [v] :=
  BytePacketBuffer.write_writes h hlen

theorem header_write_writes {h : DnsHeader} {b b' : BytePacketBuffer}
    (hw : h.write b = .ok b') (hlen : b.buffer.length = MAX_BUFFER_SIZE) :
    Writes b b' (encHeader h) := by
  unfold DnsHeader.write at hw
  rcases except_bind_ok.mp hw with ⟨b1, h1, hw⟩
  rcases except_bind_ok.mp hw with ⟨b2, h2, hw⟩
  rcases except_bind_ok.mp hw with ⟨b3, h3, hw⟩
  rcases except_bind_ok.mp hw with ⟨b4, h4, hw⟩
  rcases except_bind_ok.mp hw with ⟨b5, h5, hw⟩
  rcases except_bind_ok.mp hw with ⟨b6, h6, h7⟩
  have hl1 : b1.buffer.length = MAX_BUFFER_SIZE := by
    have w := BytePacketBuffer.write_u16_writes h1 hlen
    exact w.1.trans hlen
  have w1 := BytePacketBuffer.write_u16_writes h1 hlen
  have w2 := BytePacketBuffer.write_u8_writes h2 hl1
  have hl2 := w2.1.trans hl1
  have w3 := BytePacketBuffer.write_u8_writes h3 hl2
  have hl3 := w3.1.trans hl2
  have w4 := BytePacketBuffer.write_u16_writes h4 hl3
  have hl4 := w4.1.trans hl3
  have w5 := BytePacketBuffer.write_u16_writes h5 hl4
  have hl5 := w5.1.trans hl4
  have w6 := BytePacketBuffer.write_u16_writes h6 hl5
  have hl6 := w6.1.trans hl5
  have w7 := BytePacketBuffer.write_u16_writes h7 hl6
  have wall := writes_append w1 (writes_append w2 (writes_append w3
    (writes_append w4 (writes_append w5 (writes_append w6 w7)))))
  have heq : encU16 h.id ++ ([h.flagByteA] ++ ([h.flagByteB] ++
      (encU16 h.questions ++ (encU16 h.answers ++
      (encU16 h.authoritative_entries ++ encU16 h.resource_entries))))) =
      encHeader h := by
    simp [encHeader]
  rw [← heq]
  exact wall

theorem question_write_writes {q : DnsQuestion} {b b' : BytePacketBuffer}
    (hw : q.write b = .ok b') (hlen : b.buffer.length = MAX_BUFFER_SIZE)
    (hpos : b.position ≤ MAX_BUFFER_SIZE) :
    Writes b b' (encQuestion q) := by
  unfold DnsQuestion.write at hw
  rcases except_bind_ok.mp hw with ⟨b1, h1, hw⟩
  rcases except_bind_ok.mp hw with ⟨b2, h2, h3⟩
  have w1 := BytePacketBuffer.write_qname_writes h1 hlen hpos
  have hl1 := w1.1.trans hlen
  have w2 := BytePacketBuffer.write_u16_writes h2 hl1
  have hl2 := w2.1.trans hl1
  have w3 := BytePacketBuffer.write_u16_writes h3 hl2
  have wall := writes_append w1 (writes_append w2 w3)
  have heq : encQname q.name ++ (encU16 q.qtype.toNum ++ encU16 1) =
      encQuestion q := by
    simp [encQuestion]
  rw [← heq]
  exact wall

theorem encU16_zero : encU16 0 = [0, 0] := rfl

theorem record_write_writes {r : DnsRecord} {b b' : BytePacketBuffer} {n : Nat}
    (hw : r.write b = .ok (b', n)) (hlen : b.buffer.length = MAX_BUFFER_SIZE)
    (hpos : b.position ≤ MAX_BUFFER_SIZE) :
    Writes b b' (encRecord r) := by
  cases r with
  | a domain addr ttl =>
    simp only [DnsRecord.write] at hw
    rcases except_bind_ok.mp hw with ⟨b1, h1, hw⟩
    rcases except_bind_ok.mp hw with ⟨b2, h2, hw⟩
    rcases except_bind_ok.mp hw with ⟨b3, h3, hw⟩
    rcases except_bind_ok.mp hw with ⟨b4, h4, hw⟩
    rcases except_bind_ok.mp hw with ⟨b5, h5, hw⟩
    rcases except_bind_ok.mp hw with ⟨b6, h6, hw⟩
    rcases except_bind_ok.mp hw with ⟨b7, h7, hw⟩
    rcases except_bind_ok.mp hw with ⟨b8, h8, hw⟩
    rcases except_bind_ok.mp hw with ⟨b9, h9, hw⟩
    simp only [Except.ok.injEq, Prod.mk.injEq] at hw
    obtain ⟨rfl, -⟩ := hw
    have w1 := BytePacketBuffer.write_qname_writes h1 hlen hpos
    have hl1 := w1.1.trans hlen
    have w2 := BytePacketBuffer.write_u16_writes h2 hl1
    have hl2 := w2.1.trans hl1
    have w3 := BytePacketBuffer.write_u16_writes h3 hl2
    have hl3 := w3.1.trans hl2
    have w4 := BytePacketBuffer.write_u32_writes h4 hl3
    have hl4 := w4.1.trans hl3
    have w5 := BytePacketBuffer.write_u16_writes h5 hl4
    have hl5 := w5.1.trans hl4
    have w6 := BytePacketBuffer.write_u8_writes h6 hl5
    have hl6 := w6.1.trans hl5
    have w7 := BytePacketBuffer.write_u8_writes h7 hl6
    have hl7 := w7.1.trans hl6
    have w8 := BytePacketBuffer.write_u8_writes h8 hl7
    have hl8 := w8.1.trans hl7
    have w9 := BytePacketBuffer.write_u8_writes h9 hl8
    have wall := writes_append w1 (writes_append w2 (writes_append w3
      (writes_append w4 (writes_append w5 (writes_append w6
      (writes_append w7 (writes_append w8 w9)))))))
    have heq : encQname domain ++ (encU16 QueryType.a.toNum ++ (encU16 1 ++
        (encU32 ttl ++ (encU16 4 ++ ([addr.o0] ++ ([addr.o1] ++ ([addr.o2] ++
        [addr.o3]))))))) = encRecord (.a domain addr ttl) := by
      simp [encRecord, QueryType.toNum]
    rw [← heq]
    exact wall
  | ns domain host ttl =>
    simp only [DnsRecord.write] at hw
    rcases except_bind_ok.mp hw with ⟨b1, h1, hw⟩
    rcases except_bind_ok.mp hw with ⟨b2, h2, hw⟩
    rcases except_bind_ok.mp hw with ⟨b3, h3, hw⟩
    rcases except_bind_ok.mp hw with ⟨b4, h4, hw⟩
    rcases except_bind_ok.mp hw with ⟨b5, h5, hw⟩
    rcases except_bind_ok.mp hw with ⟨b6, h6, hw⟩
    rcases except_bind_ok.mp hw with ⟨b7, h7, hw⟩
    simp only [Except.ok.injEq, Prod.mk.injEq] at hw
    obtain ⟨rfl, -⟩ := hw
    have w1 := BytePacketBuffer.write_qname_writes h1 hlen hpos
    have hl1 := w1.1.trans hlen
    have w2 := BytePacketBuffer.write_u16_writes h2 hl1
    have hl2 := w2.1.trans hl1
    have w3 := BytePacketBuffer.write_u16_writes h3 hl2
    have hl3 := w3.1.trans hl2
    have w4 := BytePacketBuffer.write_u32_writes h4 hl3
    have hl4 := w4.1.trans hl3
    have w5 := BytePacketBuffer.write_u16_writes h5 hl4
    have hl5 := w5.1.trans hl4
    have w6 := BytePacketBuffer.write_qname_writes h6 hl5 w5.2.2.1
    have wpre := writes_append w1 (writes_append w2 (writes_append w3 w4))
    rw [encU16_zero] at w5
    have hsize : b6.position - (b4.position + 2) = (encQname host).length := by
      have hp5 := w5.2.1
      have hp6 := w6.2.1
      simp at hp5
      omega
    rw [hsize] at h7
    have wall := BytePacketBuffer.patched_writes hlen wpre w5 w6 h7
    have heq : encQname domain ++ (encU16 QueryType.ns.toNum ++ (encU16 1 ++
        encU32 ttl)) ++ encU16 ((encQname host).length % 65536) ++
        encQname host = encRecord (.ns domain host ttl) := by
      simp [encRecord, QueryType.toNum]
    rw [← heq]
    exact wall
  | cname domain host ttl =>
    simp only [DnsRecord.write] at hw
    rcases except_bind_ok.mp hw with ⟨b1, h1, hw⟩
    rcases except_bind_ok.mp hw with ⟨b2, h2, hw⟩
    rcases except_bind_ok.mp hw with ⟨b3, h3, hw⟩
    rcases except_bind_ok.mp hw with ⟨b4, h4, hw⟩
    rcases except_bind_ok.mp hw with ⟨b5, h5, hw⟩
    rcases except_bind_ok.mp hw with ⟨b6, h6, hw⟩
    rcases except_bind_ok.mp hw with ⟨b7, h7, hw⟩
    simp only [Except.ok.injEq, Prod.mk.injEq] at hw
    obtain ⟨rfl, -⟩ := hw
    have w1 := BytePacketBuffer.write_qname_writes h1 hlen hpos
    have hl1 := w1.1.trans hlen
    have w2 := BytePacketBuffer.write_u16_writes h2 hl1
    have hl2 := w2.1.trans hl1
    have w3 := BytePacketBuffer.write_u16_writes h3 hl2
    have hl3 := w3.1.trans hl2
    have w4 := BytePacketBuffer.write_u32_writes h4 hl3
    have hl4 := w4.1.trans hl3
    have w5 := BytePacketBuffer.write_u16_writes h5 hl4
    have hl5 := w5.1.trans hl4
    have w6 := BytePacketBuffer.write_qname_writes h6 hl5 w5.2.2.1
    have wpre := writes_append w1 (writes_append w2 (writes_append w3 w4))
    rw [encU16_zero] at w5
    have hsize : b6.position - (b4.position + 2) = (encQname host).length := by
      have hp5 := w5.2.1
      have hp6 := w6.2.1
      simp at hp5
      omega
    rw [hsize] at h7
    have wall := BytePacketBuffer.patched_writes hlen wpre w5 w6 h7
    have heq : encQname domain ++ (encU16 QueryType.cname.toNum ++ (encU16 1 ++
        encU32 ttl)) ++ encU16 ((encQname host).length % 65536) ++
        encQname host = encRecord (.cname domain host ttl) := by
      simp [encRecord, QueryType.toNum]
    rw [← heq]
    exact wall
  | mx domain priority host ttl =>
    simp only [DnsRecord.write] at hw
    rcases except_bind_ok.mp hw with ⟨b1, h1, hw⟩
    rcases except_bind_ok.mp hw with ⟨b2, h2, hw⟩
    rcases except_bind_ok.mp hw with ⟨b3, h3, hw⟩
    rcases except_bind_ok.mp hw with ⟨b4, h4, hw⟩
    rcases except_bind_ok.mp hw with ⟨b5, h5, hw⟩
    rcases except_bind_ok.mp hw with ⟨b6, h6, hw⟩
    rcases except_bind_ok.mp hw with ⟨b7, h7, hw⟩
    rcases except_bind_ok.mp hw with ⟨b8, h8, hw⟩
    simp only [Except.ok.injEq, Prod.mk.injEq] at hw
    obtain ⟨rfl, -⟩ := hw
    have w1 := BytePacketBuffer.write_qname_writes h1 hlen hpos
    have hl1 := w1.1.trans hlen
    have w2 := BytePacketBuffer.write_u16_writes h2 hl1
    have hl2 := w2.1.trans hl1
    have w3 := BytePacketBuffer.write_u16_writes h3 hl2
    have hl3 := w3.1.trans hl2
    have w4 := BytePacketBuffer.write_u32_writes h4 hl3
    have hl4 := w4.1.trans hl3
    have w5 := BytePacketBuffer.write_u16_writes h5 hl4
    have hl5 := w5.1.trans hl4
    have w6 := BytePacketBuffer.write_u16_writes h6 hl5
    have hl6 := w6.1.trans hl5
    have w7 := BytePacketBuffer.write_qname_writes h7 hl6 w6.2.2.1
    have wpre := writes_append w1 (writes_append w2 (writes_append w3 w4))
    have wmid := writes_append w6 w7
    rw [encU16_zero] at w5
    have hsize : b7.position - (b4.position + 2) =
        2 + (encQname host).length := by
      have hp5 := w5.2.1
      have hp6 := w6.2.1
      have hp7 := w7.2.1
      simp [encU16] at hp5 hp6
      omega
    rw [hsize] at h8
    have wall := BytePacketBuffer.patched_writes hlen wpre w5 wmid h8
    have heq : encQname domain ++ (encU16 QueryType.mx.toNum ++ (encU16 1 ++
        encU32 ttl)) ++ encU16 ((2 + (encQname host).length) % 65536) ++
        (encU16 priority ++ encQname host) = encRecord (.mx domain priority host ttl) := by
      simp [encRecord, QueryType.toNum]
    rw [← heq]
    exact wall
  | aaaa domain addr ttl =>
    simp only [DnsRecord.write] at hw
    rcases except_bind_ok.mp hw with ⟨b1, h1, hw⟩
    rcases except_bind_ok.mp hw with ⟨b2, h2, hw⟩
    rcases except_bind_ok.mp hw with ⟨b3, h3, hw⟩
    rcases except_bind_ok.mp hw with ⟨b4, h4, hw⟩
    rcases except_bind_ok.mp hw with ⟨b5, h5, hw⟩
    rcases except_bind_ok.mp hw with ⟨b6, h6, hw⟩
    rcases except_bind_ok.mp hw with ⟨b7, h7, hw⟩
    rcases except_bind_ok.mp hw with ⟨b8, h8, hw⟩
    rcases except_bind_ok.mp hw with ⟨b9, h9, hw⟩
    rcases except_bind_ok.mp hw with ⟨b10, h10, hw⟩
    rcases except_bind_ok.mp hw with ⟨b11, h11, hw⟩
    rcases except_bind_ok.mp hw with ⟨b12, h12, hw⟩
    rcases except_bind_ok.mp hw with ⟨b13, h13, hw⟩
    simp only [Except.ok.injEq, Prod.mk.injEq] at hw
    obtain ⟨rfl, -⟩ := hw
    have w1 := BytePacketBuffer.write_qname_writes h1 hlen hpos
    have hl1 := w1.1.trans hlen
    have w2 := BytePacketBuffer.write_u16_writes h2 hl1
    have hl2 := w2.1.trans hl1
    have w3 := BytePacketBuffer.write_u16_writes h3 hl2
    have hl3 := w3.1.trans hl2
    have w4 := BytePacketBuffer.write_u32_writes h4 hl3
    have hl4 := w4.1.trans hl3
    have w5 := BytePacketBuffer.write_u16_writes h5 hl4
    have hl5 := w5.1.trans hl4
    have w6 := BytePacketBuffer.write_u16_writes h6 hl5
    have hl6 := w6.1.trans hl5
    have w7 := BytePacketBuffer.write_u16_writes h7 hl6
    have hl7 := w7.1.trans hl6
    have w8 := BytePacketBuffer.write_u16_writes h8 hl7
    have hl8 := w8.1.trans hl7
    have w9 := BytePacketBuffer.write_u16_writes h9 hl8
    have hl9 := w9.1.trans hl8
    have w10 := BytePacketBuffer.write_u16_writes h10 hl9
    have hl10 := w10.1.trans hl9
    have w11 := BytePacketBuffer.write_u16_writes h11 hl10
    have hl11 := w11.1.trans hl10
    have w12 := BytePacketBuffer.write_u16_writes h12 hl11
    have hl12 := w12.1.trans hl11
    have w13 := BytePacketBuffer.write_u16_writes h13 hl12
    have wall := writes_append w1 (writes_append w2 (writes_append w3
      (writes_append w4 (writes_append w5 (writes_append w6
      (writes_append w7 (writes_append w8 (writes_append w9
      (writes_append w10 (writes_append w11 (writes_append w12 w13)))))))))))
    have heq : encQname domain ++ (encU16 QueryType.aaaa.toNum ++ (encU16 1 ++
        (encU32 ttl ++ (encU16 16 ++ (encU16 addr.s0 ++ (encU16 addr.s1 ++
        (encU16 addr.s2 ++ (encU16 addr.s3 ++ (encU16 addr.s4 ++
        (encU16 addr.s5 ++ (encU16 addr.s6 ++ encU16 addr.s7))))))))))) =
        encRecord (.aaaa domain addr ttl) := by
      simp [encRecord, QueryType.toNum]
    rw [← heq]
    exact wall
  | unknown domain qtype data_len ttl =>
    simp only [DnsRecord.write] at hw
    simp only [Except.ok.injEq, Prod.mk.injEq] at hw
    obtain ⟨rfl, -⟩ := hw
    exact writes_nil hpos

theorem writeQuestions_writes {qs : List DnsQuestion} :
    ∀ {b b' : BytePacketBuffer}, writeQuestions b qs = .ok b' →
    b.buffer.length = MAX_BUFFER_SIZE → b.position ≤ MAX_BUFFER_SIZE →
    Writes b b' (qs.flatMap encQuestion) := by
  induction qs with
  | nil =>
    intro b b' h hlen hpos
    cases h
    exact writes_nil hpos
  | cons q rest ih =>
    intro b b' h hlen hpos
    unfold writeQuestions at h
    rcases except_bind_ok.mp h with ⟨b1, h1, h2⟩
    have w1 := question_write_writes h1 hlen hpos
    have w2 := ih h2 (w1.1.trans hlen) w1.2.2.1
    have : (q :: rest).flatMap encQuestion =
        encQuestion q ++ rest.flatMap encQuestion := by
      simp
    rw [this]
    exact writes_append w1 w2

theorem writeRecords_writes {rs : List DnsRecord} :
    ∀ {b b' : BytePacketBuffer}, writeRecords b rs = .ok b' →
    b.buffer.length = MAX_BUFFER_SIZE → b.position ≤ MAX_BUFFER_SIZE →
    Writes b b' (rs.flatMap encRecord) := by
  induction rs with
  | nil =>
    intro b b' h hlen hpos
    cases h
    exact writes_nil hpos
  | cons r rest ih =>
    intro b b' h hlen hpos
    unfold writeRecords at h
    rcases except_bind_ok.mp h with ⟨⟨b1, n1⟩, h1, h2⟩
    simp only at h2
    have w1 := record_write_writes h1 hlen hpos
    have w2 := ih h2 (w1.1.trans hlen) w1.2.2.1
    have : (r :: rest).flatMap encRecord =
        encRecord r ++ rest.flatMap encRecord := by
      simp
    rw [this]
    exact writes_append w1 w2

theorem packet_write_writes {p : DnsPacket} {b b' : BytePacketBuffer}
    (hw : p.write b = .ok b') (hlen : b.buffer.length = MAX_BUFFER_SIZE)
    (hpos : b.position ≤ MAX_BUFFER_SIZE) :
    Writes b b' (encPacket p) := by
  unfold DnsPacket.write at hw
  rcases except_bind_ok.mp hw with ⟨b1, h1, hw⟩
  rcases except_bind_ok.mp hw with ⟨b2, h2, hw⟩
  rcases except_bind_ok.mp hw with ⟨b3, h3, hw⟩
  rcases except_bind_ok.mp hw with ⟨b4, h4, h5⟩
  have w1 := header_write_writes h1 hlen
  have hl1 := w1.1.trans hlen
  have w2 := writeQuestions_writes h2 hl1 w1.2.2.1
  have hl2 := w2.1.trans hl1
  have w3 := writeRecords_writes h3 hl2 w2.2.2.1
  have hl3 := w3.1.trans hl2
  have w4 := writeRecords_writes h4 hl3 w3.2.2.1
  have hl4 := w4.1.trans hl3
  have w5 := writeRecords_writes h5 hl4 w4.2.2.1
  have wall := writes_append w1 (writes_append w2 (writes_append w3
    (writes_append w4 w5)))
  have heq : encHeader p.recountedHeader ++ (p.questions.flatMap encQuestion ++
      (p.answers.flatMap encRecord ++ (p.authorities.flatMap encRecord ++
      p.resources.flatMap encRecord))) = encPacket p := by
    simp [encPacket]
  rw [← heq]
  exact wall

/-! ## rangeEq utilities and primitive reads -/

theorem rangeEq_append_split {arr : List Nat} {p : Nat} {xs ys : List Nat}
    (h : rangeEq arr p (xs ++ ys)) :
    rangeEq arr p xs ∧ rangeEq arr (p + xs.length) ys := by
  obtain ⟨hb, hr⟩ := h
  simp only [List.length_append] at hb hr
  refine ⟨⟨by omega, ?_⟩, ⟨by omega, ?_⟩⟩
  · intro i hi
    rw [hr i (by omega), List.getD_append _ _ _ _ hi]
  · intro i hi
    have h2 := hr (xs.length + i) (by omega)
    rw [← Nat.add_assoc] at h2
    rw [h2, List.getD_append_right _ _ _ _ (by omega)]
    congr 1
    omega

theorem rangeEq_head {arr : List Nat} {p x : Nat} {xs : List Nat}
    (h : rangeEq arr p (x :: xs)) :
    arr.getD p 0 = x ∧ rangeEq arr (p + 1) xs := by
  have h2 : rangeEq arr p ([x] ++ xs) := by simpa using h
  obtain ⟨h3, h4⟩ := rangeEq_append_split h2
  exact ⟨by simpa using h3.2 0 (by simp), by simpa using h4⟩

namespace DnsBuf

theorem get_of_lt {arr : List Nat} {p : Nat} (h : p < MAX_BUFFER_SIZE) :
    get arr p = .ok (arr.getD p 0) := by
  unfold get
  rw [if_neg (by omega)]

theorem read_of_lt {arr : List Nat} {p : Nat} (h : p < MAX_BUFFER_SIZE) :
    read arr p = .ok (arr.getD p 0, p + 1) := by
  unfold read
  rw [if_neg (by omega)]

theorem read_u16_val {arr : List Nat} {p x y : Nat}
    (h : rangeEq arr p [x, y]) (hx : x < 256) (hy : y < 256) :
    read_u16 arr p = .ok (x * 256 + y, p + 2) := by
  have hb := h.1
  simp only [List.length_cons, List.length_nil] at hb
  obtain ⟨h0, h'⟩ := rangeEq_head h
  obtain ⟨h1, -⟩ := rangeEq_head h'
  unfold read_u16
  rw [read_of_lt (by omega), h0]
  show read arr (p + 1) >>= _ = _
  rw [read_of_lt (by omega), h1]
  show Except.ok _ = _
  have : (x <<< 8) ||| y = x * 256 + y := by
    have := lor_shiftLeft_add x y 8 (by norm_num; omega)
    norm_num at this
    exact this
  rw [this]

theorem u32_reassemble (x0 x1 x2 x3 : Nat) (h0 : x0 < 256) (h1 : x1 < 256)
    (h2 : x2 < 256) (h3 : x3 < 256) :
    (x0 <<< 24) ||| (x1 <<< 16) ||| (x2 <<< 8) ||| x3 =
      ((x0 * 256 + x1) * 256 + x2) * 256 + x3 := by
  rw [Nat.lor_assoc, Nat.lor_assoc]
  rw [lor_shiftLeft_add x2 x3 8 (by norm_num; omega)]
  rw [lor_shiftLeft_add x1 (x2 * 2 ^ 8 + x3) 16 (by norm_num; omega)]
  rw [lor_shiftLeft_add x0 (x1 * 2 ^ 16 + (x2 * 2 ^ 8 + x3)) 24 (by norm_num; omega)]
  norm_num
  ring

theorem read_u32_val {arr : List Nat} {p x0 x1 x2 x3 : Nat}
    (h : rangeEq arr p [x0, x1, x2, x3]) (h0 : x0 < 256) (h1 : x1 < 256)
    (h2 : x2 < 256) (h3 : x3 < 256) :
    read_u32 arr p = .ok (((x0 * 256 + x1) * 256 + x2) * 256 + x3, p + 4) := by
  have hb := h.1
  simp only [List.length_cons, List.length_nil] at hb
  obtain ⟨g0, h'⟩ := rangeEq_head h
  obtain ⟨g1, h''⟩ := rangeEq_head h'
  obtain ⟨g2, h'''⟩ := rangeEq_head h''
  obtain ⟨g3, -⟩ := rangeEq_head h'''
  unfold read_u32
  rw [read_of_lt (by omega), g0]
  show read arr (p + 1) >>= _ = _
  rw [read_of_lt (by omega), g1]
  show read arr (p + 1 + 1) >>= _ = _
  rw [read_of_lt (by omega), g2]
  show read arr (p + 1 + 1 + 1) >>= _ = _
  rw [read_of_lt (by omega), g3]
  show Except.ok _ = _
  rw [u32_reassemble x0 x1 x2 x3 h0 h1 h2 h3]

theorem get_range_val {arr : List Nat} {p : Nat} {l : List Nat}
    (harr : arr.length = MAX_BUFFER_SIZE) (h : rangeEq arr p l)
    (hlt : p + l.length < MAX_BUFFER_SIZE) :
    get_range arr p l.length = .ok l := by
  unfold get_range
  rw [if_neg (by omega)]
  congr 1
  apply List.ext_getElem
  · simp
    omega
  · intro i hi1 hi2
    have hr := h.2 i (by simpa using hi2)
    rw [List.getD_eq_getElem?_getD, List.getElem?_eq_getElem (by omega),
      List.getD_eq_getElem?_getD, List.getElem?_eq_getElem hi2] at hr
    simp at hr
    rw [List.getElem_take, List.getElem_drop]
    rw [← hr]

theorem readQnameLoop_decodes {arr : List Nat}
    (harr : arr.length = MAX_BUFFER_SIZE) :
    ∀ (labels : List (List Nat)) (p selfPos : Nat) (out delim : List Nat),
    (∀ l ∈ labels, l ≠ [] ∧ l.length ≤ 63) →
    rangeEq arr p (encLabels labels ++ [0]) →
    readQnameLoop arr selfPos p false 0 out delim =
      .ok (out ++ joinLabelsLower delim labels,
        p + ((encLabels labels).length + 1)) := by
  intro labels
  induction labels with
  | nil =>
    intro p selfPos out delim hwf hr
    have hr1 : rangeEq arr p [0] := by simpa [encLabels] using hr
    obtain ⟨h0, -⟩ := rangeEq_head hr1
    have hp : p < MAX_BUFFER_SIZE := by
      have := hr1.1
      simp at this
      omega
    rw [readQnameLoop.eq_def, get_of_lt hp, h0]
    norm_num [joinLabelsLower, encLabels]
  | cons l ls ih =>
    intro p selfPos out delim hwf hr
    obtain ⟨hlne, hl63⟩ := hwf l (by simp)
    have hr1 : rangeEq arr p ((l.length % 256) :: (l ++ (encLabels ls ++ [0]))) := by
      simpa [encLabels, List.append_assoc] using hr
    obtain ⟨h0, hrest⟩ := rangeEq_head hr1
    obtain ⟨hrl, hrtail⟩ := rangeEq_append_split hrest
    have hp : p < MAX_BUFFER_SIZE := by
      have := hr1.1
      simp at this
      omega
    have hmod : l.length % 256 = l.length := by omega
    rw [hmod] at h0
    have hnotptr : ¬ (l.length &&& 0xC0 = 0xC0) := by
      have hle : l.length &&& 0xC0 ≤ l.length := Nat.and_le_left
      omega
    have hlen0 : ¬ (l.length = 0) := by
      intro hc
      exact hlne (List.length_eq_zero.mp hc)
    have htail1 : p + 1 + l.length < MAX_BUFFER_SIZE := by
      have := hrtail.1
      simp at this
      omega
    have hget_range := get_range_val harr hrl htail1
    rw [readQnameLoop.eq_def, get_of_lt hp, h0]
    simp only [hnotptr, if_false, hlen0, hget_range]
    show (if (5:Nat) < 0 then _ else _) = _
    rw [if_neg (by omega)]
    show readQnameLoop arr selfPos (p + 1 + l.length) false 0
      (out ++ delim ++ l.map lowerByte) [46] = _
    rw [ih (p + 1 + l.length) selfPos (out ++ delim ++ l.map lowerByte) [46]
      (fun x hx => hwf x (by simp [hx])) hrtail]
    simp only [Except.ok.injEq, Prod.mk.injEq, joinLabelsLower, encLabels]
    constructor
    · simp [List.append_assoc]
    · simp
      omega

end DnsBuf

theorem splitOnDot_ne_nil (s : List Nat) : BytePacketBuffer.splitOnDot s ≠ [] := by
  induction s with
  | nil => simp [BytePacketBuffer.splitOnDot]
  | cons b rest ih =>
    unfold BytePacketBuffer.splitOnDot
    split
    · simp
    · cases hr : BytePacketBuffer.splitOnDot rest with
      | nil => simp
      | cons h t => simp

theorem joinLabelsLower_dot {ls : List (List Nat)} (h : ls ≠ []) :
    joinLabelsLower [46] ls = 46 :: joinLabelsLower [] ls := by
  cases ls with
  | nil => exact absurd rfl h
  | cons l t => simp [joinLabelsLower]

theorem join_split (s : List Nat) :
    joinLabelsLower [] (BytePacketBuffer.splitOnDot s) = asciiLower s := by
  induction s with
  | nil => simp [BytePacketBuffer.splitOnDot, joinLabelsLower, asciiLower]
  | cons b rest ih =>
    unfold BytePacketBuffer.splitOnDot
    by_cases hb : b = 46
    · subst hb
      rw [if_pos rfl]
      show joinLabelsLower [] ([] :: BytePacketBuffer.splitOnDot rest) =
        asciiLower (46 :: rest)
      rw [show joinLabelsLower [] ([] :: BytePacketBuffer.splitOnDot rest) =
        joinLabelsLower [46] (BytePacketBuffer.splitOnDot rest) from by
          simp [joinLabelsLower, asciiLower]]
      rw [joinLabelsLower_dot (splitOnDot_ne_nil rest), ih]
      simp [asciiLower, DnsBuf.lowerByte]
    · rw [if_neg hb]
      cases hr : BytePacketBuffer.splitOnDot rest with
      | nil => exact absurd hr (splitOnDot_ne_nil rest)
      | cons h t =>
        show joinLabelsLower [] ((b :: h) :: t) = asciiLower (b :: rest)
        have ih2 : joinLabelsLower [] (h :: t) = asciiLower rest := by
          rw [← hr]
          exact ih
        simp only [joinLabelsLower, asciiLower, List.map_cons] at ih2 ⊢
        simp only [List.nil_append, List.cons_append] at ih2 ⊢
        rw [ih2]

theorem encLabels_length_split (s : List Nat) :
    (encLabels (BytePacketBuffer.splitOnDot s)).length = s.length + 1 := by
  induction s with
  | nil => simp [BytePacketBuffer.splitOnDot, encLabels]
  | cons b rest ih =>
    unfold BytePacketBuffer.splitOnDot
    by_cases hb : b = 46
    · subst hb
      rw [if_pos rfl]
      show (encLabels ([] :: BytePacketBuffer.splitOnDot rest)).length =
        rest.length + 1 + 1
      simp only [encLabels, List.length_cons, List.nil_append]
      rw [ih]
    · rw [if_neg hb]
      cases hr : BytePacketBuffer.splitOnDot rest with
      | nil => exact absurd hr (splitOnDot_ne_nil rest)
      | cons h t =>
        show (encLabels ((b :: h) :: t)).length = rest.length + 1 + 1
        have ih2 : (encLabels (h :: t)).length = rest.length + 1 := by
          rw [← hr]
          exact ih
        simp only [encLabels, List.length_cons, List.length_append] at ih2 ⊢
        omega

theorem encQname_length (s : List Nat) : (encQname s).length = s.length + 2 := by
  simp [encQname, encLabels_length_split]

theorem splitOnDot_labels_wf {s : List Nat} (hlab : LabelsShort s)
    (hne : ∀ l ∈ BytePacketBuffer.splitOnDot s, l ≠ []) :
    ∀ l ∈ BytePacketBuffer.splitOnDot s, l ≠ [] ∧ l.length ≤ 63 :=
  fun l hl => ⟨hne l hl, hlab l hl⟩

theorem read_qname_decodes {arr : List Nat} {p : Nat} {out s : List Nat}
    (harr : arr.length = MAX_BUFFER_SIZE) (hlab : LabelsShort s)
    (hne : ∀ l ∈ BytePacketBuffer.splitOnDot s, l ≠ [])
    (hr : rangeEq arr p (encQname s)) :
    DnsBuf.read_qname arr p out =
      .ok (out ++ asciiLower s, p + (encQname s).length) := by
  unfold DnsBuf.read_qname
  have hr2 : rangeEq arr p (encLabels (BytePacketBuffer.splitOnDot s) ++ [0]) := by
    simpa [encQname] using hr
  rw [DnsBuf.readQnameLoop_decodes harr (BytePacketBuffer.splitOnDot s) p p out []
    (splitOnDot_labels_wf hlab hne) hr2]
  rw [join_split]
  simp [encQname]

/-! ## Write-success lemmas -/

namespace BytePacketBuffer

theorem write_ok_of_room {b : BytePacketBuffer} {v : Nat}
    (h : b.position < MAX_BUFFER_SIZE) :
    b.write v = .ok { buffer := b.buffer.set b.position v,
                      position := b.position + 1 } := by
  unfold write
  rw [if_neg (by omega)]

theorem writeBytes_ok_of_room {l : List Nat} :
    ∀ {b : BytePacketBuffer}, b.buffer.length = MAX_BUFFER_SIZE →
    b.position + l.length ≤ MAX_BUFFER_SIZE →
    ∃ b', writeBytes b l = .ok b' ∧ Writes b b' l := by
  induction l with
  | nil =>
    intro b hlen hroom
    exact ⟨b, rfl, writes_nil (by simpa using hroom)⟩
  | cons v rest ih =>
    intro b hlen hroom
    simp only [List.length_cons] at hroom
    have h1 := write_ok_of_room (v := v) (b := b) (by omega)
    have w1 := write_writes h1 hlen
    obtain ⟨b2, h2, w2⟩ := ih (w1.1.trans hlen)
      (by rw [w1.2.1]; simp; omega)
    refine ⟨b2, ?_, ?_⟩
    · unfold writeBytes write_u8
      rw [h1]
      show writeBytes _ rest = _
      exact h2
    · have := writes_append w1 w2
      simpa using this

theorem writeLabels_ok_of_room {ls : List (List Nat)} :
    ∀ {b : BytePacketBuffer}, b.buffer.length = MAX_BUFFER_SIZE →
    (∀ l ∈ ls, l.length ≤ 63) →
    b.position + (encLabels ls).length ≤ MAX_BUFFER_SIZE →
    ∃ b', writeLabels b ls = .ok b' ∧ Writes b b' (encLabels ls) := by
  induction ls with
  | nil =>
    intro b hlen h63 hroom
    exact ⟨b, rfl, writes_nil (by simpa [encLabels] using hroom)⟩
  | cons l rest ih =>
    intro b hlen h63 hroom
    simp only [encLabels, List.length_cons, List.length_append] at hroom
    have hl63 := h63 l (by simp)
    have h1 := write_ok_of_room (v := l.length % 256) (b := b) (by omega)
    have w1 := write_writes h1 hlen
    obtain ⟨b2, h2, w2⟩ := writeBytes_ok_of_room (l := l) (w1.1.trans hlen)
      (by rw [w1.2.1]; simp; omega)
    obtain ⟨b3, h3, w3⟩ := ih (w2.1.trans (w1.1.trans hlen))
      (fun x hx => h63 x (by simp [hx]))
      (by rw [w2.2.1, w1.2.1]; simp; omega)
    refine ⟨b3, ?_, ?_⟩
    · unfold writeLabels write_u8
      rw [if_neg (by omega)]
      rw [h1]
      show (writeBytes _ l >>= _) = _
      rw [h2]
      show writeLabels _ rest = _
      exact h3
    · have : encLabels (l :: rest) = [l.length % 256] ++ (l ++ encLabels rest) := by
        simp [encLabels]
      rw [this]
      exact writes_append w1 (writes_append w2 w3)

theorem write_qname_ok_of_room {b : BytePacketBuffer} {s : List Nat}
    (hlen : b.buffer.length = MAX_BUFFER_SIZE) (hlab : LabelsShort s)
    (hroom : b.position + (encQname s).length ≤ MAX_BUFFER_SIZE) :
    ∃ b', b.write_qname s = .ok b' ∧ Writes b b' (encQname s) := by
  have hroom2 : b.position + (encLabels (BytePacketBuffer.splitOnDot s)).length + 1 ≤
      MAX_BUFFER_SIZE := by
    simp only [encQname, List.length_append, List.length_cons,
      List.length_nil] at hroom
    omega
  obtain ⟨b1, h1, w1⟩ := writeLabels_ok_of_room hlen hlab (by omega)
  have h2 := write_ok_of_room (v := 0) (b := b1)
    (by rw [w1.2.1]; omega)
  have w2 := write_writes h2 (w1.1.trans hlen)
  refine ⟨{ buffer := b1.buffer.set b1.position 0,
            position := b1.position + 1 }, ?_, ?_⟩
  · unfold write_qname
    rw [h1]
    show write_u8 _ 0 = _
    exact h2
  · have := writes_append w1 w2
    simpa [encQname] using this

end BytePacketBuffer

theorem writes_rangeEq {b b' : BytePacketBuffer} {bs : List Nat}
    (w : Writes b b' bs) : rangeEq b'.buffer b.position bs := by
  obtain ⟨hl, hp, hb, hf, hr⟩ := w
  exact ⟨by omega, hr⟩

theorem freshBuffer_length : freshBuffer.buffer.length = MAX_BUFFER_SIZE := by
  simp [freshBuffer]

/-! # Claim theorems -/

/-- **C9**: `get_range(start, len)` succeeds and returns the `len` bytes at
positions `start, …, start+len-1` (without touching the cursor, which the
reader model never moves) exactly when `start + len < 512`; for
`start + len ≥ 512` — in particular for a range ending exactly at the final
byte — it fails with `EndOfBuffer`. -/
theorem get_range_boundary (arr : List Nat) (start len : Nat)
    (harr : arr.length = 512) :
    (start + len < 512 →
      DnsBuf.get_range arr start len = .ok ((arr.drop start).take len) ∧
      ((arr.drop start).take len).length = len ∧
      (∀ i, i < len → ((arr.drop start).take len).getD i 0 =
        arr.getD (start + i) 0)) ∧
    (512 ≤ start + len →
      DnsBuf.get_range arr start len = .error .endOfBuffer) := by
  constructor
  · intro h
    refine ⟨?_, ?_, ?_⟩
    · unfold DnsBuf.get_range
      rw [if_neg (by simp [MAX_BUFFER_SIZE]; omega)]
    · simp
      omega
    · intro i hi
      rw [List.getD_eq_getElem?_getD, List.getElem?_take_of_lt hi,
        List.getElem?_drop, ← List.getD_eq_getElem?_getD]
  · intro h
    unfold DnsBuf.get_range
    rw [if_pos (by simp [MAX_BUFFER_SIZE]; omega)]

/-- Witness for C9 at a concrete buffer and range. -/
theorem get_range_boundary_witness :
    (500 + 11 < 512 →
      DnsBuf.get_range (List.replicate 512 7) 500 11 =
        .ok (((List.replicate 512 7).drop 500).take 11) ∧
      (((List.replicate 512 7).drop 500).take 11).length = 11 ∧
      (∀ i, i < 11 → (((List.replicate 512 7).drop 500).take 11).getD i 0 =
        (List.replicate 512 7).getD (500 + i) 0)) ∧
    (512 ≤ 500 + 11 + 1 →
      DnsBuf.get_range (List.replicate 512 7) 500 (11 + 1) =
        .error .endOfBuffer) := by
  have h := get_range_boundary (List.replicate 512 7) 500 11
    (by rw [List.length_replicate])
  have h2 := get_range_boundary (List.replicate 512 7) 500 (11 + 1)
    (by rw [List.length_replicate])
  exact ⟨h.1, fun hb => h2.2 (by omega)⟩

/-- **C10**: `set` and `set_u16` perform no `EndOfBuffer` bounds check: for
`position ≥ 512` (resp. `≥ 511`) they hit the Rust index-out-of-bounds panic
(modelled as `panicIndexOutOfBounds`) instead of returning `EndOfBuffer`; and
under the two-phase RDLENGTH pattern of `DnsRecord::write`, where the 2-byte
placeholder was written by a successful `write_u16`, the patch positions are
in bounds, so a record write can never reach the panic. -/
theorem set_no_bounds_check :
    (∀ (b : BytePacketBuffer) (position value : Nat), 512 ≤ position →
      b.set position value = .error .panicIndexOutOfBounds) ∧
    (∀ (b : BytePacketBuffer) (position value : Nat), 511 ≤ position →
      b.set_u16 position value = .error .panicIndexOutOfBounds) ∧
    (∀ (r : DnsRecord) (b : BytePacketBuffer),
      r.write b ≠ .error .panicIndexOutOfBounds) := by
  refine ⟨?_, ?_, ?_⟩
  · intro b position value h
    unfold BytePacketBuffer.set
    rw [if_neg (by simp [MAX_BUFFER_SIZE]; omega)]
  · intro b position value h
    rcases Nat.lt_or_ge position 512 with hlt | hge
    · have h511 : position = 511 := by omega
      subst h511
      have h1 : b.set 511 ((value >>> 8) % 256) =
          .ok { buffer := b.buffer.set 511 ((value >>> 8) % 256),
                position := b.position } :=
        BytePacketBuffer.set_ok_iff.mpr ⟨by simp [MAX_BUFFER_SIZE], rfl⟩
      unfold BytePacketBuffer.set_u16
      rw [h1]
      show BytePacketBuffer.set
        { buffer := b.buffer.set 511 ((value >>> 8) % 256),
          position := b.position } (511 + 1) (value &&& 0xFF) = _
      unfold BytePacketBuffer.set
      rw [if_neg (by simp [MAX_BUFFER_SIZE])]
    · unfold BytePacketBuffer.set_u16
      unfold BytePacketBuffer.set
      rw [if_neg (by simp [MAX_BUFFER_SIZE]; omega)]
      rfl
  · intro r b hc
    cases r with
    | a domain addr ttl =>
      simp only [DnsRecord.write] at hc
      rcases except_bind_error.mp hc with h1 | ⟨b1, -, hc⟩
      · exact absurd (BytePacketBuffer.write_qname_error_eq h1) (by simp)
      rcases except_bind_error.mp hc with h1 | ⟨b2, -, hc⟩
      · exact absurd (BytePacketBuffer.write_u16_error_eq h1) (by simp)
      rcases except_bind_error.mp hc with h1 | ⟨b3, -, hc⟩
      · exact absurd (BytePacketBuffer.write_u16_error_eq h1) (by simp)
      rcases except_bind_error.mp hc with h1 | ⟨b4, -, hc⟩
      · exact absurd (BytePacketBuffer.write_u32_error_eq h1) (by simp)
      rcases except_bind_error.mp hc with h1 | ⟨b5, -, hc⟩
      · exact absurd (BytePacketBuffer.write_u16_error_eq h1) (by simp)
      rcases except_bind_error.mp hc with h1 | ⟨b6, -, hc⟩
      · exact absurd (BytePacketBuffer.write_error_eq h1) (by simp)
      rcases except_bind_error.mp hc with h1 | ⟨b7, -, hc⟩
      · exact absurd (BytePacketBuffer.write_error_eq h1) (by simp)
      rcases except_bind_error.mp hc with h1 | ⟨b8, -, hc⟩
      · exact absurd (BytePacketBuffer.write_error_eq h1) (by simp)
      rcases except_bind_error.mp hc with h1 | ⟨b9, -, hc⟩
      · exact absurd (BytePacketBuffer.write_error_eq h1) (by simp)
      exact absurd hc (by simp)
    | ns domain host ttl =>
      simp only [DnsRecord.write] at hc
      rcases except_bind_error.mp hc with h1 | ⟨b1, -, hc⟩
      · exact absurd (BytePacketBuffer.write_qname_error_eq h1) (by simp)
      rcases except_bind_error.mp hc with h1 | ⟨b2, -, hc⟩
      · exact absurd (BytePacketBuffer.write_u16_error_eq h1) (by simp)
      rcases except_bind_error.mp hc with h1 | ⟨b3, -, hc⟩
      · exact absurd (BytePacketBuffer.write_u16_error_eq h1) (by simp)
      rcases except_bind_error.mp hc with h1 | ⟨b4, -, hc⟩
      · exact absurd (BytePacketBuffer.write_u32_error_eq h1) (by simp)
      rcases except_bind_error.mp hc with h1 | ⟨b5, h5, hc⟩
      · exact absurd (BytePacketBuffer.write_u16_error_eq h1) (by simp)
      rcases except_bind_error.mp hc with h1 | ⟨b6, -, hc⟩
      · exact absurd (BytePacketBuffer.write_qname_error_eq h1) (by simp)
      rcases except_bind_error.mp hc with h1 | ⟨b7, -, hc⟩
      · obtain ⟨hb, -⟩ := BytePacketBuffer.write_u16_ok_bound h5
        rw [BytePacketBuffer.set_u16_ok_of_room (by omega)] at h1
        exact absurd h1 (by simp)
      · exact absurd hc (by simp)
    | cname domain host ttl =>
      simp only [DnsRecord.write] at hc
      rcases except_bind_error.mp hc with h1 | ⟨b1, -, hc⟩
      · exact absurd (BytePacketBuffer.write_qname_error_eq h1) (by simp)
      rcases except_bind_error.mp hc with h1 | ⟨b2, -, hc⟩
      · exact absurd (BytePacketBuffer.write_u16_error_eq h1) (by simp)
      rcases except_bind_error.mp hc with h1 | ⟨b3, -, hc⟩
      · exact absurd (BytePacketBuffer.write_u16_error_eq h1) (by simp)
      rcases except_bind_error.mp hc with h1 | ⟨b4, -, hc⟩
      · exact absurd (BytePacketBuffer.write_u32_error_eq h1) (by simp)
      rcases except_bind_error.mp hc with h1 | ⟨b5, h5, hc⟩
      · exact absurd (BytePacketBuffer.write_u16_error_eq h1) (by simp)
      rcases except_bind_error.mp hc with h1 | ⟨b6, -, hc⟩
      · exact absurd (BytePacketBuffer.write_qname_error_eq h1) (by simp)
      rcases except_bind_error.mp hc with h1 | ⟨b7, -, hc⟩
      · obtain ⟨hb, -⟩ := BytePacketBuffer.write_u16_ok_bound h5
        rw [BytePacketBuffer.set_u16_ok_of_room (by omega)] at h1
        exact absurd h1 (by simp)
      · exact absurd hc (by simp)
    | mx domain priority host ttl =>
      simp only [DnsRecord.write] at hc
      rcases except_bind_error.mp hc with h1 | ⟨b1, -, hc⟩
      · exact absurd (BytePacketBuffer.write_qname_error_eq h1) (by simp)
      rcases except_bind_error.mp hc with h1 | ⟨b2, -, hc⟩
      · exact absurd (BytePacketBuffer.write_u16_error_eq h1) (by simp)
      rcases except_bind_error.mp hc with h1 | ⟨b3, -, hc⟩
      · exact absurd (BytePacketBuffer.write_u16_error_eq h1) (by simp)
      rcases except_bind_error.mp hc with h1 | ⟨b4, -, hc⟩
      · exact absurd (BytePacketBuffer.write_u32_error_eq h1) (by simp)
      rcases except_bind_error.mp hc with h1 | ⟨b5, h5, hc⟩
      · exact absurd (BytePacketBuffer.write_u16_error_eq h1) (by simp)
      rcases except_bind_error.mp hc with h1 | ⟨b6, -, hc⟩
      · exact absurd (BytePacketBuffer.write_u16_error_eq h1) (by simp)
      rcases except_bind_error.mp hc with h1 | ⟨b7, -, hc⟩
      · exact absurd (BytePacketBuffer.write_qname_error_eq h1) (by simp)
      rcases except_bind_error.mp hc with h1 | ⟨b8, -, hc⟩
      · obtain ⟨hb, -⟩ := BytePacketBuffer.write_u16_ok_bound h5
        rw [BytePacketBuffer.set_u16_ok_of_room (by omega)] at h1
        exact absurd h1 (by simp)
      · exact absurd hc (by simp)
    | aaaa domain addr ttl =>
      simp only [DnsRecord.write] at hc
      rcases except_bind_error.mp hc with h1 | ⟨b1, -, hc⟩
      · exact absurd (BytePacketBuffer.write_qname_error_eq h1) (by simp)
      rcases except_bind_error.mp hc with h1 | ⟨b2, -, hc⟩
      · exact absurd (BytePacketBuffer.write_u16_error_eq h1) (by simp)
      rcases except_bind_error.mp hc with h1 | ⟨b3, -, hc⟩
      · exact absurd (BytePacketBuffer.write_u16_error_eq h1) (by simp)
      rcases except_bind_error.mp hc with h1 | ⟨b4, -, hc⟩
      · exact absurd (BytePacketBuffer.write_u32_error_eq h1) (by simp)
      rcases except_bind_error.mp hc with h1 | ⟨b5, -, hc⟩
      · exact absurd (BytePacketBuffer.write_u16_error_eq h1) (by simp)
      rcases except_bind_error.mp hc with h1 | ⟨b6, -, hc⟩
      · exact absurd (BytePacketBuffer.write_u16_error_eq h1) (by simp)
      rcases except_bind_error.mp hc with h1 | ⟨b7, -, hc⟩
      · exact absurd (BytePacketBuffer.write_u16_error_eq h1) (by simp)
      rcases except_bind_error.mp hc with h1 | ⟨b8, -, hc⟩
      · exact absurd (BytePacketBuffer.write_u16_error_eq h1) (by simp)
      rcases except_bind_error.mp hc with h1 | ⟨b9, -, hc⟩
      · exact absurd (BytePacketBuffer.write_u16_error_eq h1) (by simp)
      rcases except_bind_error.mp hc with h1 | ⟨b10, -, hc⟩
      · exact absurd (BytePacketBuffer.write_u16_error_eq h1) (by simp)
      rcases except_bind_error.mp hc with h1 | ⟨b11, -, hc⟩
      · exact absurd (BytePacketBuffer.write_u16_error_eq h1) (by simp)
      rcases except_bind_error.mp hc with h1 | ⟨b12, -, hc⟩
      · exact absurd (BytePacketBuffer.write_u16_error_eq h1) (by simp)
      rcases except_bind_error.mp hc with h1 | ⟨b13, -, hc⟩
      · exact absurd (BytePacketBuffer.write_u16_error_eq h1) (by simp)
      exact absurd hc (by simp)
    | unknown domain qtype data_len ttl =>
      simp only [DnsRecord.write] at hc
      exact absurd hc (by simp)

/-- Witness for C10: `set` at 512 and `set_u16` at 511 panic rather than
returning `EndOfBuffer`, and a concrete NS record write never panics. -/
theorem set_no_bounds_check_witness :
    freshBuffer.set 512 7 = .error .panicIndexOutOfBounds ∧
    freshBuffer.set_u16 511 7 = .error .panicIndexOutOfBounds ∧
    (DnsRecord.ns [97] [98] 60).write freshBuffer ≠
      .error .panicIndexOutOfBounds :=
  ⟨set_no_bounds_check.1 freshBuffer 512 7 (by omega),
   set_no_bounds_check.2.1 freshBuffer 511 7 (by omega),
   set_no_bounds_check.2.2 (DnsRecord.ns [97] [98] 60) freshBuffer⟩

set_option maxRecDepth 4000 in
/-- **C5** counterexample: on a fresh buffer, `write_qname("")` does *not*
write a single `0x00` with the cursor at 1 — it writes the empty label's
length byte *and* the terminator (two bytes), leaving the cursor at 2. -/
theorem write_qname_empty_counterexample :
    BytePacketBuffer.write_qname freshBuffer [] =
      .ok { buffer := List.replicate 512 0, position := 2 } ∧
    (2 : Nat) ≠ 1 := by
  constructor
  · decide
  · decide

set_option maxRecDepth 4000 in
/-- **C5** (amended): `write_qname("")` on a fresh buffer succeeds and writes
exactly two bytes `0x00 0x00` (the empty label's length byte, then the
terminator), leaving the cursor at 2; on an all-ones buffer the two zero
bytes and the untouched tail are visible. -/
theorem write_qname_empty_two_bytes :
    BytePacketBuffer.write_qname freshBuffer [] =
      .ok { buffer := List.replicate 512 0, position := 2 } ∧
    BytePacketBuffer.write_qname { buffer := List.replicate 512 1, position := 0 } [] =
      .ok { buffer := 0 :: 0 :: List.replicate 510 1, position := 2 } := by
  constructor
  · decide
  · decide

/-- The jump-limit guard of `read_qname`: once more than 5 pointers have been
chased, the loop fails immediately with `LimitOfJumpsExceeded 5`. -/
theorem readQnameLoop_guard (arr : List Nat) (selfPos position : Nat)
    (jumped : Bool) (out delim : List Nat) (jp : Nat) (h : 5 < jp) :
    DnsBuf.readQnameLoop arr selfPos position jumped jp out delim =
      .error (.limitOfJumpsExceeded 5) := by
  rw [DnsBuf.readQnameLoop.eq_def, if_pos h]

/-- The self-referential pointer `c0 00` at offset 0: every loop state that
scans from offset 0 ends in `LimitOfJumpsExceeded 5`. -/
theorem readQnameLoop_selfptr :
    ∀ (n selfPos jp : Nat) (jumped : Bool) (out delim : List Nat), 6 - jp ≤ n →
    DnsBuf.readQnameLoop (0xC0 :: 0x00 :: List.replicate 510 0) selfPos 0
      jumped jp out delim = .error (.limitOfJumpsExceeded 5) := by
  intro n
  induction n with
  | zero =>
    intro selfPos jp jumped out delim hk
    exact readQnameLoop_guard _ _ _ _ _ _ _ (by omega)
  | succ n ih =>
    intro selfPos jp jumped out delim hk
    rw [DnsBuf.readQnameLoop.eq_def]
    by_cases h5 : jp > 5
    · simp [h5]
    · have hg : DnsBuf.get (0xC0 :: 0x00 :: List.replicate 510 0) 0 =
          .ok 0xC0 := by decide
      simp only [h5, if_false, hg]
      norm_num
      exact ih _ _ _ _ _ (by omega)

/-- **C3**: `read_qname` (i) fails with `LimitOfJumpsExceeded 5` from any
loop state in which more than 5 jumps have been performed, (ii) following a
pointer when 5 jumps have already been performed always yields
`LimitOfJumpsExceeded 5` — it never succeeds after more than 5 pointers —
and (iii) on a buffer with the self-referential pointer `c0 00` at offset 0,
reading the name at position 0 fails with `LimitOfJumpsExceeded 5`. -/
theorem read_qname_jump_limit :
    (∀ (arr : List Nat) (selfPos position : Nat) (jumped : Bool)
        (out delim : List Nat) (jp : Nat), 5 < jp →
      DnsBuf.readQnameLoop arr selfPos position jumped jp out delim =
        .error (.limitOfJumpsExceeded 5)) ∧
    (∀ (arr : List Nat) (selfPos position : Nat) (jumped : Bool)
        (out delim : List Nat) (len b2 : Nat),
      DnsBuf.get arr position = .ok len → len &&& 0xC0 = 0xC0 →
      DnsBuf.get arr (position + 1) = .ok b2 →
      DnsBuf.readQnameLoop arr selfPos position jumped 5 out delim =
        .error (.limitOfJumpsExceeded 5)) ∧
    DnsBuf.read_qname (0xC0 :: 0x00 :: List.replicate 510 0) 0 [] =
      .error (.limitOfJumpsExceeded 5) := by
  refine ⟨?_, ?_, ?_⟩
  · intro arr selfPos position jumped out delim jp h
    exact readQnameLoop_guard arr selfPos position jumped out delim jp h
  · intro arr selfPos position jumped out delim len b2 hg hptr hb2
    rw [DnsBuf.readQnameLoop.eq_def]
    rw [if_neg (by omega)]
    rw [hg]
    simp only [hptr, if_pos rfl, hb2]
    exact readQnameLoop_guard _ _ _ _ _ _ _ (by omega)
  · exact readQnameLoop_selfptr 6 0 0 false [] [] (by omega)

/-- Witness for C3's hypotheses: a state with 6 jumps performed, and a
concrete pointer byte pair, both failing with the jump-limit error. -/
theorem read_qname_jump_limit_witness :
    DnsBuf.readQnameLoop [] 0 0 false 6 [] [] =
      .error (.limitOfJumpsExceeded 5) ∧
    DnsBuf.readQnameLoop (0xC0 :: 0x00 :: List.replicate 510 0) 0 0 false 5
      [] [] = .error (.limitOfJumpsExceeded 5) :=
  ⟨read_qname_jump_limit.1 [] 0 0 false [] [] 6 (by omega),
   read_qname_jump_limit.2.1 (0xC0 :: 0x00 :: List.replicate 510 0) 0 0 false
     [] [] 0xC0 0x00 (by decide) (by decide) (by decide)⟩

/-- **C2** counterexample: the single-dot name "." is ASCII with labels of at
most 63 octets and its encoding fits, yet writing then reading yields the
empty name, not the lowercase of "." — the dot-adjacent empty labels break
the round trip. -/
theorem write_read_qname_counterexample :
    NameAscii [46] ∧ LabelsShort [46] ∧ (1 : Nat) + 2 ≤ 512 ∧
    BytePacketBuffer.write_qname freshBuffer [46] =
      .ok { buffer := List.replicate 512 0, position := 3 } ∧
    DnsBuf.read_qname (List.replicate 512 0) 0 [] = .ok ([], 1) ∧
    asciiLower [46] ≠ [] := by
  refine ⟨?_, ?_, ?_, ?_, ?_, ?_⟩
  · intro b hb
    simp at hb
    omega
  · decide
  · omega
  · set_option maxRecDepth 4000 in decide
  · rw [DnsBuf.read_qname, DnsBuf.readQnameLoop.eq_def]
    have hg : DnsBuf.get (List.replicate 512 0) 0 = .ok 0 := by decide
    rw [hg]
    norm_num
  · decide

/-- **C2** (amended: the name is empty or has no empty label): for every
ASCII domain string of labels at most 63 octets whose encoding fits in the
512-byte buffer, writing with `write_qname` into a fresh buffer and reading
back with `read_qname` from position 0 succeeds and yields the lowercase of
the name. -/
theorem write_read_qname_roundtrip (s : List Nat) (hascii : NameAscii s)
    (hlab : LabelsShort s) (hne : NoEmptyLabel s)
    (hfit : s.length + 2 ≤ 512) :
    ∃ b', BytePacketBuffer.write_qname freshBuffer s = .ok b' ∧
      ∃ endPos, DnsBuf.read_qname b'.buffer 0 [] = .ok (asciiLower s, endPos) := by
  have hroom : freshBuffer.position + (encQname s).length ≤ MAX_BUFFER_SIZE := by
    rw [encQname_length]
    show 0 + (s.length + 2) ≤ 512
    omega
  obtain ⟨b', hw, w⟩ :=
    BytePacketBuffer.write_qname_ok_of_room freshBuffer_length hlab hroom
  refine ⟨b', hw, ?_⟩
  have harr : b'.buffer.length = MAX_BUFFER_SIZE := w.1.trans freshBuffer_length
  have hrange : rangeEq b'.buffer 0 (encQname s) := writes_rangeEq w
  rcases hne with hnil | hlabels
  · subst hnil
    have hr2 : rangeEq b'.buffer 0 [0, 0] := by
      simpa [encQname, BytePacketBuffer.splitOnDot, encLabels] using hrange
    obtain ⟨h0, -⟩ := rangeEq_head hr2
    refine ⟨1, ?_⟩
    rw [DnsBuf.read_qname, DnsBuf.readQnameLoop.eq_def,
      DnsBuf.get_of_lt (by decide), h0]
    norm_num [asciiLower]
  · refine ⟨(encQname s).length, ?_⟩
    have := @read_qname_decodes b'.buffer 0 [] s harr hlab hlabels hrange
    simpa using this

/-- Witness for C2 at the concrete mixed-case name "Go.Com". -/
theorem write_read_qname_roundtrip_witness :
    NameAscii [71, 111, 46, 67, 111, 109] ∧
    LabelsShort [71, 111, 46, 67, 111, 109] ∧
    NoEmptyLabel [71, 111, 46, 67, 111, 109] ∧
    (6 : Nat) + 2 ≤ 512 ∧
    ∃ b', BytePacketBuffer.write_qname freshBuffer [71, 111, 46, 67, 111, 109] =
        .ok b' ∧
      ∃ endPos, DnsBuf.read_qname b'.buffer 0 [] =
        .ok (asciiLower [71, 111, 46, 67, 111, 109], endPos) := by
  refine ⟨by decide, by decide, by decide, by omega, ?_⟩
  exact write_read_qname_roundtrip [71, 111, 46, 67, 111, 109]
    (by decide) (by decide) (by decide) (by norm_num)

/-- The inner additional-section search of `get_resolved_ns` agrees with the
spec-side first-matching-A-record recursion. -/
theorem findGlue_head_eq (ress : List DnsRecord) (h : List Nat) :
    (ress.filterMap fun r =>
      match r with
      | .a domain addr _ => if domain = h then some addr else none
      | _ => none).head? = findGlueSpec ress h := by
  induction ress with
  | nil => simp [findGlueSpec]
  | cons r rest ih =>
    cases r with
    | a domain addr ttl =>
      by_cases hd : domain = h
      · simp [List.filterMap_cons, hd, findGlueSpec]
      · simp [List.filterMap_cons, hd, findGlueSpec, ih]
    | ns d0 h0 t0 => simpa [List.filterMap_cons, findGlueSpec] using ih
    | cname d0 h0 t0 => simpa [List.filterMap_cons, findGlueSpec] using ih
    | mx d0 p0 h0 t0 => simpa [List.filterMap_cons, findGlueSpec] using ih
    | aaaa d0 a0 t0 => simpa [List.filterMap_cons, findGlueSpec] using ih
    | unknown d0 q0 l0 t0 => simpa [List.filterMap_cons, findGlueSpec] using ih

theorem findGlueSpec_isSome_iff (ress : List DnsRecord) (h : List Nat) :
    (findGlueSpec ress h).isSome ↔ ∃ addr ttl, DnsRecord.a h addr ttl ∈ ress := by
  induction ress with
  | nil => simp [findGlueSpec]
  | cons r rest ih =>
    cases r with
    | a domain addr ttl =>
      by_cases hd : domain = h
      · subst hd
        simp [findGlueSpec]
        exact ⟨addr, ttl, Or.inl ⟨rfl, rfl⟩⟩
      · simp only [findGlueSpec, if_neg hd, ih]
        constructor
        · rintro ⟨a2, t2, hm⟩
          exact ⟨a2, t2, by simp [hm]⟩
        · rintro ⟨a2, t2, hm⟩
          rcases List.mem_cons.mp hm with hin | hin
          · exact absurd (by injection hin with h1 h2 h3; exact h1.symm) hd
          · exact ⟨a2, t2, hin⟩
    | ns d0 h0 t0 =>
      simp only [findGlueSpec, ih]
      constructor
      · rintro ⟨a2, t2, hm⟩
        exact ⟨a2, t2, by simp [hm]⟩
      · rintro ⟨a2, t2, hm⟩
        rcases List.mem_cons.mp hm with hin | hin
        · exact absurd hin (by simp)
        · exact ⟨a2, t2, hin⟩
    | cname d0 h0 t0 =>
      simp only [findGlueSpec, ih]
      constructor
      · rintro ⟨a2, t2, hm⟩
        exact ⟨a2, t2, by simp [hm]⟩
      · rintro ⟨a2, t2, hm⟩
        rcases List.mem_cons.mp hm with hin | hin
        · exact absurd hin (by simp)
        · exact ⟨a2, t2, hin⟩
    | mx d0 p0 h0 t0 =>
      simp only [findGlueSpec, ih]
      constructor
      · rintro ⟨a2, t2, hm⟩
        exact ⟨a2, t2, by simp [hm]⟩
      · rintro ⟨a2, t2, hm⟩
        rcases List.mem_cons.mp hm with hin | hin
        · exact absurd hin (by simp)
        · exact ⟨a2, t2, hin⟩
    | aaaa d0 a0 t0 =>
      simp only [findGlueSpec, ih]
      constructor
      · rintro ⟨a2, t2, hm⟩
        exact ⟨a2, t2, by simp [hm]⟩
      · rintro ⟨a2, t2, hm⟩
        rcases List.mem_cons.mp hm with hin | hin
        · exact absurd hin (by simp)
        · exact ⟨a2, t2, hin⟩
    | unknown d0 q0 l0 t0 =>
      simp only [findGlueSpec, ih]
      constructor
      · rintro ⟨a2, t2, hm⟩
        exact ⟨a2, t2, by simp [hm]⟩
      · rintro ⟨a2, t2, hm⟩
        rcases List.mem_cons.mp hm with hin | hin
        · exact absurd hin (by simp)
        · exact ⟨a2, t2, hin⟩

/-- `get_resolved_ns` equals the spec-side first-(NS, glue-A) recursion. -/
theorem glue_flatMap_head_eq (auths ress : List DnsRecord) (qname : List Nat) :
    (((auths.filterMap fun r =>
        match r with
        | .ns domain host _ => some (domain, host)
        | _ => none).filter fun pair =>
          pair.1.isSuffixOf qname).flatMap fun pair =>
      ress.filterMap fun r =>
        match r with
        | .a domain addr _ => if domain = pair.2 then some addr else none
        | _ => none).head? = firstGluedSpec auths ress qname := by
  induction auths with
  | nil => simp [firstGluedSpec]
  | cons r rest ih =>
    cases r with
    | ns d h ttl =>
      by_cases hs : d.isSuffixOf qname
      · simp only [List.filterMap_cons, List.filter_cons]
        rw [if_pos (by simpa using hs)]
        simp only [List.flatMap_cons, List.head?_append, findGlue_head_eq]
        simp only [firstGluedSpec, if_pos hs]
        cases hg : findGlueSpec ress h with
        | some addr => simp [hg]
        | none => simp [hg, ih]
      · simp only [List.filterMap_cons, List.filter_cons]
        rw [if_neg (by simpa using hs)]
        simp only [firstGluedSpec, if_neg hs]
        exact ih
    | a d0 a0 t0 => simpa [List.filterMap_cons, firstGluedSpec] using ih
    | cname d0 h0 t0 => simpa [List.filterMap_cons, firstGluedSpec] using ih
    | mx d0 p0 h0 t0 => simpa [List.filterMap_cons, firstGluedSpec] using ih
    | aaaa d0 a0 t0 => simpa [List.filterMap_cons, firstGluedSpec] using ih
    | unknown d0 q0 l0 t0 => simpa [List.filterMap_cons, firstGluedSpec] using ih

theorem firstGluedSpec_isSome_iff (auths ress : List DnsRecord) (qname : List Nat) :
    (firstGluedSpec auths ress qname).isSome ↔
      ∃ d h, (∃ ttl, DnsRecord.ns d h ttl ∈ auths) ∧
        d.isSuffixOf qname = true ∧
        ∃ addr ttl2, DnsRecord.a h addr ttl2 ∈ ress := by
  induction auths with
  | nil => simp [firstGluedSpec]
  | cons r rest ih =>
    cases r with
    | ns d h ttl =>
      by_cases hs : d.isSuffixOf qname
      · simp only [firstGluedSpec, if_pos hs]
        cases hg : findGlueSpec ress h with
        | some addr =>
          have hsome : (findGlueSpec ress h).isSome := by simp [hg]
          obtain ⟨a2, t2, hm⟩ := (findGlueSpec_isSome_iff ress h).mp hsome
          simp only [Option.isSome_some, true_iff]
          exact ⟨d, h, ⟨ttl, by simp⟩, hs, a2, t2, hm⟩
        | none =>
          have hnone : ¬ (findGlueSpec ress h).isSome := by simp [hg]
          rw [ih]
          constructor
          · rintro ⟨d2, h2, ⟨t2, hm⟩, hsfx, a3, t3, hm3⟩
            exact ⟨d2, h2, ⟨t2, by simp [hm]⟩, hsfx, a3, t3, hm3⟩
          · rintro ⟨d2, h2, ⟨t2, hm⟩, hsfx, a3, t3, hm3⟩
            rcases List.mem_cons.mp hm with hin | hin
            · rw [findGlueSpec_isSome_iff] at hnone
              injection hin with e1 e2 e3
              subst e1
              subst e2
              exact absurd ⟨a3, t3, hm3⟩ hnone
            · exact ⟨d2, h2, ⟨t2, hin⟩, hsfx, a3, t3, hm3⟩
      · simp only [firstGluedSpec, if_neg hs]
        rw [ih]
        constructor
        · rintro ⟨d2, h2, ⟨t2, hm⟩, hsfx, a3, t3, hm3⟩
          exact ⟨d2, h2, ⟨t2, by simp [hm]⟩, hsfx, a3, t3, hm3⟩
        · rintro ⟨d2, h2, ⟨t2, hm⟩, hsfx, a3, t3, hm3⟩
          rcases List.mem_cons.mp hm with hin | hin
          · injection hin with e1 e2 e3
            subst e1
            subst e2
            exact absurd hsfx (by simpa using hs)
          · exact ⟨d2, h2, ⟨t2, hin⟩, hsfx, a3, t3, hm3⟩
    | a d0 a0 t0 =>
      rw [show firstGluedSpec (DnsRecord.a d0 a0 t0 :: rest) ress qname =
        firstGluedSpec rest ress qname from rfl, ih]
      constructor
      · rintro ⟨d2, h2, ⟨t2, hm⟩, hsfx, rest2⟩
        exact ⟨d2, h2, ⟨t2, by simp [hm]⟩, hsfx, rest2⟩
      · rintro ⟨d2, h2, ⟨t2, hm⟩, hsfx, rest2⟩
        rcases List.mem_cons.mp hm with hin | hin
        · exact absurd hin (by simp)
        · exact ⟨d2, h2, ⟨t2, hin⟩, hsfx, rest2⟩
    | cname d0 h0 t0 =>
      rw [show firstGluedSpec (DnsRecord.cname d0 h0 t0 :: rest) ress qname =
        firstGluedSpec rest ress qname from rfl, ih]
      constructor
      · rintro ⟨d2, h2, ⟨t2, hm⟩, hsfx, rest2⟩
        exact ⟨d2, h2, ⟨t2, by simp [hm]⟩, hsfx, rest2⟩
      · rintro ⟨d2, h2, ⟨t2, hm⟩, hsfx, rest2⟩
        rcases List.mem_cons.mp hm with hin | hin
        · exact absurd hin (by simp)
        · exact ⟨d2, h2, ⟨t2, hin⟩, hsfx, rest2⟩
    | mx d0 p0 h0 t0 =>
      rw [show firstGluedSpec (DnsRecord.mx d0 p0 h0 t0 :: rest) ress qname =
        firstGluedSpec rest ress qname from rfl, ih]
      constructor
      · rintro ⟨d2, h2, ⟨t2, hm⟩, hsfx, rest2⟩
        exact ⟨d2, h2, ⟨t2, by simp [hm]⟩, hsfx, rest2⟩
      · rintro ⟨d2, h2, ⟨t2, hm⟩, hsfx, rest2⟩
        rcases List.mem_cons.mp hm with hin | hin
        · exact absurd hin (by simp)
        · exact ⟨d2, h2, ⟨t2, hin⟩, hsfx, rest2⟩
    | aaaa d0 a0 t0 =>
      rw [show firstGluedSpec (DnsRecord.aaaa d0 a0 t0 :: rest) ress qname =
        firstGluedSpec rest ress qname from rfl, ih]
      constructor
      · rintro ⟨d2, h2, ⟨t2, hm⟩, hsfx, rest2⟩
        exact ⟨d2, h2, ⟨t2, by simp [hm]⟩, hsfx, rest2⟩
      · rintro ⟨d2, h2, ⟨t2, hm⟩, hsfx, rest2⟩
        rcases List.mem_cons.mp hm with hin | hin
        · exact absurd hin (by simp)
        · exact ⟨d2, h2, ⟨t2, hin⟩, hsfx, rest2⟩
    | unknown d0 q0 l0 t0 =>
      rw [show firstGluedSpec (DnsRecord.unknown d0 q0 l0 t0 :: rest) ress qname =
        firstGluedSpec rest ress qname from rfl, ih]
      constructor
      · rintro ⟨d2, h2, ⟨t2, hm⟩, hsfx, rest2⟩
        exact ⟨d2, h2, ⟨t2, by simp [hm]⟩, hsfx, rest2⟩
      · rintro ⟨d2, h2, ⟨t2, hm⟩, hsfx, rest2⟩
        rcases List.mem_cons.mp hm with hin | hin
        · exact absurd hin (by simp)
        · exact ⟨d2, h2, ⟨t2, hin⟩, hsfx, rest2⟩

/-- **C7**: `get_resolved_ns(qname)` equals the first-pair selection — walk
NS records of the authority section in order, keep those whose domain is a
plain byte-suffix of `qname` (no label-boundary check), and return the first
additional-section A address whose domain equals the NS host — and it is
`some` exactly when such an (NS, A) pair exists. -/
theorem get_resolved_ns_spec (p : DnsPacket) (qname : List Nat) :
    p.get_resolved_ns qname = firstGluedSpec p.authorities p.resources qname ∧
    ((p.get_resolved_ns qname).isSome ↔
      ∃ d h, (∃ ttl, DnsRecord.ns d h ttl ∈ p.authorities) ∧
        d.isSuffixOf qname = true ∧
        ∃ addr ttl2, DnsRecord.a h addr ttl2 ∈ p.resources) := by
  have heq : p.get_resolved_ns qname =
      firstGluedSpec p.authorities p.resources qname := by
    unfold DnsPacket.get_resolved_ns DnsPacket.get_ns
    exact glue_flatMap_head_eq p.authorities p.resources qname
  exact ⟨heq, by rw [heq]; exact firstGluedSpec_isSome_iff _ _ _⟩

/-- **C6**: in any iteration of `recursive_lookup`, if the upstream response
has at least one answer with rescode `NoError`, or has rescode `NxDomain`,
the loop returns that response as-is (for any oracle pinned only at the
queried point, hence without further upstream queries). -/
theorem recursive_lookup_terminal (upstream : Upstream) (fuel : Nat)
    (qname : List Nat) (qtype : QueryType) (ns : Ipv4Addr)
    (response : DnsPacket)
    (hresp : upstream qname qtype ns = .ok response)
    (hcond : (response.answers ≠ [] ∧
        response.header.rescode = ResultCode.noError) ∨
      response.header.rescode = ResultCode.nxDomain) :
    recursiveLookupGo upstream (fuel + 1) qname qtype ns =
      some (.ok response) := by
  unfold recursiveLookupGo
  rw [hresp]
  show (if response.answers ≠ [] ∧ response.header.rescode = ResultCode.noError
    then some (Except.ok response) else _) = some (Except.ok response)
  rcases hcond with ⟨hans, hres⟩ | hres
  · rw [if_pos ⟨hans, hres⟩]
  · by_cases h1 : response.answers ≠ [] ∧
      response.header.rescode = ResultCode.noError
    · rw [if_pos h1]
    · rw [if_neg h1]
      show (if response.header.rescode = ResultCode.nxDomain
        then some (Except.ok response) else _) = some (Except.ok response)
      rw [if_pos hres]

/-- Witness for C6: a one-answer NoError response is returned as-is after a
single exchange. -/
theorem recursive_lookup_terminal_witness :
    (fun _ _ _ => Except.ok
      { DnsPacket.new with answers := [DnsRecord.a [97] ⟨1, 2, 3, 4⟩ 60] } :
        Upstream) [97] QueryType.a rootNs = .ok
      { DnsPacket.new with answers := [DnsRecord.a [97] ⟨1, 2, 3, 4⟩ 60] } ∧
    recursiveLookupGo
      (fun _ _ _ => Except.ok
        { DnsPacket.new with answers := [DnsRecord.a [97] ⟨1, 2, 3, 4⟩ 60] })
      1 [97] QueryType.a rootNs =
      some (.ok { DnsPacket.new with
        answers := [DnsRecord.a [97] ⟨1, 2, 3, 4⟩ 60] }) :=
  ⟨rfl,
   recursive_lookup_terminal
     (fun _ _ _ => Except.ok
       { DnsPacket.new with answers := [DnsRecord.a [97] ⟨1, 2, 3, 4⟩ 60] })
     0 [97] QueryType.a rootNs
     { DnsPacket.new with answers := [DnsRecord.a [97] ⟨1, 2, 3, 4⟩ 60] }
     rfl (Or.inl ⟨by simp, rfl⟩)⟩

/-- **C8** counterexample: a request with one question whose resolution
fails gets rescode `ServFail`, but — contrary to the claim — its question
section is empty, not the popped question. -/
theorem handle_query_counterexample :
    (buildResponse
      { DnsPacket.new with questions := [⟨[97], QueryType.a⟩] }
      (fun _ _ => .error .endOfBuffer)).header.rescode = ResultCode.servFail ∧
    (buildResponse
      { DnsPacket.new with questions := [⟨[97], QueryType.a⟩] }
      (fun _ _ => .error .endOfBuffer)).questions = [] ∧
    ([] : List DnsQuestion) ≠ [⟨[97], QueryType.a⟩] := by
  refine ⟨rfl, rfl, by simp⟩

/-- **C8** (amended): if the request has no questions the response is
`FormErr` with all four sections empty; otherwise the last question is
popped and resolved — on success the response carries exactly that one
question and the resolver's rescode and sections, on failure the rescode is
`ServFail` and the question section stays empty. -/
theorem handle_query_response_spec (req : DnsPacket)
    (resolve : List Nat → QueryType → Except BytePacketBufferError DnsPacket) :
    (req.questions = [] →
      (buildResponse req resolve).header.rescode = ResultCode.formErr ∧
      (buildResponse req resolve).questions = [] ∧
      (buildResponse req resolve).answers = [] ∧
      (buildResponse req resolve).authorities = [] ∧
      (buildResponse req resolve).resources = [] ∧
      (buildResponse req resolve).header.id = req.header.id) ∧
    (∀ q result, req.questions.getLast? = some q →
      resolve q.name q.qtype = .ok result →
      (buildResponse req resolve).questions = [q] ∧
      (buildResponse req resolve).header.rescode = result.header.rescode ∧
      (buildResponse req resolve).answers = result.answers ∧
      (buildResponse req resolve).authorities = result.authorities ∧
      (buildResponse req resolve).resources = result.resources ∧
      (buildResponse req resolve).header.id = req.header.id) ∧
    (∀ q e, req.questions.getLast? = some q →
      resolve q.name q.qtype = .error e →
      (buildResponse req resolve).header.rescode = ResultCode.servFail ∧
      (buildResponse req resolve).questions = []) := by
  refine ⟨?_, ?_, ?_⟩
  · intro hempty
    unfold buildResponse
    rw [show req.questions.getLast? = none by simp [hempty]]
    simp [DnsPacket.new, DnsHeader.new]
  · intro q result hlast hok
    unfold buildResponse
    rw [hlast]
    simp only [hok]
    simp [DnsPacket.new, DnsHeader.new]
  · intro q e hlast herr
    unfold buildResponse
    rw [hlast]
    simp only [herr]
    simp [DnsPacket.new, DnsHeader.new]

/-- Witness for C8 at concrete requests: the zero-question request gets
`FormErr` with empty sections; a one-question request with a succeeding
resolver carries exactly that question. -/
theorem handle_query_response_spec_witness :
    ((DnsPacket.new.questions = [] →
      (buildResponse DnsPacket.new (fun _ _ => .ok DnsPacket.new)).header.rescode =
        ResultCode.formErr ∧
      (buildResponse DnsPacket.new (fun _ _ => .ok DnsPacket.new)).questions = [] ∧
      (buildResponse DnsPacket.new (fun _ _ => .ok DnsPacket.new)).answers = [] ∧
      (buildResponse DnsPacket.new (fun _ _ => .ok DnsPacket.new)).authorities = [] ∧
      (buildResponse DnsPacket.new (fun _ _ => .ok DnsPacket.new)).resources = [] ∧
      (buildResponse DnsPacket.new (fun _ _ => .ok DnsPacket.new)).header.id =
        DnsPacket.new.header.id)) ∧
    ((buildResponse { DnsPacket.new with questions := [⟨[97], QueryType.a⟩] }
        (fun _ _ => .ok DnsPacket.new)).questions = [⟨[97], QueryType.a⟩]) := by
  constructor
  · exact (handle_query_response_spec DnsPacket.new
      (fun _ _ => .ok DnsPacket.new)).1
  · exact ((handle_query_response_spec
      { DnsPacket.new with questions := [⟨[97], QueryType.a⟩] }
      (fun _ _ => .ok DnsPacket.new)).2.1 ⟨[97], QueryType.a⟩ DnsPacket.new
      (by simp) rfl).1

/-! ## Decoding the pure encodings -/

theorem encU16_bytes_lt (v : Nat) :
    (v >>> 8) % 256 < 256 ∧ v &&& 0xFF < 256 := by
  constructor
  · omega
  · rw [land255_eq]
    omega

theorem read_u16_enc {arr : List Nat} {p v : Nat}
    (h : rangeEq arr p (encU16 v)) (hv : v < 65536) :
    DnsBuf.read_u16 arr p = .ok (v, p + 2) := by
  obtain ⟨hx, hy⟩ := encU16_bytes_lt v
  have := DnsBuf.read_u16_val (x := (v >>> 8) % 256) (y := v &&& 0xFF) h hx hy
  rw [this]
  congr 2
  rw [shiftRight_div, land255_eq]
  norm_num
  omega

theorem read_u32_enc {arr : List Nat} {p v : Nat}
    (h : rangeEq arr p (encU32 v)) (hv : v < 2 ^ 32) :
    DnsBuf.read_u32 arr p = .ok (v, p + 4) := by
  have hb : ∀ x : Nat, x &&& 0xFF < 256 := by
    intro x
    rw [land255_eq]
    omega
  have := @DnsBuf.read_u32_val arr p ((v >>> 24) &&& 0xFF) ((v >>> 16) &&& 0xFF)
    ((v >>> 8) &&& 0xFF) (v &&& 0xFF) h (hb _) (hb _) (hb _) (hb _)
  rw [this]
  congr 2
  simp only [land255_eq, shiftRight_div]
  norm_num
  omega

theorem qtype_fromNum_toNum {q : QueryType} (h : QTypeCanonical q) :
    QueryType.fromNum q.toNum = q := by
  cases q with
  | a => rfl
  | ns => rfl
  | cname => rfl
  | mx => rfl
  | aaaa => rfl
  | unknown n =>
    obtain ⟨h1, h2, h5, h15, h28, -⟩ := h
    unfold QueryType.fromNum QueryType.toNum
    rw [if_neg h1, if_neg h2, if_neg h5, if_neg h15, if_neg h28]

theorem rescode_fromNum_toNum (rc : ResultCode) :
    ResultCode.fromNum rc.toNum = rc := by
  cases rc <;> rfl

theorem QueryType.toNum_lt {q : QueryType} (h : QTypeCanonical q) :
    q.toNum < 65536 := by
  cases q with
  | a => norm_num [QueryType.toNum]
  | ns => norm_num [QueryType.toNum]
  | cname => norm_num [QueryType.toNum]
  | mx => norm_num [QueryType.toNum]
  | aaaa => norm_num [QueryType.toNum]
  | unknown n => exact h.2.2.2.2.2

theorem flagA_bits : ∀ op < 16, ∀ (rd tc aa resp : Bool),
    (decide (((rd.toNat ||| (tc.toNat <<< 1) ||| (aa.toNat <<< 2) |||
      ((op <<< 3) % 256) ||| (resp.toNat <<< 7)) &&& (1 <<< 0)) > 0) = rd) ∧
    (decide (((rd.toNat ||| (tc.toNat <<< 1) ||| (aa.toNat <<< 2) |||
      ((op <<< 3) % 256) ||| (resp.toNat <<< 7)) &&& (1 <<< 1)) > 0) = tc) ∧
    (decide (((rd.toNat ||| (tc.toNat <<< 1) ||| (aa.toNat <<< 2) |||
      ((op <<< 3) % 256) ||| (resp.toNat <<< 7)) &&& (1 <<< 2)) > 0) = aa) ∧
    (((rd.toNat ||| (tc.toNat <<< 1) ||| (aa.toNat <<< 2) |||
      ((op <<< 3) % 256) ||| (resp.toNat <<< 7)) >>> 3) &&& 0x0F = op) ∧
    (decide (((rd.toNat ||| (tc.toNat <<< 1) ||| (aa.toNat <<< 2) |||
      ((op <<< 3) % 256) ||| (resp.toNat <<< 7)) &&& (1 <<< 7)) > 0) = resp) ∧
    (rd.toNat ||| (tc.toNat <<< 1) ||| (aa.toNat <<< 2) |||
      ((op <<< 3) % 256) ||| (resp.toNat <<< 7)) < 256 := by
  decide

theorem flagB_bits : ∀ rcn < 6, ∀ (cd ad z ra : Bool),
    ((rcn ||| (cd.toNat <<< 4) ||| (ad.toNat <<< 5) ||| (z.toNat <<< 6) |||
      (ra.toNat <<< 7)) &&& 0x0F = rcn) ∧
    (decide (((rcn ||| (cd.toNat <<< 4) ||| (ad.toNat <<< 5) |||
      (z.toNat <<< 6) ||| (ra.toNat <<< 7)) &&& (1 <<< 4)) > 0) = cd) ∧
    (decide (((rcn ||| (cd.toNat <<< 4) ||| (ad.toNat <<< 5) |||
      (z.toNat <<< 6) ||| (ra.toNat <<< 7)) &&& (1 <<< 5)) > 0) = ad) ∧
    (decide (((rcn ||| (cd.toNat <<< 4) ||| (ad.toNat <<< 5) |||
      (z.toNat <<< 6) ||| (ra.toNat <<< 7)) &&& (1 <<< 6)) > 0) = z) ∧
    (decide (((rcn ||| (cd.toNat <<< 4) ||| (ad.toNat <<< 5) |||
      (z.toNat <<< 6) ||| (ra.toNat <<< 7)) &&& (1 <<< 7)) > 0) = ra) ∧
    (rcn ||| (cd.toNat <<< 4) ||| (ad.toNat <<< 5) ||| (z.toNat <<< 6) |||
      (ra.toNat <<< 7)) < 256 := by
  decide

theorem rescode_toNum_lt (rc : ResultCode) : rc.toNum < 6 := by
  cases rc <;> norm_num [ResultCode.toNum]

theorem encU16_length (v : Nat) : (encU16 v).length = 2 := rfl

theorem encU32_length (v : Nat) : (encU32 v).length = 4 := rfl
theorem rangeEq_shift {arr : List Nat} {p q : Nat} {bs : List Nat}
    (h : rangeEq arr p bs) (e : q = p) : rangeEq arr q bs := by
  rw [e]
  exact h

theorem header_read_decodes {arr : List Nat} {p : Nat} {h : DnsHeader}
    (hid : h.id < 65536) (hop : h.opcode < 16)
    (hq : h.questions < 65536) (han : h.answers < 65536)
    (hau : h.authoritative_entries < 65536) (hre : h.resource_entries < 65536)
    (hr : rangeEq arr p (encHeader h)) :
    DnsHeader.read arr p = .ok (h, p + 12) := by
  obtain ⟨id, rd, tc, aa, op, resp, rc, cd, ad, z, ra, qs, ans, aus, res⟩ := h
  simp only [DnsHeader.id] at hid
  simp only [DnsHeader.opcode] at hop
  simp only [DnsHeader.questions] at hq
  simp only [DnsHeader.answers] at han
  simp only [DnsHeader.authoritative_entries] at hau
  simp only [DnsHeader.resource_entries] at hre
  set A := DnsHeader.flagByteA ⟨id, rd, tc, aa, op, resp, rc, cd, ad, z, ra, qs, ans, aus, res⟩ with hAdef
  set B := DnsHeader.flagByteB ⟨id, rd, tc, aa, op, resp, rc, cd, ad, z, ra, qs, ans, aus, res⟩ with hBdef
  have hassoc : encHeader ⟨id, rd, tc, aa, op, resp, rc, cd, ad, z, ra, qs, ans, aus, res⟩ =
      encU16 id ++ ([A, B] ++ (encU16 qs ++ (encU16 ans ++ (encU16 aus ++ encU16 res)))) := by
    simp [encHeader, hAdef, hBdef]
  rw [hassoc] at hr
  have hAbits := flagA_bits op hop rd tc aa resp
  have hBbits := flagB_bits rc.toNum (rescode_toNum_lt rc) cd ad z ra
  have hAexpr : A = rd.toNat ||| (tc.toNat <<< 1) ||| (aa.toNat <<< 2) |||
      ((op <<< 3) % 256) ||| (resp.toNat <<< 7) := by
    rw [hAdef]
    rfl
  have hBexpr : B = rc.toNum ||| (cd.toNat <<< 4) ||| (ad.toNat <<< 5) |||
      (z.toNat <<< 6) ||| (ra.toNat <<< 7) := by
    rw [hBdef]
    rfl
  have hAlt : A < 256 := by rw [hAexpr]; exact hAbits.2.2.2.2.2
  have hBlt : B < 256 := by rw [hBexpr]; exact hBbits.2.2.2.2.2
  obtain ⟨hr1, hrX⟩ := rangeEq_append_split hr
  have hrX2 := rangeEq_shift hrX (show p + 2 = p + (encU16 id).length from by
    rw [encU16_length])
  obtain ⟨hrAB, hrY⟩ := rangeEq_append_split hrX2
  have hrY2 := rangeEq_shift hrY (show p + 4 = p + 2 + ([A, B]).length from by
    simp)
  obtain ⟨hrq, hrZ⟩ := rangeEq_append_split hrY2
  have hrZ2 := rangeEq_shift hrZ (show p + 6 = p + 4 + (encU16 qs).length from by
    rw [encU16_length])
  obtain ⟨hran, hrW⟩ := rangeEq_append_split hrZ2
  have hrW2 := rangeEq_shift hrW (show p + 8 = p + 6 + (encU16 ans).length from by
    rw [encU16_length])
  obtain ⟨hrau, hrV⟩ := rangeEq_append_split hrW2
  have hrre := rangeEq_shift hrV (show p + 10 = p + 8 + (encU16 aus).length from by
    rw [encU16_length])
  unfold DnsHeader.read
  rw [read_u16_enc hr1 hid]
  show DnsBuf.read_u16 arr (p + 2) >>= _ = _
  rw [DnsBuf.read_u16_val hrAB hAlt hBlt]
  show DnsBuf.read_u16 arr (p + 2 + 2) >>= _ = _
  rw [read_u16_enc (rangeEq_shift hrq (by omega)) hq]
  show DnsBuf.read_u16 arr (p + 2 + 2 + 2) >>= _ = _
  rw [read_u16_enc (rangeEq_shift hran (by omega)) han]
  show DnsBuf.read_u16 arr (p + 2 + 2 + 2 + 2) >>= _ = _
  rw [read_u16_enc (rangeEq_shift hrau (by omega)) hau]
  show DnsBuf.read_u16 arr (p + 2 + 2 + 2 + 2 + 2) >>= _ = _
  rw [read_u16_enc (rangeEq_shift hrre (by omega)) hre]
  show Except.ok _ = _
  have ha : (A * 256 + B) >>> 8 % 256 = A := by
    rw [shiftRight_div]
    norm_num
    omega
  have hb : (A * 256 + B) &&& 0xFF = B := by
    rw [land255_eq]
    omega
  rw [ha, hb]
  rw [hAexpr, hBexpr]
  obtain ⟨e1, e2, e3, e4, e5, -⟩ := hAbits
  obtain ⟨f1, f2, f3, f4, f5, -⟩ := hBbits
  rw [e1, e2, e3, e4, e5, f1, f2, f3, f4, f5, rescode_fromNum_toNum]

theorem question_read_decodes {arr : List Nat} {p : Nat} {q : DnsQuestion}
    (harr : arr.length = MAX_BUFFER_SIZE) (hwf : QuestionWF q)
    (hr : rangeEq arr p (encQuestion q)) :
    DnsQuestion.read arr p = .ok (normQuestion q, p + (encQuestion q).length) := by
  obtain ⟨⟨hascii, hlab, hne⟩, hcanon⟩ := hwf
  have hassoc : encQuestion q =
      encQname q.name ++ (encU16 q.qtype.toNum ++ encU16 1) := by
    simp [encQuestion]
  rw [hassoc] at hr
  obtain ⟨hrn, hrX⟩ := rangeEq_append_split hr
  obtain ⟨hrt, hrc⟩ := rangeEq_append_split hrX
  unfold DnsQuestion.read
  rw [read_qname_decodes harr hlab hne hrn]
  show DnsBuf.read_u16 arr (p + (encQname q.name).length) >>= _ = _
  rw [read_u16_enc hrt (QueryType.toNum_lt hcanon)]
  show DnsBuf.read_u16 arr (p + (encQname q.name).length + 2) >>= _ = _
  rw [read_u16_enc (rangeEq_shift hrc (by rw [encU16_length])) (by omega)]
  show Except.ok _ = _
  rw [qtype_fromNum_toNum hcanon]
  simp only [List.nil_append, Except.ok.injEq, Prod.mk.injEq, normQuestion]
  constructor
  · trivial
  · rw [hassoc]
    simp [encU16]
    omega

theorem record_read_decodes {arr : List Nat} {p : Nat} {r : DnsRecord}
    (harr : arr.length = MAX_BUFFER_SIZE) (hwf : RecordWF r)
    (hr : rangeEq arr p (encRecord r)) :
    DnsRecord.read arr p = .ok (normRecord r, p + (encRecord r).length) := by
  cases r with
  | a domain addr ttl =>
    obtain ⟨⟨hascii, hlab, hne⟩, hip, httl⟩ := hwf
    obtain ⟨o0, o1, o2, o3⟩ := addr
    obtain ⟨ho0a, ho1a, ho2a, ho3a⟩ := hip
    have ho0 : o0 < 256 := ho0a
    have ho1 : o1 < 256 := ho1a
    have ho2 : o2 < 256 := ho2a
    have ho3 : o3 < 256 := ho3a
    have hassoc : encRecord (.a domain ⟨o0, o1, o2, o3⟩ ttl) =
        encQname domain ++ (encU16 1 ++ (encU16 1 ++ (encU32 ttl ++
          (encU16 4 ++ [o0, o1, o2, o3])))) := by
      simp [encRecord]
    rw [hassoc] at hr
    obtain ⟨hrn, hrX⟩ := rangeEq_append_split hr
    obtain ⟨hrt, hrY⟩ := rangeEq_append_split hrX
    obtain ⟨hrc, hrZ⟩ := rangeEq_append_split hrY
    obtain ⟨hrttl, hrW⟩ := rangeEq_append_split hrZ
    obtain ⟨hrdl, hrdata⟩ := rangeEq_append_split hrW
    simp only [encU16_length, encU32_length] at hrc hrttl hrdl hrdata
    unfold DnsRecord.read
    rw [read_qname_decodes harr hlab hne hrn]
    show DnsBuf.read_u16 arr (p + (encQname domain).length) >>= _ = _
    rw [read_u16_enc hrt (by omega)]
    show DnsBuf.read_u16 arr (p + (encQname domain).length + 2) >>= _ = _
    rw [read_u16_enc hrc (by omega)]
    show DnsBuf.read_u32 arr (p + (encQname domain).length + 2 + 2) >>= _ = _
    rw [read_u32_enc hrttl httl]
    show DnsBuf.read_u16 arr (p + (encQname domain).length + 2 + 2 + 4) >>= _ = _
    rw [read_u16_enc hrdl (by omega)]
    show DnsBuf.read_u32 arr (p + (encQname domain).length + 2 + 2 + 4 + 2) >>= _ = _
    rw [DnsBuf.read_u32_val hrdata ho0 ho1 ho2 ho3]
    show Except.ok _ = _
    simp only [List.nil_append, Except.ok.injEq, Prod.mk.injEq, normRecord]
    constructor
    · have e0 : (((o0 * 256 + o1) * 256 + o2) * 256 + o3) >>> 24 &&& 0xFF = o0 := by
        rw [shiftRight_div, land255_eq]
        norm_num
        omega
      have e1 : (((o0 * 256 + o1) * 256 + o2) * 256 + o3) >>> 16 &&& 0xFF = o1 := by
        rw [shiftRight_div, land255_eq]
        norm_num
        omega
      have e2 : (((o0 * 256 + o1) * 256 + o2) * 256 + o3) >>> 8 &&& 0xFF = o2 := by
        rw [shiftRight_div, land255_eq]
        norm_num
        omega
      have e3 : (((o0 * 256 + o1) * 256 + o2) * 256 + o3) &&& 0xFF = o3 := by
        rw [land255_eq]
        omega
      rw [e0, e1, e2, e3]
    · rw [hassoc]
      simp [encU16, encU32]
      omega
  | ns domain host ttl =>
    obtain ⟨⟨hascii, hlab, hne⟩, ⟨hascii2, hlab2, hne2⟩, httl⟩ := hwf
    have hassoc : encRecord (.ns domain host ttl) =
        encQname domain ++ (encU16 2 ++ (encU16 1 ++ (encU32 ttl ++
          (encU16 ((encQname host).length % 65536) ++ encQname host)))) := by
      simp [encRecord]
    rw [hassoc] at hr
    obtain ⟨hrn, hrX⟩ := rangeEq_append_split hr
    obtain ⟨hrt, hrY⟩ := rangeEq_append_split hrX
    obtain ⟨hrc, hrZ⟩ := rangeEq_append_split hrY
    obtain ⟨hrttl, hrW⟩ := rangeEq_append_split hrZ
    obtain ⟨hrdl, hrhost⟩ := rangeEq_append_split hrW
    simp only [encU16_length, encU32_length] at hrc hrttl hrdl hrhost
    unfold DnsRecord.read
    rw [read_qname_decodes harr hlab hne hrn]
    show DnsBuf.read_u16 arr (p + (encQname domain).length) >>= _ = _
    rw [read_u16_enc hrt (by omega)]
    show DnsBuf.read_u16 arr (p + (encQname domain).length + 2) >>= _ = _
    rw [read_u16_enc hrc (by omega)]
    show DnsBuf.read_u32 arr (p + (encQname domain).length + 2 + 2) >>= _ = _
    rw [read_u32_enc hrttl httl]
    show DnsBuf.read_u16 arr (p + (encQname domain).length + 2 + 2 + 4) >>= _ = _
    rw [read_u16_enc hrdl (by omega)]
    show DnsBuf.read_qname arr (p + (encQname domain).length + 2 + 2 + 4 + 2) [] >>= _ = _
    rw [read_qname_decodes harr hlab2 hne2 hrhost]
    show Except.ok _ = _
    simp only [List.nil_append, Except.ok.injEq, Prod.mk.injEq, normRecord]
    constructor
    · trivial
    · rw [hassoc]
      simp [encU16, encU32]
      omega
  | cname domain host ttl =>
    obtain ⟨⟨hascii, hlab, hne⟩, ⟨hascii2, hlab2, hne2⟩, httl⟩ := hwf
    have hassoc : encRecord (.cname domain host ttl) =
        encQname domain ++ (encU16 5 ++ (encU16 1 ++ (encU32 ttl ++
          (encU16 ((encQname host).length % 65536) ++ encQname host)))) := by
      simp [encRecord]
    rw [hassoc] at hr
    obtain ⟨hrn, hrX⟩ := rangeEq_append_split hr
    obtain ⟨hrt, hrY⟩ := rangeEq_append_split hrX
    obtain ⟨hrc, hrZ⟩ := rangeEq_append_split hrY
    obtain ⟨hrttl, hrW⟩ := rangeEq_append_split hrZ
    obtain ⟨hrdl, hrhost⟩ := rangeEq_append_split hrW
    simp only [encU16_length, encU32_length] at hrc hrttl hrdl hrhost
    unfold DnsRecord.read
    rw [read_qname_decodes harr hlab hne hrn]
    show DnsBuf.read_u16 arr (p + (encQname domain).length) >>= _ = _
    rw [read_u16_enc hrt (by omega)]
    show DnsBuf.read_u16 arr (p + (encQname domain).length + 2) >>= _ = _
    rw [read_u16_enc hrc (by omega)]
    show DnsBuf.read_u32 arr (p + (encQname domain).length + 2 + 2) >>= _ = _
    rw [read_u32_enc hrttl httl]
    show DnsBuf.read_u16 arr (p + (encQname domain).length + 2 + 2 + 4) >>= _ = _
    rw [read_u16_enc hrdl (by omega)]
    show DnsBuf.read_qname arr (p + (encQname domain).length + 2 + 2 + 4 + 2) [] >>= _ = _
    rw [read_qname_decodes harr hlab2 hne2 hrhost]
    show Except.ok _ = _
    simp only [List.nil_append, Except.ok.injEq, Prod.mk.injEq, normRecord]
    constructor
    · trivial
    · rw [hassoc]
      simp [encU16, encU32]
      omega
  | mx domain priority host ttl =>
    obtain ⟨⟨hascii, hlab, hne⟩, hpr, ⟨hascii2, hlab2, hne2⟩, httl⟩ := hwf
    have hassoc : encRecord (.mx domain priority host ttl) =
        encQname domain ++ (encU16 15 ++ (encU16 1 ++ (encU32 ttl ++
          (encU16 ((2 + (encQname host).length) % 65536) ++
            (encU16 priority ++ encQname host))))) := by
      simp [encRecord]
    rw [hassoc] at hr
    obtain ⟨hrn, hrX⟩ := rangeEq_append_split hr
    obtain ⟨hrt, hrY⟩ := rangeEq_append_split hrX
    obtain ⟨hrc, hrZ⟩ := rangeEq_append_split hrY
    obtain ⟨hrttl, hrW⟩ := rangeEq_append_split hrZ
    obtain ⟨hrdl, hrV⟩ := rangeEq_append_split hrW
    obtain ⟨hrpr, hrhost⟩ := rangeEq_append_split hrV
    simp only [encU16_length, encU32_length] at hrc hrttl hrdl hrpr hrhost
    unfold DnsRecord.read
    rw [read_qname_decodes harr hlab hne hrn]
    show DnsBuf.read_u16 arr (p + (encQname domain).length) >>= _ = _
    rw [read_u16_enc hrt (by omega)]
    show DnsBuf.read_u16 arr (p + (encQname domain).length + 2) >>= _ = _
    rw [read_u16_enc hrc (by omega)]
    show DnsBuf.read_u32 arr (p + (encQname domain).length + 2 + 2) >>= _ = _
    rw [read_u32_enc hrttl httl]
    show DnsBuf.read_u16 arr (p + (encQname domain).length + 2 + 2 + 4) >>= _ = _
    rw [read_u16_enc hrdl (by omega)]
    show DnsBuf.read_u16 arr (p + (encQname domain).length + 2 + 2 + 4 + 2) >>= _ = _
    rw [read_u16_enc hrpr hpr]
    show DnsBuf.read_qname arr (p + (encQname domain).length + 2 + 2 + 4 + 2 + 2) [] >>= _ = _
    rw [read_qname_decodes harr hlab2 hne2 hrhost]
    show Except.ok _ = _
    simp only [List.nil_append, Except.ok.injEq, Prod.mk.injEq, normRecord]
    constructor
    · trivial
    · rw [hassoc]
      simp [encU16, encU32]
      omega
  | aaaa domain addr ttl =>
    obtain ⟨⟨hascii, hlab, hne⟩, hip, httl⟩ := hwf
    obtain ⟨s0, s1, s2, s3, s4, s5, s6, s7⟩ := addr
    obtain ⟨hs0a, hs1a, hs2a, hs3a, hs4a, hs5a, hs6a, hs7a⟩ := hip
    have hs0 : s0 < 65536 := hs0a
    have hs1 : s1 < 65536 := hs1a
    have hs2 : s2 < 65536 := hs2a
    have hs3 : s3 < 65536 := hs3a
    have hs4 : s4 < 65536 := hs4a
    have hs5 : s5 < 65536 := hs5a
    have hs6 : s6 < 65536 := hs6a
    have hs7 : s7 < 65536 := hs7a
    have hassoc : encRecord (.aaaa domain ⟨s0, s1, s2, s3, s4, s5, s6, s7⟩ ttl) =
        encQname domain ++ (encU16 28 ++ (encU16 1 ++ (encU32 ttl ++
          (encU16 16 ++ ((encU16 s0 ++ encU16 s1) ++ ((encU16 s2 ++ encU16 s3) ++
            ((encU16 s4 ++ encU16 s5) ++ (encU16 s6 ++ encU16 s7)))))))) := by
      simp [encRecord]
    rw [hassoc] at hr
    obtain ⟨hrn, hrX⟩ := rangeEq_append_split hr
    obtain ⟨hrt, hrY⟩ := rangeEq_append_split hrX
    obtain ⟨hrc, hrZ⟩ := rangeEq_append_split hrY
    obtain ⟨hrttl, hrW⟩ := rangeEq_append_split hrZ
    obtain ⟨hrdl, hrV⟩ := rangeEq_append_split hrW
    obtain ⟨hrp01, hrV2⟩ := rangeEq_append_split hrV
    obtain ⟨hrp23, hrV3⟩ := rangeEq_append_split hrV2
    obtain ⟨hrp45, hrp67⟩ := rangeEq_append_split hrV3
    simp only [encU16_length, encU32_length, List.length_append]
      at hrc hrttl hrdl hrp01 hrp23 hrp45 hrp67
    have hb := encU16_bytes_lt
    unfold DnsRecord.read
    rw [read_qname_decodes harr hlab hne hrn]
    show DnsBuf.read_u16 arr (p + (encQname domain).length) >>= _ = _
    rw [read_u16_enc hrt (by omega)]
    show DnsBuf.read_u16 arr (p + (encQname domain).length + 2) >>= _ = _
    rw [read_u16_enc hrc (by omega)]
    show DnsBuf.read_u32 arr (p + (encQname domain).length + 2 + 2) >>= _ = _
    rw [read_u32_enc hrttl httl]
    show DnsBuf.read_u16 arr (p + (encQname domain).length + 2 + 2 + 4) >>= _ = _
    rw [read_u16_enc hrdl (by omega)]
    show DnsBuf.read_u32 arr (p + (encQname domain).length + 2 + 2 + 4 + 2) >>= _ = _
    rw [DnsBuf.read_u32_val (by simpa [encU16] using hrp01)
      (hb s0).1 (hb s0).2 (hb s1).1 (hb s1).2]
    show DnsBuf.read_u32 arr (p + (encQname domain).length + 2 + 2 + 4 + 2 + 4) >>= _ = _
    rw [DnsBuf.read_u32_val (by simpa [encU16] using hrp23)
      (hb s2).1 (hb s2).2 (hb s3).1 (hb s3).2]
    show DnsBuf.read_u32 arr (p + (encQname domain).length + 2 + 2 + 4 + 2 + 4 + 4) >>= _ = _
    rw [DnsBuf.read_u32_val (by simpa [encU16] using hrp45)
      (hb s4).1 (hb s4).2 (hb s5).1 (hb s5).2]
    show DnsBuf.read_u32 arr (p + (encQname domain).length + 2 + 2 + 4 + 2 + 4 + 4 + 4) >>= _ = _
    rw [DnsBuf.read_u32_val (by simpa [encU16] using hrp67)
      (hb s6).1 (hb s6).2 (hb s7).1 (hb s7).2]
    show Except.ok _ = _
    simp only [List.nil_append, Except.ok.injEq, Prod.mk.injEq, normRecord]
    have uhi : forall x y : Nat, x < 65536 -> y < 65536 ->
        ((((x >>> 8 % 256) * 256 + (x &&& 0xFF)) * 256 + (y >>> 8 % 256)) * 256 +
          (y &&& 0xFF)) >>> 16 &&& 0xFFFF = x := by
      intro x y hx hy
      simp only [shiftRight_div, land255_eq, land65535_eq]
      norm_num
      omega
    have ulo : forall x y : Nat, x < 65536 -> y < 65536 ->
        ((((x >>> 8 % 256) * 256 + (x &&& 0xFF)) * 256 + (y >>> 8 % 256)) * 256 +
          (y &&& 0xFF)) &&& 0xFFFF = y := by
      intro x y hx hy
      simp only [shiftRight_div, land255_eq, land65535_eq]
      norm_num
      omega
    constructor
    · rw [uhi s0 s1 hs0 hs1, ulo s0 s1 hs0 hs1, uhi s2 s3 hs2 hs3,
        ulo s2 s3 hs2 hs3, uhi s4 s5 hs4 hs5, ulo s4 s5 hs4 hs5,
        uhi s6 s7 hs6 hs7, ulo s6 s7 hs6 hs7]
    · rw [hassoc]
      simp [encU16, encU32]
      omega
  | unknown domain qtype data_len ttl => exact absurd hwf (by simp [RecordWF])

theorem encQname_length_pos (s : List Nat) : 1 ≤ (encQname s).length := by
  rw [encQname_length]
  omega

theorem encQuestion_length_pos (q : DnsQuestion) : 1 ≤ (encQuestion q).length := by
  have := encQname_length_pos q.name
  simp only [encQuestion, List.length_append]
  omega

theorem encRecord_length_pos {r : DnsRecord} (h : RecordWF r) :
    1 ≤ (encRecord r).length := by
  cases r with
  | a domain addr ttl =>
    have := encQname_length_pos domain
    simp only [encRecord, List.length_append]
    omega
  | ns domain host ttl =>
    have := encQname_length_pos domain
    simp only [encRecord, List.length_append]
    omega
  | cname domain host ttl =>
    have := encQname_length_pos domain
    simp only [encRecord, List.length_append]
    omega
  | mx domain priority host ttl =>
    have := encQname_length_pos domain
    simp only [encRecord, List.length_append]
    omega
  | aaaa domain addr ttl =>
    have := encQname_length_pos domain
    simp only [encRecord, List.length_append]
    omega
  | unknown domain qtype data_len ttl => exact absurd h (by simp [RecordWF])

theorem flatMap_length_ge {α : Type} (f : α → List Nat) (l : List α)
    (h : ∀ x ∈ l, 1 ≤ (f x).length) : l.length ≤ (l.flatMap f).length := by
  induction l with
  | nil => simp
  | cons x rest ih =>
    simp only [List.flatMap_cons, List.length_append, List.length_cons]
    have h1 := h x (by simp)
    have h2 := ih (fun y hy => h y (by simp [hy]))
    omega

theorem readQuestions_decodes {arr : List Nat}
    (harr : arr.length = MAX_BUFFER_SIZE) :
    ∀ (qs : List DnsQuestion) (p : Nat), (∀ q ∈ qs, QuestionWF q) →
    rangeEq arr p (qs.flatMap encQuestion) →
    readQuestions arr p qs.length =
      .ok (qs.map normQuestion, p + (qs.flatMap encQuestion).length) := by
  intro qs
  induction qs with
  | nil =>
    intro p hwf hr
    simp [readQuestions]
  | cons q rest ih =>
    intro p hwf hr
    rw [show (q :: rest).flatMap encQuestion =
      encQuestion q ++ rest.flatMap encQuestion from by simp] at hr
    obtain ⟨hr1, hr2⟩ := rangeEq_append_split hr
    show readQuestions arr p (rest.length + 1) = _
    unfold readQuestions
    rw [question_read_decodes harr (hwf q (by simp)) hr1]
    show readQuestions arr (p + (encQuestion q).length) rest.length >>= _ = _
    rw [ih (p + (encQuestion q).length) (fun x hx => hwf x (by simp [hx])) hr2]
    show Except.ok _ = _
    simp only [Except.ok.injEq, Prod.mk.injEq, List.map_cons]
    constructor
    · trivial
    · simp
      omega

theorem readRecords_decodes {arr : List Nat}
    (harr : arr.length = MAX_BUFFER_SIZE) :
    ∀ (rs : List DnsRecord) (p : Nat), (∀ r ∈ rs, RecordWF r) →
    rangeEq arr p (rs.flatMap encRecord) →
    readRecords arr p rs.length =
      .ok (rs.map normRecord, p + (rs.flatMap encRecord).length) := by
  intro rs
  induction rs with
  | nil =>
    intro p hwf hr
    simp [readRecords]
  | cons r rest ih =>
    intro p hwf hr
    rw [show (r :: rest).flatMap encRecord =
      encRecord r ++ rest.flatMap encRecord from by simp] at hr
    obtain ⟨hr1, hr2⟩ := rangeEq_append_split hr
    show readRecords arr p (rest.length + 1) = _
    unfold readRecords
    rw [record_read_decodes harr (hwf r (by simp)) hr1]
    show readRecords arr (p + (encRecord r).length) rest.length >>= _ = _
    rw [ih (p + (encRecord r).length) (fun x hx => hwf x (by simp [hx])) hr2]
    show Except.ok _ = _
    simp only [Except.ok.injEq, Prod.mk.injEq, List.map_cons]
    constructor
    · trivial
    · simp
      omega

/-- **C1** counterexample: a packet with `opcode = 16` (a legal `u8`), no
records at all and an encoding of 12 bytes decodes to a *different* packet —
`opcode` comes back 0 and `response` comes back `true`, because the 4-bit
opcode slot of the packed flags byte overflows into the QR bit — so the
claim fails as stated even though every record is of a listed type, every
name is ASCII with short labels, and the encoding fits in 512 bytes. -/
theorem packet_roundtrip_counterexample :
    DnsPacket.write
      { DnsPacket.new with header := { DnsHeader.new with opcode := 16 } }
      freshBuffer =
      .ok { buffer := [0, 0, 128, 0, 0, 0, 0, 0, 0, 0, 0, 0] ++
              List.replicate 500 0, position := 12 } ∧
    DnsPacket.from_buffer
      ([0, 0, 128, 0, 0, 0, 0, 0, 0, 0, 0, 0] ++ List.replicate 500 0) 0 =
      .ok ({ DnsPacket.new with
        header := { DnsHeader.new with opcode := 0, response := true } }, 12) ∧
    ({ DnsPacket.new with
        header := { DnsHeader.new with opcode := 0, response := true } } :
      DnsPacket) ≠
      normalizePacket
        { DnsPacket.new with header := { DnsHeader.new with opcode := 16 } } := by
  refine ⟨?_, ?_, ?_⟩
  · set_option maxRecDepth 8000 in decide
  · set_option maxRecDepth 8000 in decide
  · set_option maxRecDepth 8000 in decide

theorem encHeader_length (h : DnsHeader) : (encHeader h).length = 12 := by
  simp [encHeader, encU16]

/-- **C1** (amended: additionally `opcode < 16`, question qtypes written
canonically, and every name nonempty with no empty label): for every packet
whose records are only of types A, NS, CNAME, MX, AAAA, whose names are
ASCII with labels of 1–63 octets, whose machine-integer fields are in range,
and whose encoding fits in 512 bytes (witnessed by `write` succeeding on a
fresh buffer): decoding the written bytes from position 0 yields the packet
back, up to the header counters being recomputed from the section lengths
and every name being lowercased (class is not stored in the model, so its
normalization to 1 is invisible). -/
theorem packet_roundtrip (m : DnsPacket) (hwf : PacketWF m)
    (buf : BytePacketBuffer) (hw : m.write freshBuffer = .ok buf) :
    DnsPacket.from_buffer buf.buffer 0 =
      .ok (normalizePacket m, (encPacket m).length) := by
  obtain ⟨⟨hid, hop⟩, hqwf, hanswf, hauthwf, hreswf⟩ := hwf
  have w := packet_write_writes hw freshBuffer_length
    (by norm_num [freshBuffer])
  have harr : buf.buffer.length = MAX_BUFFER_SIZE := w.1.trans freshBuffer_length
  have hr : rangeEq buf.buffer 0 (encPacket m) := writes_rangeEq w
  have hassoc : encPacket m = encHeader m.recountedHeader ++
      ((m.questions.flatMap encQuestion) ++ ((m.answers.flatMap encRecord) ++
      ((m.authorities.flatMap encRecord) ++ (m.resources.flatMap encRecord)))) := by
    simp [encPacket]
  rw [hassoc] at hr
  obtain ⟨hrh, hrQ⟩ := rangeEq_append_split hr
  rw [encHeader_length] at hrQ
  obtain ⟨hrq, hrA⟩ := rangeEq_append_split hrQ
  obtain ⟨hra, hrB⟩ := rangeEq_append_split hrA
  obtain ⟨hrauth, hrres⟩ := rangeEq_append_split hrB
  have hqlen : m.questions.length < 65536 := by
    have h1 := flatMap_length_ge encQuestion m.questions
      (fun q _ => encQuestion_length_pos q)
    have h2 := hrq.1
    have h3 : MAX_BUFFER_SIZE = 512 := rfl
    omega
  have hanslen : m.answers.length < 65536 := by
    have h1 := flatMap_length_ge encRecord m.answers
      (fun r hrr => encRecord_length_pos (hanswf r hrr))
    have h2 := hra.1
    have h3 : MAX_BUFFER_SIZE = 512 := rfl
    omega
  have hauthlen : m.authorities.length < 65536 := by
    have h1 := flatMap_length_ge encRecord m.authorities
      (fun r hrr => encRecord_length_pos (hauthwf r hrr))
    have h2 := hrauth.1
    have h3 : MAX_BUFFER_SIZE = 512 := rfl
    omega
  have hreslen : m.resources.length < 65536 := by
    have h1 := flatMap_length_ge encRecord m.resources
      (fun r hrr => encRecord_length_pos (hreswf r hrr))
    have h2 := hrres.1
    have h3 : MAX_BUFFER_SIZE = 512 := rfl
    omega
  have hmodq : m.recountedHeader.questions = m.questions.length := by
    show m.questions.length % 65536 = m.questions.length
    omega
  have hmoda : m.recountedHeader.answers = m.answers.length := by
    show m.answers.length % 65536 = m.answers.length
    omega
  have hmodau : m.recountedHeader.authoritative_entries = m.authorities.length := by
    show m.authorities.length % 65536 = m.authorities.length
    omega
  have hmodre : m.recountedHeader.resource_entries = m.resources.length := by
    show m.resources.length % 65536 = m.resources.length
    omega
  unfold DnsPacket.from_buffer
  rw [header_read_decodes (h := m.recountedHeader) hid hop
    (by rw [hmodq]; omega) (by rw [hmoda]; omega)
    (by rw [hmodau]; omega) (by rw [hmodre]; omega) hrh]
  show readQuestions buf.buffer (0 + 12) m.recountedHeader.questions >>= _ = _
  rw [hmodq]
  rw [readQuestions_decodes harr m.questions (0 + 12) hqwf
    (rangeEq_shift hrq (by omega))]
  show readRecords buf.buffer (0 + 12 + (m.questions.flatMap encQuestion).length)
    m.recountedHeader.answers >>= _ = _
  rw [hmoda]
  rw [readRecords_decodes harr m.answers _ hanswf (rangeEq_shift hra (by omega))]
  show readRecords buf.buffer
    (0 + 12 + (m.questions.flatMap encQuestion).length +
      (m.answers.flatMap encRecord).length)
    m.recountedHeader.authoritative_entries >>= _ = _
  rw [hmodau]
  rw [readRecords_decodes harr m.authorities _ hauthwf
    (rangeEq_shift hrauth (by omega))]
  show readRecords buf.buffer
    (0 + 12 + (m.questions.flatMap encQuestion).length +
      (m.answers.flatMap encRecord).length +
      (m.authorities.flatMap encRecord).length)
    m.recountedHeader.resource_entries >>= _ = _
  rw [hmodre]
  rw [readRecords_decodes harr m.resources _ hreswf
    (rangeEq_shift hrres (by omega))]
  show Except.ok _ = _
  simp only [Except.ok.injEq, Prod.mk.injEq]
  constructor
  · rfl
  · rw [hassoc]
    simp only [List.length_append, encHeader_length]
    omega

set_option maxRecDepth 8000 in
/-- Witness for C1 at a concrete packet: one question `a`/A and one answer
`b.c` → 1.2.3.4; the hypotheses hold and the round trip applies. -/
theorem packet_roundtrip_witness :
    PacketWF
      { DnsPacket.new with
        questions := [⟨[97], QueryType.a⟩],
        answers := [DnsRecord.a [98, 46, 99] ⟨1, 2, 3, 4⟩ 60] } ∧
    DnsPacket.write
      { DnsPacket.new with
        questions := [⟨[97], QueryType.a⟩],
        answers := [DnsRecord.a [98, 46, 99] ⟨1, 2, 3, 4⟩ 60] }
      freshBuffer =
      .ok { buffer :=
              [0, 0, 0, 0, 0, 1, 0, 1, 0, 0, 0, 0, 1, 97, 0, 0, 1, 0, 1, 1,
               98, 1, 99, 0, 0, 1, 0, 1, 0, 0, 0, 60, 0, 4, 1, 2, 3, 4] ++
              List.replicate 474 0,
            position := 38 } ∧
    DnsPacket.from_buffer
      ([0, 0, 0, 0, 0, 1, 0, 1, 0, 0, 0, 0, 1, 97, 0, 0, 1, 0, 1, 1,
        98, 1, 99, 0, 0, 1, 0, 1, 0, 0, 0, 60, 0, 4, 1, 2, 3, 4] ++
        List.replicate 474 0) 0 =
      .ok (normalizePacket
        { DnsPacket.new with
          questions := [⟨[97], QueryType.a⟩],
          answers := [DnsRecord.a [98, 46, 99] ⟨1, 2, 3, 4⟩ 60] },
        (encPacket
          { DnsPacket.new with
            questions := [⟨[97], QueryType.a⟩],
            answers := [DnsRecord.a [98, 46, 99] ⟨1, 2, 3, 4⟩ 60] }).length) := by
  refine ⟨by decide, by decide, ?_⟩
  exact packet_roundtrip
    { DnsPacket.new with
      questions := [⟨[97], QueryType.a⟩],
      answers := [DnsRecord.a [98, 46, 99] ⟨1, 2, 3, 4⟩ 60] }
    (by decide)
    { buffer :=
        [0, 0, 0, 0, 0, 1, 0, 1, 0, 0, 0, 0, 1, 97, 0, 0, 1, 0, 1, 1,
         98, 1, 99, 0, 0, 1, 0, 1, 0, 0, 0, 60, 0, 4, 1, 2, 3, 4] ++
        List.replicate 474 0,
      position := 38 }
    (by decide)

/-! ## Decode-path error classification (C4) -/

theorem decodeResOk_bind {α β : Type} {e : Except BytePacketBufferError α}
    {f : α → Except BytePacketBufferError β} (he : DecodeResOk e)
    (hf : ∀ a, DecodeResOk (f a)) : DecodeResOk (e >>= f) := by
  rcases he with ⟨v, hv⟩ | hv | hv
  · rw [hv]
    exact hf v
  · rw [hv]
    right
    left
    rfl
  · rw [hv]
    right
    right
    rfl

theorem decodeResOk_ok {α : Type} (v : α) :
    DecodeResOk (.ok v : Except BytePacketBufferError α) := Or.inl ⟨v, rfl⟩

theorem get_decodeResOk (arr : List Nat) (p : Nat) :
    DecodeResOk (DnsBuf.get arr p) := by
  unfold DnsBuf.get
  split
  · right
    left
    rfl
  · exact decodeResOk_ok _

theorem get_range_decodeResOk (arr : List Nat) (s l : Nat) :
    DecodeResOk (DnsBuf.get_range arr s l) := by
  unfold DnsBuf.get_range
  split
  · right
    left
    rfl
  · exact decodeResOk_ok _

theorem read_decodeResOk (arr : List Nat) (p : Nat) :
    DecodeResOk (DnsBuf.read arr p) := by
  unfold DnsBuf.read
  split
  · right
    left
    rfl
  · exact decodeResOk_ok _

theorem read_u16_decodeResOk (arr : List Nat) (p : Nat) :
    DecodeResOk (DnsBuf.read_u16 arr p) := by
  unfold DnsBuf.read_u16
  exact decodeResOk_bind (read_decodeResOk arr p) fun a =>
    decodeResOk_bind (read_decodeResOk arr a.2) fun b => decodeResOk_ok _

theorem read_u32_decodeResOk (arr : List Nat) (p : Nat) :
    DecodeResOk (DnsBuf.read_u32 arr p) := by
  unfold DnsBuf.read_u32
  exact decodeResOk_bind (read_decodeResOk arr p) fun a =>
    decodeResOk_bind (read_decodeResOk arr a.2) fun b =>
      decodeResOk_bind (read_decodeResOk arr b.2) fun c =>
        decodeResOk_bind (read_decodeResOk arr c.2) fun d => decodeResOk_ok _

theorem get_error_eq {arr : List Nat} {p : Nat} {e : BytePacketBufferError}
    (h : DnsBuf.get arr p = .error e) : e = .endOfBuffer := by
  unfold DnsBuf.get at h
  split at h
  · cases h
    rfl
  · cases h

theorem get_range_error_eq {arr : List Nat} {s l : Nat}
    {e : BytePacketBufferError}
    (h : DnsBuf.get_range arr s l = .error e) : e = .endOfBuffer := by
  unfold DnsBuf.get_range at h
  split at h
  · cases h
    rfl
  · cases h

theorem readQnameLoop_decodeResOk (arr : List Nat) :
    ∀ (selfPos position : Nat) (jumped : Bool) (jumpPerformed : Nat)
      (out delim : List Nat),
    DecodeResOk (DnsBuf.readQnameLoop arr selfPos position jumped
      jumpPerformed out delim) := by
  intro selfPos position jumped jumpPerformed out delim
  induction selfPos, position, jumped, jumpPerformed, out, delim
    using DnsBuf.readQnameLoop.induct arr with
  | case1 sp pos j jp out delim hjp =>
    rw [DnsBuf.readQnameLoop.eq_def, if_pos hjp]
    right
    right
    rfl
  | case2 sp pos j jp out delim hjp e hget =>
    rw [DnsBuf.readQnameLoop.eq_def, if_neg hjp, hget]
    rw [get_error_eq hget]
    right
    left
    rfl
  | case3 sp pos j jp out delim hjp len hget hptr e hb2 =>
    rw [DnsBuf.readQnameLoop.eq_def, if_neg hjp, hget]
    simp only [hptr, if_pos rfl, hb2]
    rw [get_error_eq hb2]
    right
    left
    rfl
  | case4 sp pos j jp out delim hjp len hget hptr selfPos' b2 hb2 ih =>
    rw [DnsBuf.readQnameLoop.eq_def, if_neg hjp, hget]
    simp only [hptr, if_pos rfl, hb2]
    exact ih
  | case5 sp pos j jp out delim hjp hget hptr =>
    rw [DnsBuf.readQnameLoop.eq_def, if_neg hjp, hget]
    simp only [hptr, if_neg hptr, if_pos rfl]
    exact decodeResOk_ok _
  | case6 sp pos j jp out delim hjp len hget hptr hlen e hrange =>
    rw [DnsBuf.readQnameLoop.eq_def, if_neg hjp, hget]
    simp only [hptr, if_neg hptr, hlen, if_neg hlen, hrange]
    rw [get_range_error_eq hrange]
    right
    left
    rfl
  | case7 sp pos j jp out delim hjp len hget hptr hlen bytes hrange ih =>
    rw [DnsBuf.readQnameLoop.eq_def, if_neg hjp, hget]
    simp only [hptr, if_neg hptr, hlen, if_neg hlen, hrange]
    exact ih

theorem read_qname_decodeResOk (arr : List Nat) (sp : Nat) (out : List Nat) :
    DecodeResOk (DnsBuf.read_qname arr sp out) :=
  readQnameLoop_decodeResOk arr sp sp false 0 out []

theorem question_read_decodeResOk (arr : List Nat) (p : Nat) :
    DecodeResOk (DnsQuestion.read arr p) := by
  unfold DnsQuestion.read
  apply decodeResOk_bind (read_qname_decodeResOk arr p [])
  rintro ⟨name, p1⟩
  apply decodeResOk_bind (read_u16_decodeResOk arr p1)
  rintro ⟨t, p2⟩
  apply decodeResOk_bind (read_u16_decodeResOk arr p2)
  rintro ⟨c, p3⟩
  exact decodeResOk_ok _

theorem record_read_decodeResOk (arr : List Nat) (p : Nat) :
    DecodeResOk (DnsRecord.read arr p) := by
  unfold DnsRecord.read
  apply decodeResOk_bind (read_qname_decodeResOk arr p [])
  rintro ⟨domain, p1⟩
  apply decodeResOk_bind (read_u16_decodeResOk arr p1)
  rintro ⟨t, p2⟩
  apply decodeResOk_bind (read_u16_decodeResOk arr p2)
  rintro ⟨c, p3⟩
  apply decodeResOk_bind (read_u32_decodeResOk arr p3)
  rintro ⟨ttl, p4⟩
  apply decodeResOk_bind (read_u16_decodeResOk arr p4)
  rintro ⟨dl, p5⟩
  cases hq : QueryType.fromNum t with
  | a =>
    exact decodeResOk_bind (read_u32_decodeResOk arr p5)
      (fun x => match x with | (raw, p6) => decodeResOk_ok _)
  | ns =>
    exact decodeResOk_bind (read_qname_decodeResOk arr p5 [])
      (fun x => match x with | (host, p6) => decodeResOk_ok _)
  | cname =>
    exact decodeResOk_bind (read_qname_decodeResOk arr p5 [])
      (fun x => match x with | (host, p6) => decodeResOk_ok _)
  | mx =>
    exact decodeResOk_bind (read_u16_decodeResOk arr p5)
      (fun x => match x with
        | (pr, p6) =>
          decodeResOk_bind (read_qname_decodeResOk arr p6 [])
            (fun y => match y with | (host, p7) => decodeResOk_ok _))
  | aaaa =>
    exact decodeResOk_bind (read_u32_decodeResOk arr p5)
      (fun x => match x with
        | (r1, p6) =>
          decodeResOk_bind (read_u32_decodeResOk arr p6)
            (fun y => match y with
              | (r2, p7) =>
                decodeResOk_bind (read_u32_decodeResOk arr p7)
                  (fun z => match z with
                    | (r3, p8) =>
                      decodeResOk_bind (read_u32_decodeResOk arr p8)
                        (fun w => match w with | (r4, p9) => decodeResOk_ok _))))
  | unknown n =>
    exact decodeResOk_ok _

theorem header_read_decodeResOk (arr : List Nat) (p : Nat) :
    DecodeResOk (DnsHeader.read arr p) := by
  unfold DnsHeader.read
  apply decodeResOk_bind (read_u16_decodeResOk arr p)
  rintro ⟨id, p1⟩
  apply decodeResOk_bind (read_u16_decodeResOk arr p1)
  rintro ⟨flags, p2⟩
  apply decodeResOk_bind (read_u16_decodeResOk arr p2)
  rintro ⟨qs, p3⟩
  apply decodeResOk_bind (read_u16_decodeResOk arr p3)
  rintro ⟨ans, p4⟩
  apply decodeResOk_bind (read_u16_decodeResOk arr p4)
  rintro ⟨aus, p5⟩
  apply decodeResOk_bind (read_u16_decodeResOk arr p5)
  rintro ⟨res, p6⟩
  exact decodeResOk_ok _

theorem readQuestions_decodeResOk (arr : List Nat) :
    ∀ (n p : Nat), DecodeResOk (readQuestions arr p n) := by
  intro n
  induction n with
  | zero =>
    intro p
    exact decodeResOk_ok _
  | succ k ih =>
    intro p
    unfold readQuestions
    apply decodeResOk_bind (question_read_decodeResOk arr p)
    rintro ⟨q, p1⟩
    apply decodeResOk_bind (ih p1)
    rintro ⟨qs, p2⟩
    exact decodeResOk_ok _

theorem readRecords_decodeResOk (arr : List Nat) :
    ∀ (n p : Nat), DecodeResOk (readRecords arr p n) := by
  intro n
  induction n with
  | zero =>
    intro p
    exact decodeResOk_ok _
  | succ k ih =>
    intro p
    unfold readRecords
    apply decodeResOk_bind (record_read_decodeResOk arr p)
    rintro ⟨r, p1⟩
    apply decodeResOk_bind (ih p1)
    rintro ⟨rs, p2⟩
    exact decodeResOk_ok _

theorem from_buffer_decodeResOk (arr : List Nat) (p : Nat) :
    DecodeResOk (DnsPacket.from_buffer arr p) := by
  unfold DnsPacket.from_buffer
  apply decodeResOk_bind (header_read_decodeResOk arr p)
  rintro ⟨h, p1⟩
  apply decodeResOk_bind (readQuestions_decodeResOk arr h.questions p1)
  rintro ⟨qs, p2⟩
  apply decodeResOk_bind (readRecords_decodeResOk arr h.answers p2)
  rintro ⟨ans, p3⟩
  apply decodeResOk_bind (readRecords_decodeResOk arr h.authoritative_entries p3)
  rintro ⟨aus, p4⟩
  apply decodeResOk_bind (readRecords_decodeResOk arr h.resource_entries p4)
  rintro ⟨res, p5⟩
  exact decodeResOk_ok _

theorem get_append (arr junk : List Nat) (h : arr.length = MAX_BUFFER_SIZE)
    (p : Nat) : DnsBuf.get (arr ++ junk) p = DnsBuf.get arr p := by
  unfold DnsBuf.get
  split
  · rfl
  · rw [List.getD_append]
    omega

theorem get_range_append (arr junk : List Nat)
    (h : arr.length = MAX_BUFFER_SIZE) (s l : Nat) :
    DnsBuf.get_range (arr ++ junk) s l = DnsBuf.get_range arr s l := by
  unfold DnsBuf.get_range
  split
  · rfl
  · have hsl : s + l < MAX_BUFFER_SIZE := by omega
    have hM : MAX_BUFFER_SIZE = 512 := rfl
    congr 1
    rw [List.drop_append_of_le_length (by omega)]
    rw [List.take_append_of_le_length (by simp; omega)]

theorem read_append (arr junk : List Nat) (h : arr.length = MAX_BUFFER_SIZE)
    (p : Nat) : DnsBuf.read (arr ++ junk) p = DnsBuf.read arr p := by
  unfold DnsBuf.read
  split
  · rfl
  · rw [List.getD_append]
    omega

theorem read_fun_append (arr junk : List Nat)
    (h : arr.length = MAX_BUFFER_SIZE) :
    DnsBuf.read (arr ++ junk) = DnsBuf.read arr :=
  funext (read_append arr junk h)

theorem get_fun_append (arr junk : List Nat)
    (h : arr.length = MAX_BUFFER_SIZE) :
    DnsBuf.get (arr ++ junk) = DnsBuf.get arr :=
  funext (get_append arr junk h)

theorem get_range_fun_append (arr junk : List Nat)
    (h : arr.length = MAX_BUFFER_SIZE) :
    DnsBuf.get_range (arr ++ junk) = DnsBuf.get_range arr :=
  funext fun s => funext (get_range_append arr junk h s)

theorem read_u16_append (arr junk : List Nat)
    (h : arr.length = MAX_BUFFER_SIZE) (p : Nat) :
    DnsBuf.read_u16 (arr ++ junk) p = DnsBuf.read_u16 arr p := by
  unfold DnsBuf.read_u16
  rw [read_fun_append arr junk h]

theorem read_u32_append (arr junk : List Nat)
    (h : arr.length = MAX_BUFFER_SIZE) (p : Nat) :
    DnsBuf.read_u32 (arr ++ junk) p = DnsBuf.read_u32 arr p := by
  unfold DnsBuf.read_u32
  rw [read_fun_append arr junk h]

theorem readQnameLoop_append (arr junk : List Nat)
    (h : arr.length = MAX_BUFFER_SIZE) :
    ∀ (selfPos position : Nat) (jumped : Bool) (jumpPerformed : Nat)
      (out delim : List Nat),
    DnsBuf.readQnameLoop (arr ++ junk) selfPos position jumped
      jumpPerformed out delim =
    DnsBuf.readQnameLoop arr selfPos position jumped jumpPerformed
      out delim := by
  intro selfPos position jumped jumpPerformed out delim
  induction selfPos, position, jumped, jumpPerformed, out, delim
    using DnsBuf.readQnameLoop.induct (arr ++ junk) with
  | case1 sp pos j jp out delim hjp =>
    rw [DnsBuf.readQnameLoop.eq_def, if_pos hjp]
    rw [DnsBuf.readQnameLoop.eq_def, if_pos hjp]
  | case2 sp pos j jp out delim hjp e hget =>
    have hget' : DnsBuf.get arr pos = .error e := by
      rw [← get_append arr junk h]
      exact hget
    rw [DnsBuf.readQnameLoop.eq_def, if_neg hjp, hget]
    rw [DnsBuf.readQnameLoop.eq_def, if_neg hjp, hget']
  | case3 sp pos j jp out delim hjp len hget hptr e hb2 =>
    have hget' : DnsBuf.get arr pos = .ok len := by
      rw [← get_append arr junk h]
      exact hget
    have hb2' : DnsBuf.get arr (pos + 1) = .error e := by
      rw [← get_append arr junk h]
      exact hb2
    rw [DnsBuf.readQnameLoop.eq_def, if_neg hjp, hget]
    rw [DnsBuf.readQnameLoop.eq_def, if_neg hjp, hget']
    simp only [hptr, if_pos rfl, hb2, hb2', if_true, if_false]
  | case4 sp pos j jp out delim hjp len hget hptr selfPos' b2 hb2 ih =>
    have hget' : DnsBuf.get arr pos = .ok len := by
      rw [← get_append arr junk h]
      exact hget
    have hb2' : DnsBuf.get arr (pos + 1) = .ok b2 := by
      rw [← get_append arr junk h]
      exact hb2
    rw [DnsBuf.readQnameLoop.eq_def, if_neg hjp, hget]
    rw [DnsBuf.readQnameLoop.eq_def, if_neg hjp, hget']
    simp only [hptr, if_pos rfl, hb2, hb2', if_true, if_false]
    exact ih
  | case5 sp pos j jp out delim hjp hget hptr =>
    have hget' : DnsBuf.get arr pos = .ok 0 := by
      rw [← get_append arr junk h]
      exact hget
    rw [DnsBuf.readQnameLoop.eq_def, if_neg hjp, hget]
    rw [DnsBuf.readQnameLoop.eq_def, if_neg hjp, hget']
    simp only [hptr, if_neg hptr, if_pos rfl, if_true, if_false]
  | case6 sp pos j jp out delim hjp len hget hptr hlen e hrange =>
    have hget' : DnsBuf.get arr pos = .ok len := by
      rw [← get_append arr junk h]
      exact hget
    have hrange' : DnsBuf.get_range arr (pos + 1) len = .error e := by
      rw [← get_range_append arr junk h]
      exact hrange
    rw [DnsBuf.readQnameLoop.eq_def, if_neg hjp, hget]
    rw [DnsBuf.readQnameLoop.eq_def, if_neg hjp, hget']
    simp only [hptr, if_neg hptr, hlen, if_neg hlen, hrange, hrange', if_true, if_false]
  | case7 sp pos j jp out delim hjp len hget hptr hlen bytes hrange ih =>
    have hget' : DnsBuf.get arr pos = .ok len := by
      rw [← get_append arr junk h]
      exact hget
    have hrange' : DnsBuf.get_range arr (pos + 1) len = .ok bytes := by
      rw [← get_range_append arr junk h]
      exact hrange
    rw [DnsBuf.readQnameLoop.eq_def, if_neg hjp, hget]
    rw [DnsBuf.readQnameLoop.eq_def, if_neg hjp, hget']
    simp only [hptr, if_neg hptr, hlen, if_neg hlen, hrange, hrange', if_true, if_false]
    exact ih

theorem read_qname_append (arr junk : List Nat)
    (h : arr.length = MAX_BUFFER_SIZE) (sp : Nat) (out : List Nat) :
    DnsBuf.read_qname (arr ++ junk) sp out = DnsBuf.read_qname arr sp out :=
  readQnameLoop_append arr junk h sp sp false 0 out []

theorem read_u16_fun_append (arr junk : List Nat)
    (h : arr.length = MAX_BUFFER_SIZE) :
    DnsBuf.read_u16 (arr ++ junk) = DnsBuf.read_u16 arr :=
  funext (read_u16_append arr junk h)

theorem read_u32_fun_append (arr junk : List Nat)
    (h : arr.length = MAX_BUFFER_SIZE) :
    DnsBuf.read_u32 (arr ++ junk) = DnsBuf.read_u32 arr :=
  funext (read_u32_append arr junk h)

theorem read_qname_fun_append (arr junk : List Nat)
    (h : arr.length = MAX_BUFFER_SIZE) :
    DnsBuf.read_qname (arr ++ junk) = DnsBuf.read_qname arr :=
  funext fun sp => funext (read_qname_append arr junk h sp)

theorem header_read_append (arr junk : List Nat)
    (h : arr.length = MAX_BUFFER_SIZE) (p : Nat) :
    DnsHeader.read (arr ++ junk) p = DnsHeader.read arr p := by
  unfold DnsHeader.read
  rw [read_u16_fun_append arr junk h]

theorem question_read_append (arr junk : List Nat)
    (h : arr.length = MAX_BUFFER_SIZE) (p : Nat) :
    DnsQuestion.read (arr ++ junk) p = DnsQuestion.read arr p := by
  unfold DnsQuestion.read
  rw [read_qname_fun_append arr junk h, read_u16_fun_append arr junk h]

theorem record_read_append (arr junk : List Nat)
    (h : arr.length = MAX_BUFFER_SIZE) (p : Nat) :
    DnsRecord.read (arr ++ junk) p = DnsRecord.read arr p := by
  unfold DnsRecord.read
  rw [read_qname_fun_append arr junk h, read_u16_fun_append arr junk h,
    read_u32_fun_append arr junk h]

theorem readQuestions_append (arr junk : List Nat)
    (h : arr.length = MAX_BUFFER_SIZE) :
    ∀ (n p : Nat), readQuestions (arr ++ junk) p n = readQuestions arr p n := by
  intro n
  induction n with
  | zero =>
    intro p
    rfl
  | succ k ih =>
    intro p
    unfold readQuestions
    simp only [question_read_append arr junk h, ih]

theorem readRecords_append (arr junk : List Nat)
    (h : arr.length = MAX_BUFFER_SIZE) :
    ∀ (n p : Nat), readRecords (arr ++ junk) p n = readRecords arr p n := by
  intro n
  induction n with
  | zero =>
    intro p
    rfl
  | succ k ih =>
    intro p
    unfold readRecords
    simp only [record_read_append arr junk h, ih]

theorem from_buffer_append (arr junk : List Nat)
    (h : arr.length = MAX_BUFFER_SIZE) (p : Nat) :
    DnsPacket.from_buffer (arr ++ junk) p = DnsPacket.from_buffer arr p := by
  unfold DnsPacket.from_buffer
  simp only [header_read_append arr junk h, readQuestions_append arr junk h,
    readRecords_append arr junk h]

/-- **C4.** For every buffer contents and start position, `DnsPacket::from_buffer`
(which terminates by construction: `readQnameLoop` is well-founded and the
section loops are bounded by the header counters) either returns a packet or
fails with one of the enumerated decode errors `EndOfBuffer` or
`LimitOfJumpsExceeded 5`; its result depends only on the first 512 bytes
(appending junk beyond byte 511 never changes the outcome, i.e. no byte
beyond index 511 is ever accessed), every primitive access at an index ≥ 512
fails with `EndOfBuffer`, and the name reader fails with
`LimitOfJumpsExceeded 5` as soon as more than 5 pointers have been chased. -/
theorem from_buffer_safety :
    (∀ (arr : List Nat) (pos : Nat),
      DecodeResOk (DnsPacket.from_buffer arr pos)) ∧
    (∀ (arr junk : List Nat) (pos : Nat), arr.length = MAX_BUFFER_SIZE →
      DnsPacket.from_buffer (arr ++ junk) pos = DnsPacket.from_buffer arr pos) ∧
    (∀ (arr : List Nat) (p : Nat), MAX_BUFFER_SIZE ≤ p →
      DnsBuf.get arr p = .error .endOfBuffer) ∧
    (∀ (arr : List Nat) (selfPos position : Nat) (jumped : Bool)
        (out delim : List Nat) (jp : Nat), 5 < jp →
      DnsBuf.readQnameLoop arr selfPos position jumped jp out delim =
        .error (.limitOfJumpsExceeded 5)) := by
  refine ⟨?_, ?_, ?_, ?_⟩
  · intro arr pos
    exact from_buffer_decodeResOk arr pos
  · intro arr junk pos h
    exact from_buffer_append arr junk h pos
  · intro arr p hp
    unfold DnsBuf.get
    rw [if_pos hp]
  · intro arr selfPos position jumped out delim jp hjp
    exact readQnameLoop_guard arr selfPos position jumped out delim jp hjp

set_option maxRecDepth 8000 in
/-- Closed witness for C4: the hypotheses are satisfiable and the conclusions
evaluate on concrete inputs. -/
theorem from_buffer_safety_witness :
    DnsPacket.from_buffer (List.replicate 512 0 ++ [9]) 0 =
      DnsPacket.from_buffer (List.replicate 512 0) 0 ∧
    DnsBuf.get (List.replicate 512 0) 600 = .error .endOfBuffer ∧
    DnsBuf.readQnameLoop (List.replicate 512 0) 0 0 false 7 [] [] =
      .error (.limitOfJumpsExceeded 5) :=
  ⟨from_buffer_safety.2.1 (List.replicate 512 0) [9] 0
     (by simp [MAX_BUFFER_SIZE]),
   from_buffer_safety.2.2.1 (List.replicate 512 0) 600 (by decide),
   from_buffer_safety.2.2.2 (List.replicate 512 0) 0 0 false [] [] 7
     (by decide)⟩
